import Mathlib

/-! Podcast backend: TTL cache, sliding-window rate limiter, their middleware, and the
episode directory.

A shallow embedding of `internal/middleware/cache.go`,
`internal/middleware/ratelimit.go`, `internal/models/episode.go` and the id handling of
`internal/handlers/episodes.go`.

Modelling conventions.

* `time.Time` values are instants of the process clock counted in nanoseconds
  (`Time := Int`), `time.Duration` is a nanosecond count (`Duration := Int`).
  `now.Sub(t)`, `now.Add(d)` and `t.After(u)` are integer subtraction, addition
  and strict comparison.  The functions that read `time.Now()` take the
  instant read as an explicit argument `now`.  Instants are mathematical
  integers: the saturation of `Sub`, which needs two readings of the clock
  more than 292 years apart, is outside the model.  The arithmetic the rate
  limiter does on its window, `-rl.window` and `-rl.window * 2`, is `int64`
  arithmetic and wraps around (`neg64`, `wrap64`).
* A Go `map[string]V` is a finite association list with pairwise distinct
  keys (`GoMap V`); `range` over a map is a fold over its entries, each key
  visited once.  The order of the bindings carries no meaning (`m[k] = v`
  puts the binding first).
* `[]byte` is `List UInt8`; the `nil` slice is the empty list.
* The mutexes serialise the operations; every operation is modelled as one
  atomic state transition.
* `cleanup` is an endless loop driven by a ticker; `cleanupPass` is the body
  executed on one tick.
* The middleware is written against gin. The response is the state of the gin
  writer: status, bytes written, and the headers as they stood at the first
  write (`sentHeaders`).  The header map stays changeable after the first
  write, as in net/http, and such changes are not part of the response.
* `encoding/json`, `time.Format` and `sort.Slice` are library code: the first
  two are parameters, the third is the insertion sort of package `sort`.
  `strconv.Atoi` and `strconv.Itoa` are modelled on decimal strings; the file
  system read by `loadEpisodes` is a parameter.
-/

namespace Podcast

/-! ## Go maps with string keys -/

/-- Value bound to `k` in an association list (first binding). -/
def lookupKey {V : Type} : List (String × V) → String → Option V
  | [], _ => none
  | (k', v) :: rest, k => if k' = k then some v else lookupKey rest k

/-- All bindings whose key differs from `k`. -/
def removeKey {V : Type} : List (String × V) → String → List (String × V)
  | [], _ => []
  | (k', v) :: rest, k => if k' = k then removeKey rest k else (k', v) :: removeKey rest k

theorem removeKey_sublist {V : Type} (l : List (String × V)) (k : String) :
    (removeKey l k).Sublist l := by
  induction l with
  | nil => exact List.Sublist.slnil
  | cons p rest ih =>
    obtain ⟨k', v⟩ := p
    by_cases h : k' = k
    · simpa [removeKey, h] using ih.cons _
    · simpa [removeKey, h] using ih

theorem removeKey_keys_sublist {V : Type} (l : List (String × V)) (k : String) :
    ((removeKey l k).map Prod.fst).Sublist (l.map Prod.fst) :=
  (removeKey_sublist l k).map Prod.fst

theorem not_mem_removeKey_keys {V : Type} (l : List (String × V)) (k : String) :
    k ∉ (removeKey l k).map Prod.fst := by
  induction l with
  | nil => simp [removeKey]
  | cons p rest ih =>
    obtain ⟨k', v⟩ := p
    by_cases h : k' = k
    · simpa [removeKey, h] using ih
    · have h' : ¬ k = k' := fun e => h e.symm
      simpa [removeKey, h, h'] using ih

theorem removeKey_nodup {V : Type} (l : List (String × V)) (k : String)
    (h : (l.map Prod.fst).Nodup) : ((removeKey l k).map Prod.fst).Nodup :=
  h.sublist (removeKey_keys_sublist l k)

theorem cons_removeKey_nodup {V : Type} (l : List (String × V)) (k : String) (v : V)
    (h : (l.map Prod.fst).Nodup) : (((k, v) :: removeKey l k).map Prod.fst).Nodup := by
  rw [List.map_cons, List.nodup_cons]
  exact ⟨not_mem_removeKey_keys l k, removeKey_nodup l k h⟩

/-- A Go `map[string]V`: finitely many bindings, at most one per key. -/
structure GoMap (V : Type) where
  entries : List (String × V)
  nodup : (entries.map Prod.fst).Nodup

namespace GoMap

/-- The map built by `make(map[string]V)`. -/
def empty {V : Type} : GoMap V := ⟨[], List.nodup_nil⟩

/-- The comma-ok read `v, exists := m[k]`. -/
def get {V : Type} (m : GoMap V) (k : String) : Option V := lookupKey m.entries k

/-- The builtin `delete(m, k)`. -/
def delete {V : Type} (m : GoMap V) (k : String) : GoMap V :=
  ⟨removeKey m.entries k, removeKey_nodup m.entries k m.nodup⟩

/-- The assignment `m[k] = v`. -/
def set {V : Type} (m : GoMap V) (k : String) (v : V) : GoMap V :=
  ⟨(k, v) :: removeKey m.entries k, cons_removeKey_nodup m.entries k v m.nodup⟩

end GoMap

/-! ## cache.go -/

abbrev Time := Int
abbrev Duration := Int
abbrev Bytes := List UInt8

/-- The struct `CacheEntry`. -/
structure CacheEntry where
  Data : Bytes
  Timestamp : Time
  TTL : Duration
deriving DecidableEq, Repr

/-- The struct `CacheManager` (the mutex is not state). -/
structure CacheManager where
  cache : GoMap CacheEntry

namespace CacheManager

/-- The state built by `NewCacheManager`. -/
def new : CacheManager := ⟨GoMap.empty⟩

/-- `CacheManager.Get` called when the clock reads `now`. -/
def Get (cm : CacheManager) (key : String) (now : Time) : Bytes × Bool :=
  match cm.cache.get key with
  | none => ([], false)
  | some entry =>
    if now - entry.Timestamp > entry.TTL then ([], false)
    else (entry.Data, true)

/-- `CacheManager.Set` called when the clock reads `now`. -/
def Set (cm : CacheManager) (key : String) (data : Bytes) (ttl : Duration) (now : Time) :
    CacheManager :=
  ⟨cm.cache.set key ⟨data, now, ttl⟩⟩

/-- `CacheManager.Delete`. -/
def Delete (cm : CacheManager) (key : String) : CacheManager :=
  ⟨cm.cache.delete key⟩

/-- One iteration of the `range cm.cache` loop of `cleanup`. -/
def cleanupStep (now : Time) (cm : CacheManager) (kv : String × CacheEntry) : CacheManager :=
  if now - kv.2.Timestamp > kv.2.TTL then ⟨cm.cache.delete kv.1⟩ else cm

/-- The body of `cleanup` run on one tick, the clock reading `now`. The cutoff is
`now.Add(-rl.window * 2)`, negation and product being those of `int64`. -/
def cleanupPass (cm : CacheManager) (now : Time) : CacheManager :=
  cm.cache.entries.foldl (cleanupStep now) cm

end CacheManager

/-- The operations that change a cache, each with the clock reading it sees. -/
inductive CacheOp where
  | set (key : String) (data : Bytes) (ttl : Duration) (now : Time)
  | delete (key : String)
  | sweep (now : Time)
deriving DecidableEq, Repr

namespace CacheOp

/-- The operation is a `Set` or a `Delete` of `key`. -/
def writes (key : String) : CacheOp → Bool
  | .set k _ _ _ => decide (k = key)
  | .delete k => decide (k = key)
  | .sweep _ => false

/-- The operation is a `Set` of `key`. -/
def sets (key : String) : CacheOp → Bool
  | .set k _ _ _ => decide (k = key)
  | _ => false

/-- The sweep, if the operation is one, runs no later than `t`. -/
def sweepsBy (t : Time) : CacheOp → Bool
  | .sweep now => decide (now ≤ t)
  | _ => true

end CacheOp

namespace CacheManager

/-- Effect of one operation. -/
def step (cm : CacheManager) : CacheOp → CacheManager
  | .set key data ttl now => cm.Set key data ttl now
  | .delete key => cm.Delete key
  | .sweep now => cm.cleanupPass now

/-- Effect of a sequence of operations, first to last. -/
def run (cm : CacheManager) (ops : List CacheOp) : CacheManager :=
  ops.foldl step cm

end CacheManager

/-! ## ratelimit.go -/

/-- The least value of `int64`, `math.MinInt64`. -/
def MinInt64 : Int := -9223372036854775808

/-- The value an integer takes when stored in an `int64`: two's complement wrap-around. -/
def wrap64 (n : Int) : Int :=
  (n + 9223372036854775808) % 18446744073709551616 - 9223372036854775808

/-- The negation `-d` of a `time.Duration`, an `int64`: the opposite of `d`, except that
`math.MinInt64` is its own negation. -/
def neg64 (d : Duration) : Duration :=
  if d = MinInt64 then MinInt64 else -d

/-- The struct `RateLimiter` (the mutex is not state). -/
structure RateLimiter where
  requests : GoMap (List Time)
  limit : Int
  window : Duration

/-- The state built by `NewRateLimiter`. -/
def NewRateLimiter (limit : Int) (window : Duration) : RateLimiter :=
  ⟨GoMap.empty, limit, window⟩

/-- The pruning loop shared by `IsAllowed` and `cleanup`: starting from the nil slice,
append every `reqTime` with `reqTime.After(cutoff)`. -/
def keepAfter (cutoff : Time) (requests : List Time) : List Time :=
  requests.foldl
    (fun validRequests reqTime =>
      if reqTime > cutoff then validRequests ++ [reqTime] else validRequests)
    []

namespace RateLimiter

/-- `RateLimiter.IsAllowed` called when the clock reads `now`: the boolean returned and
the state left behind. The cutoff is `now.Add(-rl.window)`, the negation being that of
`int64`. -/
def IsAllowed (rl : RateLimiter) (ip : String) (now : Time) : Bool × RateLimiter :=
  let cutoff := now + neg64 rl.window
  let requests := match rl.requests.get ip with
    | some requests => requests
    | none => []
  let validRequests := keepAfter cutoff requests
  if (validRequests.length : Int) ≥ rl.limit then
    (false, { rl with requests := rl.requests.set ip validRequests })
  else
    (true, { rl with requests := rl.requests.set ip (validRequests ++ [now]) })

/-- One iteration of the `range rl.requests` loop of `cleanup`. -/
def cleanupStep (cutoff : Time) (rl : RateLimiter) (kv : String × List Time) : RateLimiter :=
  let validRequests := keepAfter cutoff kv.2
  if validRequests.length = 0 then { rl with requests := rl.requests.delete kv.1 }
  else { rl with requests := rl.requests.set kv.1 validRequests }

/-- The body of `cleanup` run on one tick, the clock reading `now`. The cutoff is
`now.Add(-rl.window * 2)`, negation and product being those of `int64`. -/
def cleanupPass (rl : RateLimiter) (now : Time) : RateLimiter :=
  let cutoff := now + wrap64 (neg64 rl.window * 2)
  rl.requests.entries.foldl (cleanupStep cutoff) rl

/-- Successive calls of `IsAllowed` for one client at the given clock readings: the
booleans returned, in order, and the final state. -/
def callAll (rl : RateLimiter) (ip : String) : List Time → List Bool × RateLimiter
  | [] => ([], rl)
  | now :: later =>
    let r := rl.IsAllowed ip now
    let rest := callAll r.2 ip later
    (r.1 :: rest.1, rest.2)

end RateLimiter

/-- The operations that change a rate limiter, each with the clock reading it sees. -/
inductive RateOp where
  | call (ip : String) (now : Time)
  | sweep (now : Time)
deriving DecidableEq, Repr

namespace RateOp

/-- Clock reading of the operation. -/
def time : RateOp → Time
  | .call _ now => now
  | .sweep now => now

end RateOp

namespace RateLimiter

/-- Effect of one operation on the state. -/
def step (rl : RateLimiter) : RateOp → RateLimiter
  | .call ip now => (rl.IsAllowed ip now).2
  | .sweep now => rl.cleanupPass now

/-- Effect of a sequence of operations, first to last. -/
def run (rl : RateLimiter) (ops : List RateOp) : RateLimiter :=
  ops.foldl step rl

/-- Clock reading of the latest `IsAllowed` call for `ip` seen so far, updated by one
more operation. -/
def noteCall (ip : String) (seen : Option Time) : RateOp → Option Time
  | .call ip' now => if ip' = ip then some now else seen
  | .sweep _ => seen

/-- Clock reading of the latest `IsAllowed` call for `ip` in a sequence of operations. -/
def lastCall (ip : String) (ops : List RateOp) : Option Time :=
  ops.foldl (noteCall ip) none

/-- Every retained timestamp `t` of every client satisfies `now - t < window`. -/
def retainedInWindow (rl : RateLimiter) (now : Time) : Bool :=
  rl.requests.entries.all (fun kv => kv.2.all (fun t => decide (now - t < rl.window)))

end RateLimiter

/-- The timestamps recorded for a client: the slice bound to it, nil when it is not
tracked. -/
def RateLimiter.recorded (rl : RateLimiter) (ip : String) : List Time :=
  (rl.requests.get ip).getD []

/-- The window `IsAllowed` applies: a timestamp `t` passes `t.After(now.Add(-window))`
exactly when `now - t` is less than it. It is `window`, except for `math.MinInt64`. -/
def RateLimiter.checkWindow (rl : RateLimiter) : Duration :=
  -(neg64 rl.window)

/-- The age below which the sweep keeps a timestamp: `t` passes
`t.After(now.Add(-window * 2))` exactly when `now - t` is less than it. It is
`2 * window` when `-window * 2` does not overflow. -/
def RateLimiter.sweepWindow (rl : RateLimiter) : Duration :=
  -(wrap64 (neg64 rl.window * 2))

/-- The timestamps of `ts` inside the trailing window at `now`: those with
`now - t < window`, in their order. -/
def inWindow (now : Time) (window : Duration) (ts : List Time) : List Time :=
  ts.filter (fun t => decide (now - t < window))

/-- The clock readings of a sequence of operations never go back. -/
def nonDecreasing : List RateOp → Bool
  | [] => true
  | [_] => true
  | a :: b :: rest => decide (a.time ≤ b.time) && nonDecreasing (b :: rest)

/-! ## The gin API the middleware is written against

The middleware functions act on a `*gin.Context`. The fragment of gin they use is
modelled as state passing over `Context`: the response writer (header map, status,
bytes written, headers sent), the abort flag and the number of times the rest of the
handler chain was run. The rest of the chain, run by `c.Next()`, is the list of calls it makes on the
context while serving the request. Header names are written as in the source; gin
canonicalises them the same way on writing and on reading. -/

/-- The fields of `c.Request` the middleware reads, and the result of `c.ClientIP()`. -/
structure Request where
  Method : String
  Path : String
  RawQuery : String
  ClientIP : String
deriving DecidableEq, Repr

/-- UTF-8 bytes of a string: the conversion `[]byte(s)`. -/
def utf8 (s : String) : Bytes :=
  s.data.flatMap String.utf8EncodeChar

/-- The response writer of gin: the header map, the status code (200 until one is
written) and the bytes written; `wrote` is `none` while the response is not yet
written. `sent` is the header map as it stood at the first write: net/http sends the
status line and the headers then, and a later change of the map is not part of the
response; it is `none` while the response is not yet written. -/
structure ResponseWriter where
  header : GoMap String
  status : Int
  wrote : Option Bytes
  sent : Option (GoMap String)

namespace ResponseWriter

/-- The writer of a new request. -/
def fresh : ResponseWriter := ⟨GoMap.empty, 200, none, none⟩

/-- The method `Written`. -/
def Written (w : ResponseWriter) : Bool := w.wrote.isSome

/-- The bytes written so far. -/
def body (w : ResponseWriter) : Bytes := w.wrote.getD []

/-- The method `Status`. -/
def Status (w : ResponseWriter) : Int := w.status

/-- The method `WriteHeader`: a positive code different from the current one replaces
it, unless the response is already written. -/
def WriteHeader (w : ResponseWriter) (code : Int) : ResponseWriter :=
  if code > 0 ∧ w.status ≠ code then
    (if w.Written then w else { w with status := code })
  else w

/-- The headers of the response: those fixed at the first write, and the header map
itself while nothing is written (gin writes the headers when the handlers return). -/
def sentHeaders (w : ResponseWriter) : GoMap String := w.sent.getD w.header

/-- The value of a header of the response, if the response carries it. -/
def sentHeader (w : ResponseWriter) (key : String) : Option String :=
  w.sentHeaders.get key

/-- The method `WriteHeaderNow`: the first call sends the status line and the headers. -/
def WriteHeaderNow (w : ResponseWriter) : ResponseWriter :=
  { w with wrote := some w.body, sent := some w.sentHeaders }

/-- The method `Write`: `WriteHeaderNow`, then the bytes. -/
def Write (w : ResponseWriter) (data : Bytes) : ResponseWriter :=
  { w with wrote := some (w.body ++ data), sent := some w.sentHeaders }

/-- The method `WriteString`: `WriteHeaderNow`, then the bytes of the string. -/
def WriteString (w : ResponseWriter) (s : String) : ResponseWriter :=
  { w with wrote := some (w.body ++ utf8 s), sent := some w.sentHeaders }

/-- The header assignment `w.Header().Set(key, value)`. -/
def SetHeader (w : ResponseWriter) (key value : String) : ResponseWriter :=
  { w with header := w.header.set key value }

/-- The header removal `w.Header().Del(key)`. -/
def DelHeader (w : ResponseWriter) (key : String) : ResponseWriter :=
  { w with header := w.header.delete key }

end ResponseWriter

/-- A call the rest of the handler chain makes on the context. -/
inductive HandlerCall where
  | Write (data : Bytes)
  | WriteString (s : String)
  | WriteHeader (code : Int)
  | Header (key value : String)
deriving DecidableEq, Repr

/-- The bytes a call writes to the body. -/
def HandlerCall.payload : HandlerCall → Bytes
  | .Write data => data
  | .WriteString s => utf8 s
  | .WriteHeader _ => []
  | .Header _ _ => []

/-- The struct `gin.Context` as the middleware sees it. `wrappers` holds the `body` of
every `responseWriter` of cache.go installed as `c.Writer`, innermost first. -/
structure Context where
  Request : Request
  Writer : ResponseWriter
  wrappers : List Bytes
  aborted : Bool
  nextCalls : Nat

/-- The rest of the handler chain, as far as one request goes: the calls it makes on the
context, in order. -/
abbrev Handler := List HandlerCall

/-- A value of a `gin.H` map. -/
inductive JSONValue where
  | str (s : String)
  | num (n : Int)
deriving DecidableEq, Repr

/-- A `gin.H` literal, the fields in source order. -/
abbrev H := List (String × JSONValue)

namespace Context

/-- The context gin hands to the first handler of a request. -/
def new (r : Podcast.Request) : Context := ⟨r, ResponseWriter.fresh, [], false, 0⟩

/-- The method `c.Header`: an empty value removes the header. -/
def Header (c : Context) (key value : String) : Context :=
  if value = "" then { c with Writer := c.Writer.DelHeader key }
  else { c with Writer := c.Writer.SetHeader key value }

/-- The method `c.Status`. -/
def Status (c : Context) (code : Int) : Context :=
  { c with Writer := c.Writer.WriteHeader code }

/-- The method `c.Abort`. -/
def Abort (c : Context) : Context := { c with aborted := true }

/-- The methods `Write` and `WriteString` of `c.Writer`: every installed
`responseWriter` appends the bytes to its `body` and passes them on. -/
def writeBody (c : Context) (data : Bytes) : Context :=
  { c with Writer := c.Writer.Write data, wrappers := c.wrappers.map (fun b => b ++ data) }

/-- Status codes that allow a body (`bodyAllowedForStatus`). -/
def bodyAllowedForStatus (status : Int) : Bool :=
  if 100 ≤ status ∧ status ≤ 199 then false
  else if status = 204 then false
  else if status = 304 then false
  else true

/-- The method `c.Render` for a renderer that writes `payload` with content type
`contentType`: the content type is set only when the header is absent. -/
def Render (c : Context) (code : Int) (contentType : String) (payload : Bytes) : Context :=
  let c1 := c.Status code
  let c2 : Context :=
    match c1.Writer.header.get "Content-Type" with
    | some _ => c1
    | none => { c1 with Writer := c1.Writer.SetHeader "Content-Type" contentType }
  if bodyAllowedForStatus code then c2.writeBody payload
  else { c2 with Writer := c2.Writer.WriteHeaderNow }

/-- The method `c.Data`. -/
def Data (c : Context) (code : Int) (contentType : String) (data : Bytes) : Context :=
  c.Render code contentType data

/-- The method `c.JSON`, the encoder of `encoding/json` being `marshal`. -/
def JSON (marshal : H → Bytes) (c : Context) (code : Int) (obj : H) : Context :=
  c.Render code "application/json; charset=utf-8" (marshal obj)

/-- Effect of one call of the rest of the chain. -/
def call (c : Context) : HandlerCall → Context
  | .Write data => c.writeBody data
  | .WriteString s => c.writeBody (utf8 s)
  | .WriteHeader code => c.Status code
  | .Header key value => c.Header key value

/-- The method `c.Next`: the rest of the chain runs once on the context. -/
def Next (c : Context) (next : Handler) : Context :=
  next.foldl call { c with nextCalls := c.nextCalls + 1 }

end Context

/-! ## cache.go: the middleware `Cache` -/

/-- The cache key of a request: `Path`, followed by `"?" + RawQuery` when the raw query
is not empty. -/
def cacheKey (r : Request) : String :=
  if r.RawQuery ≠ "" then r.Path ++ ("?" ++ r.RawQuery) else r.Path

/-- The handler returned by `Cache(ttl)`, run on the context `c` with the global cache
in state `cm`; `next` is the rest of the chain, `readNow` the clock reading of
`cacheManager.Get` and `setNow` that of `cacheManager.Set`. -/
def Cache (ttl : Duration) (next : Handler) (readNow setNow : Time) (cm : CacheManager)
    (c : Context) : Context × CacheManager :=
  if c.Request.Method ≠ "GET" then (c.Next next, cm)
  else
    let key := cacheKey c.Request
    let cached := cm.Get key readNow
    if cached.2 then
      ((((c.Header "X-Cache" "HIT").Header "Content-Type" "application/json").Data 200
          "application/json" cached.1).Abort, cm)
    else
      let c1 := { c with wrappers := [] :: c.wrappers }
      let c2 := c1.Next next
      let body := c2.wrappers.headD []
      if c2.Writer.Status = 200 ∧ body.length > 0 then
        (c2.Header "X-Cache" "MISS", cm.Set key body ttl setNow)
      else (c2, cm)

/-! ## ratelimit.go: the middleware `RateLimit` and `RateLimitWithConfig` -/

/-- The conversion `rune(n)` of an `int`: the low 32 bits, signed. -/
def rune (n : Int) : Int := (n + 2147483648) % 4294967296 - 2147483648

/-- The conversion `string(r)` of a rune: the UTF-8 string of the code point, and
the replacement character U+FFFD for a value that is no code point. -/
def runeString (r : Int) : String :=
  if (0 ≤ r ∧ r < 55296) ∨ (57344 ≤ r ∧ r ≤ 1114111) then
    String.singleton (Char.ofNat r.toNat)
  else String.singleton (Char.ofNat 65533)

/-- The decimal rendering `strconv.Itoa`. -/
def Itoa (n : Int) : String := toString n

/-- The constant `http.StatusTooManyRequests`. -/
def StatusTooManyRequests : Int := 429

/-- The constant `time.Minute`, in nanoseconds. -/
def Minute : Duration := 60000000000

/-- The body of a rejected request. -/
def rateLimitBody : H :=
  [("error", .str "rate_limit_exceeded"),
   ("message", .str "Too many requests. Please try again later."),
   ("code", .num StatusTooManyRequests)]

/-- The handler returned by `RateLimitWithConfig(limit, window)`, run on the context
`c`; `rl` is the state of the limiter the middleware built with `NewRateLimiter(limit,
window)`, `checkNow` the clock reading of `IsAllowed`, `headerNow` that of the reset
header, `rfc3339` the rendering `Format(time.RFC3339)`. -/
def RateLimitWithConfig (limit : Int) (window : Duration) (marshal : H → Bytes)
    (rfc3339 : Time → String) (next : Handler) (checkNow headerNow : Time)
    (rl : RateLimiter) (c : Context) : Context × RateLimiter :=
  let clientIP := c.Request.ClientIP
  let r := rl.IsAllowed clientIP checkNow
  if !r.1 then
    (((((c.Header "X-RateLimit-Limit" (runeString (rune limit))).Header
          "X-RateLimit-Remaining" "0").Header
          "X-RateLimit-Reset" (rfc3339 (headerNow + window))).JSON marshal
          StatusTooManyRequests rateLimitBody).Abort, r.2)
  else (c.Next next, r.2)

/-- The handler returned by `RateLimit()`, on the global limiter `rateLimiter`, built by
`NewRateLimiter(100, time.Minute)`. -/
def RateLimit (marshal : H → Bytes) (rfc3339 : Time → String) (next : Handler)
    (checkNow headerNow : Time) (rateLimiter : RateLimiter) (c : Context) :
    Context × RateLimiter :=
  let clientIP := c.Request.ClientIP
  let r := rateLimiter.IsAllowed clientIP checkNow
  if !r.1 then
    (((((c.Header "X-RateLimit-Limit" "100").Header
          "X-RateLimit-Remaining" "0").Header
          "X-RateLimit-Reset" (rfc3339 (headerNow + Minute))).JSON marshal
          StatusTooManyRequests rateLimitBody).Abort, r.2)
  else (c.Next next, r.2)

/-! ## models/episode.go -/

/-- The struct `Episode`. -/
structure Episode where
  ID : String
  Number : Int
  Title : String
  Description : String
  Duration : String
  PublishDate : String
  ArtworkURL : String
  ArtworkAlt : String
  AudioURL : String
  Tags : List String
deriving DecidableEq, Repr

/-- The struct `EpisodeService`. -/
structure EpisodeService where
  episodes : List Episode

/-- The inner loop of the insertion sort of package `sort`: the element `x`, at index
`j`, is swapped with its left neighbour while `less x neighbour` holds. The sorted part
to the left of `x` is given last element first, and so is the result. -/
def sink {α : Type} (less : α → α → Bool) (x : α) : List α → List α
  | [] => [x]
  | y :: ys => if less x y then y :: sink less x ys else x :: y :: ys

/-- The call `sort.Slice(data, less)`, `less` taken on elements: the insertion sort the
library runs on slices of at most 12 elements. On longer slices the library runs a
pattern-defeating quicksort, which returns a permutation ordered by `less` as well and
may order elements that compare equal differently. -/
def sortSlice {α : Type} (less : α → α → Bool) (data : List α) : List α :=
  (data.foldl (fun sortedRev x => sink less x sortedRev) []).reverse

namespace EpisodeService

/-- The comparison passed to `sort.Slice` by `GetAll`. -/
def numberDescending (a b : Episode) : Bool := decide (a.Number > b.Number)

/-- `EpisodeService.GetAll`: the slice returned, and the service afterwards (the sort
runs on a copy). -/
def GetAll (s : EpisodeService) : List Episode × EpisodeService :=
  let episodes := s.episodes
  (sortSlice numberDescending episodes, s)

/-- The loop of `GetByID`: the first episode whose `ID` is `id`. -/
def findByID (id : String) : List Episode → Option Episode
  | [] => none
  | episode :: rest => if episode.ID = id then some episode else findByID id rest

/-- `EpisodeService.GetByID`: the episode, or the error. -/
def GetByID (s : EpisodeService) (id : String) : Except String Episode :=
  match findByID id s.episodes with
  | some episode => .ok episode
  | none => .error ("episode with ID " ++ id ++ " not found")

end EpisodeService

/-! ## models/episode.go: the featured episode and the construction of the service -/

namespace EpisodeService

/-- One iteration of the loop of `GetFeatured`: the episode at index `i` replaces
`featured` when `featured` is nil or has a smaller `Number`. -/
def featuredStep (featured : Option Episode) (episode : Episode) : Option Episode :=
  match featured with
  | none => some episode
  | some f => if episode.Number > f.Number then some episode else some f

/-- `EpisodeService.GetFeatured`: the pointer returned (`none` for nil) and the error
(`none` for nil). -/
def GetFeatured (s : EpisodeService) : Option Episode × Option String :=
  if s.episodes.length = 0 then (none, some "no episodes available")
  else (s.episodes.foldl featuredStep none, none)

end EpisodeService

/-- The function `getDefaultEpisodes`. -/
def getDefaultEpisodes : List Episode :=
  [{ ID := "ep001",
     Number := 1,
     Title := "Welcome to Our Podcast",
     Description := "In our inaugural episode, we introduce ourselves and share what you can expect from this podcast.",
     Duration := "25:30",
     PublishDate := "2025-01-01",
     ArtworkURL := "/assets/images/ep001.svg",
     ArtworkAlt := "Episode 1 artwork",
     AudioURL := "/assets/audio/mock.mp3",
     Tags := ["introduction", "welcome"] },
   { ID := "ep002",
     Number := 2,
     Title := "Getting Started",
     Description := "We dive into the basics and share some fundamental concepts.",
     Duration := "32:15",
     PublishDate := "2025-01-08",
     ArtworkURL := "/assets/images/ep002.svg",
     ArtworkAlt := "Episode 2 artwork",
     AudioURL := "/assets/audio/mock.mp3",
     Tags := ["basics", "fundamentals"] }]

/-- What `loadEpisodes` meets outside the program: which paths `os.Stat` reports as not
existing, what `os.Open` followed by `io.ReadAll` yields for a path (the bytes, or which
of the two failed), and what `json.Unmarshal(data, &s.episodes)` does: the slice it
leaves in `s.episodes`, which may be partly decoded, and its error. -/
structure World where
  notExist : String → Bool
  openFails : String → Bool
  readAll : String → Option Bytes
  unmarshal : Bytes → List Episode → List Episode × Option String

namespace EpisodeService

/-- `loadEpisodes`: the service afterwards and the error returned (`none` for nil). Paths
are joined with `/`. -/
def loadEpisodes (w : World) (s : EpisodeService) : EpisodeService × Option String :=
  let contentPath := "../../frontend/site/content/episodes.json"
  let contentPath :=
    if w.notExist contentPath then "app/frontend/site/content/episodes.json" else contentPath
  if w.openFails contentPath then (s, some "failed to open episodes file")
  else
    match w.readAll contentPath with
    | none => (s, some "failed to read episodes file")
    | some data =>
      let r := w.unmarshal data s.episodes
      match r.2 with
      | some _ => ({ s with episodes := r.1 }, some "failed to parse episodes JSON")
      | none => ({ s with episodes := r.1 }, none)

end EpisodeService

/-- `NewEpisodeService`. -/
def NewEpisodeService (w : World) : EpisodeService :=
  let service : EpisodeService := ⟨[]⟩
  let r := service.loadEpisodes w
  match r.2 with
  | some _ => { r.1 with episodes := getDefaultEpisodes }
  | none => r.1

/-! ## handlers/episodes.go -/

/-- Value of a decimal digit, `none` for any other character. -/
def digitOf (ch : Char) : Option Nat :=
  if 48 ≤ ch.toNat ∧ ch.toNat ≤ 57 then some (ch.toNat - 48) else none

/-- Value of a run of decimal digits read after the value `n`; `none` when a character
is not a digit. -/
def parseDecimal : List Char → Nat → Option Nat
  | [], n => some n
  | ch :: rest, n =>
    match digitOf ch with
    | some d => parseDecimal rest (n * 10 + d)
    | none => none

/-- The function `strconv.Atoi` on a 64-bit platform, `none` standing for an error: an
optional sign, then at least one decimal digit and nothing else, the value within the
range of `int`. -/
def Atoi (s : String) : Option Int :=
  match s.data with
  | [] => none
  | ch :: rest =>
    if ch = '-' then
      (if rest = [] then none
       else match parseDecimal rest 0 with
        | some n => if n ≤ 9223372036854775808 then some (-(n : Int)) else none
        | none => none)
    else if ch = '+' then
      (if rest = [] then none
       else match parseDecimal rest 0 with
        | some n => if n ≤ 9223372036854775807 then some (n : Int) else none
        | none => none)
    else
      match parseDecimal (ch :: rest) 0 with
      | some n => if n ≤ 9223372036854775807 then some (n : Int) else none
      | none => none

/-- The function `padNumber`. -/
def padNumber (num : Int) : String :=
  if num < 10 then "00" ++ Itoa num
  else if num < 100 then "0" ++ Itoa num
  else Itoa num

/-- The id `GetEpisodeByID` passes to `GetByID` for the path parameter `id`. -/
def lookupID (id : String) : String :=
  match Atoi id with
  | some num => "ep" ++ padNumber num
  | none => id

/-- The number a run of decimal digits denotes, the most significant digit first. -/
def decimalValue (ds : List Char) : Nat :=
  ds.foldl (fun n ch => n * 10 + (ch.toNat - 48)) 0

/-- The struct `ErrorResponse`. -/
structure ErrorResponse where
  Error : String
  Message : String
  Code : Int
deriving DecidableEq, Repr

/-- The handler `GetEpisodeByID` for the path parameter `id`: the status and the value
passed to `c.JSON`. -/
def GetEpisodeByID (episodeService : EpisodeService) (id : String) :
    Int × (ErrorResponse ⊕ Episode) :=
  if id = "" then (400, .inl ⟨"bad_request", "Episode ID is required", 400⟩)
  else
    match episodeService.GetByID (lookupID id) with
    | .error _ => (404, .inl ⟨"not_found", "Episode not found", 404⟩)
    | .ok episode => (200, .inr episode)

/-! ## Laws of Go maps -/

namespace GoMap

theorem ext {V : Type} {m m' : GoMap V} (h : m.entries = m'.entries) : m = m' := by
  cases m; cases m'; cases h; rfl

@[simp] theorem get_empty {V : Type} (k : String) : (empty : GoMap V).get k = none := rfl

theorem lookupKey_removeKey {V : Type} (l : List (String × V)) (k key : String) :
    lookupKey (removeKey l k) key = if k = key then none else lookupKey l key := by
  induction l with
  | nil => simp [removeKey, lookupKey]
  | cons p rest ih =>
    obtain ⟨k', v⟩ := p
    by_cases hk : k' = k
    · subst hk
      rw [removeKey, if_pos rfl, ih]
      by_cases hkey : k' = key
      · simp [hkey]
      · simp [lookupKey, hkey]
    · rw [removeKey, if_neg hk]
      simp only [lookupKey]
      by_cases hkey : k' = key
      · subst hkey
        have : ¬ k = k' := fun h => hk h.symm
        simp [this]
      · simp [hkey, ih]

theorem get_delete {V : Type} (m : GoMap V) (k key : String) :
    (m.delete k).get key = if k = key then none else m.get key :=
  lookupKey_removeKey m.entries k key

theorem get_set {V : Type} (m : GoMap V) (k key : String) (v : V) :
    (m.set k v).get key = if k = key then some v else m.get key := by
  show lookupKey ((k, v) :: removeKey m.entries k) key = _
  by_cases h : k = key
  · simp [lookupKey, h]
  · simp [lookupKey, h, lookupKey_removeKey, get]

theorem lookupKey_eq_none {V : Type} (l : List (String × V)) (k : String) :
    lookupKey l k = none ↔ k ∉ l.map Prod.fst := by
  induction l with
  | nil => simp [lookupKey]
  | cons p rest ih =>
    obtain ⟨k', v⟩ := p
    by_cases h : k' = k
    · simp [lookupKey, h]
    · have h' : ¬ k = k' := fun e => h e.symm
      simp only [lookupKey, h, if_false, ih, List.map_cons, List.mem_cons, h', false_or]

theorem removeKey_of_lookupKey_none {V : Type} (l : List (String × V)) (k : String)
    (h : lookupKey l k = none) : removeKey l k = l := by
  induction l with
  | nil => rfl
  | cons p rest ih =>
    obtain ⟨k', v⟩ := p
    by_cases hk : k' = k
    · simp [lookupKey, hk] at h
    · simp only [lookupKey, hk, if_false] at h
      simp [removeKey, hk, ih h]

theorem delete_of_get_none {V : Type} (m : GoMap V) (k : String) (h : m.get k = none) :
    m.delete k = m :=
  ext (removeKey_of_lookupKey_none m.entries k h)

theorem mem_of_lookupKey {V : Type} (l : List (String × V)) (k : String) (v : V)
    (h : lookupKey l k = some v) : (k, v) ∈ l := by
  induction l with
  | nil => simp [lookupKey] at h
  | cons p rest ih =>
    obtain ⟨k', v'⟩ := p
    by_cases hk : k' = k
    · simp only [lookupKey, hk, if_true, Option.some.injEq] at h
      simp [hk, h]
    · simp only [lookupKey, hk, if_false] at h
      exact List.mem_cons_of_mem _ (ih h)

theorem lookupKey_of_mem {V : Type} (l : List (String × V)) (k : String) (v : V)
    (hn : (l.map Prod.fst).Nodup) (h : (k, v) ∈ l) : lookupKey l k = some v := by
  induction l with
  | nil => simp at h
  | cons p rest ih =>
    obtain ⟨k', v'⟩ := p
    rw [List.map_cons, List.nodup_cons] at hn
    rcases List.mem_cons.1 h with h | h
    · cases h; simp [lookupKey]
    · have hk : k' ≠ k := fun e => hn.1 (List.mem_map.2 ⟨(k, v), h, e.symm⟩)
      simp only [lookupKey, hk, if_false]
      exact ih hn.2 h

/-- Membership in the bindings is the comma-ok read. -/
theorem mem_entries_iff {V : Type} (m : GoMap V) (k : String) (v : V) :
    (k, v) ∈ m.entries ↔ m.get k = some v :=
  ⟨lookupKey_of_mem m.entries k v m.nodup, mem_of_lookupKey m.entries k v⟩

end GoMap

/-! ## Laws of the cache -/

namespace CacheManager

theorem Get_of_get_none (cm : CacheManager) (key : String) (now : Time)
    (h : cm.cache.get key = none) : cm.Get key now = ([], false) := by
  simp [Get, h]

theorem Get_of_get_some (cm : CacheManager) (key : String) (now : Time) (e : CacheEntry)
    (h : cm.cache.get key = some e) :
    cm.Get key now = if now - e.Timestamp ≤ e.TTL then (e.Data, true) else ([], false) := by
  by_cases hl : now - e.Timestamp ≤ e.TTL
  · have : ¬ now - e.Timestamp > e.TTL := not_lt.mpr hl
    simp [Get, h, hl, this]
  · have : now - e.Timestamp > e.TTL := not_le.mp hl
    simp [Get, h, hl, this]

theorem cache_cleanupStep_get (now : Time) (cm : CacheManager) (kv : String × CacheEntry)
    (key : String) :
    (cleanupStep now cm kv).cache.get key =
      if kv.1 = key ∧ now - kv.2.Timestamp > kv.2.TTL then none else cm.cache.get key := by
  unfold cleanupStep
  by_cases hx : now - kv.2.Timestamp > kv.2.TTL
  · by_cases hk : kv.1 = key
    · simp [hx, hk, GoMap.get_delete]
    · simp [hx, hk, GoMap.get_delete]
  · simp [hx]

open Classical in
/-- The loop of `cleanup` over any list of bindings: a key is unbound afterwards when the
list holds an expired binding of it, and otherwise keeps the binding it had. -/
theorem foldl_cache_cleanupStep (now : Time) (key : String) (l : List (String × CacheEntry))
    (cm : CacheManager) :
    (l.foldl (cleanupStep now) cm).cache.get key =
      if (∃ e, (key, e) ∈ l ∧ now - e.Timestamp > e.TTL) then none else cm.cache.get key := by
  classical
  induction l generalizing cm with
  | nil => simp
  | cons kv rest ih =>
    obtain ⟨k, e⟩ := kv
    rw [List.foldl_cons, ih, cache_cleanupStep_get]
    by_cases hr : ∃ e, (key, e) ∈ rest ∧ now - e.Timestamp > e.TTL
    · obtain ⟨e', he', hx'⟩ := hr
      have : ∃ e0, (key, e0) ∈ (k, e) :: rest ∧ now - e0.Timestamp > e0.TTL :=
        ⟨e', List.mem_cons_of_mem _ he', hx'⟩
      rw [if_pos ⟨e', he', hx'⟩, if_pos this]
    · rw [if_neg hr]
      by_cases hh : k = key ∧ now - e.Timestamp > e.TTL
      · have : ∃ e0, (key, e0) ∈ (k, e) :: rest ∧ now - e0.Timestamp > e0.TTL :=
          ⟨e, by simp [hh.1], hh.2⟩
        rw [if_pos hh, if_pos this]
      · have : ¬ ∃ e0, (key, e0) ∈ (k, e) :: rest ∧ now - e0.Timestamp > e0.TTL := by
          rintro ⟨e0, h0, hx0⟩
          rcases List.mem_cons.1 h0 with h0 | h0
          · cases h0; exact hh ⟨rfl, hx0⟩
          · exact hr ⟨e0, h0, hx0⟩
        rw [if_neg hh, if_neg this]

/-- What a reader of the map sees after one pass of the sweep. -/
theorem cache_cleanupPass_get (cm : CacheManager) (now : Time) (key : String) :
    (cm.cleanupPass now).cache.get key =
      match cm.cache.get key with
      | none => none
      | some e => if now - e.Timestamp ≤ e.TTL then some e else none := by
  classical
  unfold cleanupPass
  rw [foldl_cache_cleanupStep]
  cases hg : cm.cache.get key with
  | none => simp
  | some e =>
    by_cases hl : now - e.Timestamp ≤ e.TTL
    · have : ¬ ∃ e0, (key, e0) ∈ cm.cache.entries ∧ now - e0.Timestamp > e0.TTL := by
        rintro ⟨e0, h0, hx0⟩
        rw [GoMap.mem_entries_iff, hg] at h0
        cases h0
        exact absurd hl (not_le.mpr hx0)
      simp only [if_neg this, if_pos hl]
    · have : ∃ e0, (key, e0) ∈ cm.cache.entries ∧ now - e0.Timestamp > e0.TTL :=
        ⟨e, (GoMap.mem_entries_iff _ _ _).2 hg, not_le.mp hl⟩
      simp only [if_pos this, if_neg hl]

theorem step_get_none (cm : CacheManager) (key : String) (op : CacheOp)
    (hop : op.sets key = false) (h : cm.cache.get key = none) :
    (cm.step op).cache.get key = none := by
  cases op with
  | set k data ttl now =>
    have hk : ¬ k = key := by simpa [CacheOp.sets] using hop
    simp [step, Set, GoMap.get_set, hk, h]
  | delete k => simp [step, Delete, GoMap.get_delete, h]
  | sweep now => simp [step, cache_cleanupPass_get, h]

theorem run_get_none (key : String) (ops : List CacheOp) (cm : CacheManager)
    (hops : ∀ op ∈ ops, op.sets key = false) (h : cm.cache.get key = none) :
    (cm.run ops).cache.get key = none := by
  induction ops generalizing cm with
  | nil => exact h
  | cons op rest ih =>
    exact ih (cm.step op) (fun o ho => hops o (List.mem_cons_of_mem _ ho))
      (step_get_none cm key op (hops op (List.mem_cons_self _ _)) h)

/-- Operations that neither set nor delete `key` leave its binding alone or, when one of
them is a sweep, drop it. -/
theorem run_get_of_no_writes (key : String) (e : CacheEntry) (ops : List CacheOp)
    (cm : CacheManager) (hops : ∀ op ∈ ops, op.writes key = false)
    (h : cm.cache.get key = some e) :
    (cm.run ops).cache.get key = some e ∨ (cm.run ops).cache.get key = none := by
  induction ops generalizing cm with
  | nil => exact Or.inl h
  | cons op rest ih =>
    have hrest : ∀ o ∈ rest, o.writes key = false :=
      fun o ho => hops o (List.mem_cons_of_mem _ ho)
    have hop := hops op (List.mem_cons_self _ _)
    have hstep : (cm.step op).cache.get key = some e ∨ (cm.step op).cache.get key = none := by
      cases op with
      | set k data ttl now =>
        have hk : ¬ k = key := by simpa [CacheOp.writes] using hop
        simp [step, Set, GoMap.get_set, hk, h]
      | delete k =>
        have hk : ¬ k = key := by simpa [CacheOp.writes] using hop
        simp [step, Delete, GoMap.get_delete, hk, h]
      | sweep now =>
        by_cases hl : now - e.Timestamp ≤ e.TTL
        · simp [step, cache_cleanupPass_get, h, hl]
        · simp [step, cache_cleanupPass_get, h, hl]
    rcases hstep with hs | hs
    · exact ih (cm.step op) hrest hs
    · refine Or.inr (run_get_none key rest (cm.step op) ?_ hs)
      intro o ho
      have := hrest o ho
      cases o <;> simp_all [CacheOp.writes, CacheOp.sets]

/-- Operations that neither set nor delete `key`, whose sweeps all run while the binding
is live, keep the binding. -/
theorem run_get_of_live (key : String) (e : CacheEntry) (t : Time) (ops : List CacheOp)
    (cm : CacheManager) (hops : ∀ op ∈ ops, op.writes key = false)
    (hsw : ∀ op ∈ ops, op.sweepsBy t = true) (hl : t - e.Timestamp ≤ e.TTL)
    (h : cm.cache.get key = some e) :
    (cm.run ops).cache.get key = some e := by
  induction ops generalizing cm with
  | nil => exact h
  | cons op rest ih =>
    refine ih (cm.step op) (fun o ho => hops o (List.mem_cons_of_mem _ ho))
      (fun o ho => hsw o (List.mem_cons_of_mem _ ho)) ?_
    have hop := hops op (List.mem_cons_self _ _)
    have hs := hsw op (List.mem_cons_self _ _)
    cases op with
    | set k data ttl now =>
      have hk : ¬ k = key := by simpa [CacheOp.writes] using hop
      simp [step, Set, GoMap.get_set, hk, h]
    | delete k =>
      have hk : ¬ k = key := by simpa [CacheOp.writes] using hop
      simp [step, Delete, GoMap.get_delete, hk, h]
    | sweep now =>
      have hnow : now ≤ t := by simpa [CacheOp.sweepsBy] using hs
      have : now - e.Timestamp ≤ e.TTL := le_trans (sub_le_sub_right hnow _) hl
      simp [step, cache_cleanupPass_get, h, this]

end CacheManager

/-! ## The TTL cache: contract of `Get`, `Set`, `Delete` and the sweep -/

/-- C1: `Get` returns `(data, true)` exactly when the map binds the key to an entry whose
age `now - Timestamp` is at most its `TTL`, and then `data` is that entry's `Data`; in
every other case (no entry, or an entry older than its TTL, swept or not) it returns
`(nil, false)`. In particular a key that was never `Set` since `NewCacheManager` is not
found, whatever other operations ran. -/
theorem CacheManager.Get_contract (cm : CacheManager) (key : String) (now : Time) :
    (∀ data, cm.Get key now = (data, true) ↔
        ∃ e, cm.cache.get key = some e ∧ now - e.Timestamp ≤ e.TTL ∧ data = e.Data) ∧
    ((¬ ∃ e, cm.cache.get key = some e ∧ now - e.Timestamp ≤ e.TTL) →
        cm.Get key now = ([], false)) ∧
    (∀ ops : List CacheOp, (∀ op ∈ ops, op.sets key = false) →
        (CacheManager.new.run ops).Get key now = ([], false)) := by
  refine ⟨?_, ?_, ?_⟩
  · intro data
    cases hg : cm.cache.get key with
    | none => simp [CacheManager.Get_of_get_none cm key now hg]
    | some e =>
      rw [CacheManager.Get_of_get_some cm key now e hg]
      by_cases hl : now - e.Timestamp ≤ e.TTL
      · rw [if_pos hl]
        constructor
        · intro h
          exact ⟨e, rfl, hl, (Prod.mk.inj h).1.symm⟩
        · rintro ⟨e0, h0, _, hd⟩
          cases h0
          rw [hd]
      · rw [if_neg hl]
        constructor
        · intro h
          exact absurd (Prod.mk.inj h).2 (by simp)
        · rintro ⟨e0, h0, hl0, _⟩
          cases h0
          exact absurd hl0 hl
  · intro hno
    cases hg : cm.cache.get key with
    | none => exact CacheManager.Get_of_get_none cm key now hg
    | some e =>
      rw [CacheManager.Get_of_get_some cm key now e hg]
      have : ¬ now - e.Timestamp ≤ e.TTL := fun hl => hno ⟨e, hg, hl⟩
      simp [this]
  · intro ops hops
    exact CacheManager.Get_of_get_none _ key now
      (CacheManager.run_get_none key ops CacheManager.new hops (GoMap.get_empty key))

/-- C1 at concrete inputs: a live entry is returned, the same entry one nanosecond past
its TTL is not, and a key never set is not found after a `Set` of another key. -/
theorem CacheManager.Get_contract_witness :
    (CacheManager.new.Set "a" [1, 2] 5 10).Get "a" 15 = ([1, 2], true) ∧
    (CacheManager.new.Set "a" [1, 2] 5 10).Get "a" 16 = ([], false) ∧
    (CacheManager.new.run [CacheOp.set "b" [7] 5 10, CacheOp.sweep 11]).Get "a" 12
      = ([], false) :=
  ⟨((CacheManager.Get_contract (CacheManager.new.Set "a" [1, 2] 5 10) "a" 15).1 [1, 2]).2
      ⟨⟨[1, 2], 10, 5⟩, by decide, by decide, rfl⟩,
   (CacheManager.Get_contract (CacheManager.new.Set "a" [1, 2] 5 10) "a" 16).2.1 (by
      rintro ⟨e, he, hl⟩
      have he' : e = ⟨[1, 2], 10, 5⟩ := by
        have h0 : (CacheManager.new.Set "a" [1, 2] 5 10).cache.get "a"
            = some ⟨[1, 2], 10, 5⟩ := by decide
        rw [h0] at he
        exact (Option.some.inj he).symm
      subst he'
      exact absurd hl (by decide)),
   (CacheManager.Get_contract CacheManager.new "a" 12).2.2 _ (by decide)⟩

/-- C2: round trip of `Set` and `Get` on an explicit clock. After `Set(key, value, ttl)`
at time `s` with `ttl > 0`, followed by any operations that neither set nor delete `key`
(writes to other keys, sweeps), a `Get(key)` at the same instant `s` returns
`(value, true)`, and a `Get(key)` at any time `t` with `t - s > ttl` is not found. -/
theorem CacheManager.Set_Get_roundtrip (cm : CacheManager) (key : String) (value : Bytes)
    (ttl : Duration) (s : Time) (ops : List CacheOp) (httl : 0 < ttl)
    (hops : ∀ op ∈ ops, op.writes key = false) :
    (cm.Set key value ttl s).Get key s = (value, true) ∧
    ((∀ op ∈ ops, op.sweepsBy s = true) →
        ((cm.Set key value ttl s).run ops).Get key s = (value, true)) ∧
    (∀ t, t - s > ttl → ((cm.Set key value ttl s).run ops).Get key t = ([], false)) := by
  have h0 : (cm.Set key value ttl s).cache.get key = some ⟨value, s, ttl⟩ := by
    simp [CacheManager.Set, GoMap.get_set]
  have hlive : s - s ≤ ttl := by simpa using httl.le
  refine ⟨?_, ?_, ?_⟩
  · rw [CacheManager.Get_of_get_some _ key s _ h0]
    exact if_pos hlive
  · intro hsw
    have := CacheManager.run_get_of_live key ⟨value, s, ttl⟩ s ops _ hops hsw hlive h0
    rw [CacheManager.Get_of_get_some _ key s _ this]
    exact if_pos hlive
  · intro t ht
    rcases CacheManager.run_get_of_no_writes key ⟨value, s, ttl⟩ ops _ hops h0 with h | h
    · rw [CacheManager.Get_of_get_some _ key t _ h]
      exact if_neg (not_le.mpr ht)
    · exact CacheManager.Get_of_get_none _ key t h

/-- C2 at a concrete input: ttl 5 set at time 10, another key written and a sweep run in
between. -/
theorem CacheManager.Set_Get_roundtrip_witness :
    (0 : Duration) < 5 ∧
    (CacheManager.new.Set "a" [1, 2] 5 10).Get "a" 10 = ([1, 2], true) ∧
    (((CacheManager.new.Set "a" [1, 2] 5 10).run
        [CacheOp.set "b" [3] 1 10, CacheOp.sweep 10]).Get "a" 10 = ([1, 2], true)) ∧
    (((CacheManager.new.Set "a" [1, 2] 5 10).run
        [CacheOp.set "b" [3] 1 10, CacheOp.sweep 10]).Get "a" 16 = ([], false)) :=
  have h := CacheManager.Set_Get_roundtrip CacheManager.new "a" [1, 2] 5 10
    [CacheOp.set "b" [3] 1 10, CacheOp.sweep 10] (by decide) (by decide)
  ⟨by decide, h.1, h.2.1 (by decide), h.2.2 16 (by decide)⟩

/-- C3: overwrite is last-write-wins and resets the age. After `Set(key, v1, ttl1)` at
`s1` followed by `Set(key, v2, ttl2)` at `s2 ≥ s1`, the entry bound to `key` is exactly
`(v2, s2, ttl2)`; a `Get(key)` at time `t` is found iff `t - s2 ≤ ttl2`, and the data
found is `v2`. -/
theorem CacheManager.Set_overwrite (cm : CacheManager) (key : String) (v1 v2 : Bytes)
    (ttl1 ttl2 : Duration) (s1 s2 t : Time) (hs : s1 ≤ s2) :
    ((cm.Set key v1 ttl1 s1).Set key v2 ttl2 s2).cache.get key = some ⟨v2, s2, ttl2⟩ ∧
    ((((cm.Set key v1 ttl1 s1).Set key v2 ttl2 s2).Get key t).2 = true ↔ t - s2 ≤ ttl2) ∧
    ((cm.Set key v1 ttl1 s1).Set key v2 ttl2 s2).Get key t =
      (if t - s2 ≤ ttl2 then (v2, true) else ([], false)) := by
  have _ := hs
  have h0 : ((cm.Set key v1 ttl1 s1).Set key v2 ttl2 s2).cache.get key
      = some ⟨v2, s2, ttl2⟩ := by
    simp [CacheManager.Set, GoMap.get_set]
  refine ⟨h0, ?_, ?_⟩
  · rw [CacheManager.Get_of_get_some _ key t _ h0]
    by_cases hl : t - s2 ≤ ttl2 <;> simp [hl]
  · exact CacheManager.Get_of_get_some _ key t _ h0

/-- C3 at a concrete input: the first value had a long ttl, the second a short one. -/
theorem CacheManager.Set_overwrite_witness :
    (10 : Time) ≤ 12 ∧
    ((CacheManager.new.Set "a" [1] 100 10).Set "a" [2] 3 12).Get "a" 15 = ([2], true) ∧
    ((CacheManager.new.Set "a" [1] 100 10).Set "a" [2] 3 12).Get "a" 16 = ([], false) :=
  ⟨by decide,
   (CacheManager.Set_overwrite CacheManager.new "a" [1] [2] 100 3 10 12 15 (by decide)).2.2,
   (CacheManager.Set_overwrite CacheManager.new "a" [1] [2] 100 3 10 12 16 (by decide)).2.2⟩

/-- C4: `Delete(key)` removes the entry of `key` and nothing else: afterwards `key` is
unbound and `Get(key)` is not found at every time, every other key keeps its binding,
deleting an absent key returns the same state, and deleting twice is deleting once. -/
theorem CacheManager.Delete_contract (cm : CacheManager) (key : String) :
    (cm.Delete key).cache.get key = none ∧
    (∀ now, (cm.Delete key).Get key now = ([], false)) ∧
    (∀ k, k ≠ key → (cm.Delete key).cache.get k = cm.cache.get k) ∧
    (cm.cache.get key = none → cm.Delete key = cm) ∧
    (cm.Delete key).Delete key = cm.Delete key := by
  have h0 : (cm.Delete key).cache.get key = none := by
    simp [CacheManager.Delete, GoMap.get_delete]
  have habs : ∀ c : CacheManager, c.cache.get key = none → c.Delete key = c := by
    intro c hc
    cases c with
    | mk m =>
      show CacheManager.mk (m.delete key) = CacheManager.mk m
      rw [GoMap.delete_of_get_none m key hc]
  refine ⟨h0, fun now => CacheManager.Get_of_get_none _ key now h0, ?_, habs cm, habs _ h0⟩
  intro k hk
  have : ¬ key = k := fun e => hk e.symm
  simp [CacheManager.Delete, GoMap.get_delete, this]

/-- C4 at a concrete input: deleting a key never set leaves the state as it was. -/
theorem CacheManager.Delete_contract_witness :
    (CacheManager.new.Set "a" [1] 5 0).Delete "b" = CacheManager.new.Set "a" [1] 5 0 :=
  (CacheManager.Delete_contract (CacheManager.new.Set "a" [1] 5 0) "b").2.2.2.1 (by decide)

/-- C5: one pass of the cache sweep at time `now` keeps exactly the live entries: an
entry with `now - Timestamp ≤ TTL` is still bound afterwards, with the same `Data`,
`Timestamp` and `TTL`; an entry with `now - Timestamp > TTL` is unbound afterwards; and
every binding present afterwards was present before (nothing is inserted or changed). -/
theorem CacheManager.cache_sweep_contract (cm : CacheManager) (now : Time) :
    (∀ key e, cm.cache.get key = some e → now - e.Timestamp ≤ e.TTL →
        (cm.cleanupPass now).cache.get key = some e) ∧
    (∀ key e, cm.cache.get key = some e → now - e.Timestamp > e.TTL →
        (cm.cleanupPass now).cache.get key = none) ∧
    (∀ key e, (cm.cleanupPass now).cache.get key = some e → cm.cache.get key = some e) := by
  refine ⟨?_, ?_, ?_⟩
  · intro key e hg hl
    simp [CacheManager.cache_cleanupPass_get, hg, hl]
  · intro key e hg hx
    simp [CacheManager.cache_cleanupPass_get, hg, not_le.mpr hx]
  · intro key e hafter
    rw [CacheManager.cache_cleanupPass_get] at hafter
    cases hg : cm.cache.get key with
    | none => simp [hg] at hafter
    | some e0 =>
      by_cases hl : now - e0.Timestamp ≤ e0.TTL
      · simpa [hg, hl] using hafter
      · simp [hg, hl] at hafter

/-- C5 at a concrete input: of two entries the sweep at time 20 keeps the live one and
drops the expired one. -/
theorem CacheManager.cache_sweep_contract_witness :
    (((CacheManager.new.Set "a" [1] 5 10).Set "b" [2] 50 10).cleanupPass 20).cache.get "b"
      = some ⟨[2], 10, 50⟩ ∧
    (((CacheManager.new.Set "a" [1] 5 10).Set "b" [2] 50 10).cleanupPass 20).cache.get "a"
      = none :=
  ⟨(CacheManager.cache_sweep_contract ((CacheManager.new.Set "a" [1] 5 10).Set "b" [2] 50 10)
      20).1 "b" ⟨[2], 10, 50⟩ (by decide) (by decide),
   (CacheManager.cache_sweep_contract ((CacheManager.new.Set "a" [1] 5 10).Set "b" [2] 50 10)
      20).2.1 "a" ⟨[1], 10, 5⟩ (by decide) (by decide)⟩

/-! ## Laws of the rate limiter -/

theorem foldl_keep_eq (cutoff : Time) (l acc : List Time) :
    l.foldl (fun validRequests reqTime =>
        if reqTime > cutoff then validRequests ++ [reqTime] else validRequests) acc
      = acc ++ l.filter (fun t => decide (t > cutoff)) := by
  induction l generalizing acc with
  | nil => simp
  | cons t rest ih =>
    rw [List.foldl_cons, ih]
    by_cases h : t > cutoff
    · simp [h, List.filter_cons]
    · simp [h, List.filter_cons]

/-- The pruning loop is a filter. -/
theorem keepAfter_eq_filter (cutoff : Time) (l : List Time) :
    keepAfter cutoff l = l.filter (fun t => decide (t > cutoff)) := by
  unfold keepAfter
  rw [foldl_keep_eq]
  rfl

/-- With the cutoff `now.Add(-d)` the pruning loop keeps the timestamps with
`now - t < d`. -/
theorem keepAfter_eq_inWindow (now : Time) (d : Duration) (l : List Time) :
    keepAfter (now + -d) l = inWindow now d l := by
  rw [keepAfter_eq_filter]
  unfold inWindow
  apply List.filter_congr
  intro t _
  have : (t > now + -d) ↔ (now - t < d) := by
    constructor <;> intro h <;> linarith
  simp only [this]

theorem inWindow_inWindow (now t : Time) (d : Duration) (l : List Time) (h : now ≤ t) :
    inWindow t d (inWindow now d l) = inWindow t d l := by
  unfold inWindow
  rw [List.filter_filter]
  apply List.filter_congr
  intro x _
  by_cases hx : t - x < d
  · have : now - x < d := by linarith
    simp [hx, this]
  · simp [hx]

namespace RateLimiter

theorem checkWindow_eq (rl : RateLimiter) (h : rl.window ≠ MinInt64) :
    rl.checkWindow = rl.window := by
  simp [checkWindow, neg64, h]

theorem checkWindow_congr (rl rl' : RateLimiter) (h : rl.window = rl'.window) :
    rl.checkWindow = rl'.checkWindow := by
  simp [checkWindow, h]

theorem checkWindow_of_pos (rl : RateLimiter) (h : 0 < rl.window) :
    rl.checkWindow = rl.window := by
  apply checkWindow_eq
  intro e
  rw [e] at h
  exact absurd h (by decide)

theorem sweepWindow_congr (rl rl' : RateLimiter) (h : rl.window = rl'.window) :
    rl.sweepWindow = rl'.sweepWindow := by
  simp [sweepWindow, h]

/-- `IsAllowed` in closed form. -/
theorem IsAllowed_eq (rl : RateLimiter) (ip : String) (now : Time) :
    rl.IsAllowed ip now =
      if rl.limit ≤ ((inWindow now rl.checkWindow (rl.recorded ip)).length : Int) then
        (false, { rl with requests := rl.requests.set ip (inWindow now rl.checkWindow (rl.recorded ip)) })
      else
        (true, { rl with
          requests := rl.requests.set ip (inWindow now rl.checkWindow (rl.recorded ip) ++ [now]) }) := by
  have hreq : (match rl.requests.get ip with
      | some requests => requests
      | none => []) = rl.recorded ip := by
    unfold recorded
    cases rl.requests.get ip <;> rfl
  have hcut : now + neg64 rl.window = now + -rl.checkWindow := by
    simp [checkWindow]
  unfold IsAllowed
  simp only [hreq, hcut, keepAfter_eq_inWindow, ge_iff_le]

theorem IsAllowed_limit (rl : RateLimiter) (ip : String) (now : Time) :
    (rl.IsAllowed ip now).2.limit = rl.limit := by
  rw [IsAllowed_eq]; split <;> rfl

theorem IsAllowed_window (rl : RateLimiter) (ip : String) (now : Time) :
    (rl.IsAllowed ip now).2.window = rl.window := by
  rw [IsAllowed_eq]; split <;> rfl

theorem IsAllowed_recorded (rl : RateLimiter) (ip : String) (now : Time) :
    (rl.IsAllowed ip now).2.recorded ip =
      if (rl.IsAllowed ip now).1 = true then inWindow now rl.checkWindow (rl.recorded ip) ++ [now]
      else inWindow now rl.checkWindow (rl.recorded ip) := by
  rw [IsAllowed_eq]
  split <;> simp [recorded, GoMap.get_set]

theorem IsAllowed_get_other (rl : RateLimiter) (ip k : String) (now : Time) (hk : k ≠ ip) :
    (rl.IsAllowed ip now).2.requests.get k = rl.requests.get k := by
  have : ¬ ip = k := fun e => hk e.symm
  rw [IsAllowed_eq]
  split <;> simp [GoMap.get_set, this]

end RateLimiter

namespace GoMap

theorem removeKey_removeKey {V : Type} (l : List (String × V)) (k : String) :
    removeKey (removeKey l k) k = removeKey l k :=
  removeKey_of_lookupKey_none _ k (by rw [lookupKey_removeKey]; exact if_pos rfl)

/-- Assigning twice to a key is assigning the second value. -/
theorem set_set {V : Type} (m : GoMap V) (k : String) (v v' : V) :
    (m.set k v).set k v' = m.set k v' := by
  apply ext
  show (k, v') :: removeKey ((k, v) :: removeKey m.entries k) k = (k, v') :: removeKey m.entries k
  rw [removeKey, if_pos rfl, removeKey_removeKey]

end GoMap

namespace RateLimiter

/-- A rejected call cannot be told from no call by a later call of the same client. -/
theorem IsAllowed_after_rejected (rl : RateLimiter) (ip : String) (now t : Time)
    (hrej : (rl.IsAllowed ip now).1 = false) (ht : now ≤ t) :
    (rl.IsAllowed ip now).2.IsAllowed ip t = rl.IsAllowed ip t := by
  have hstate : (rl.IsAllowed ip now).2 =
      { rl with requests := rl.requests.set ip (inWindow now rl.checkWindow (rl.recorded ip)) } := by
    rw [IsAllowed_eq] at hrej ⊢
    split
    · rfl
    · rename_i h; rw [if_neg h] at hrej; cases hrej
  rw [hstate, IsAllowed_eq, IsAllowed_eq rl ip t]
  have hrec : recorded { rl with
      requests := rl.requests.set ip (inWindow now rl.checkWindow (rl.recorded ip)) } ip
        = inWindow now rl.checkWindow (rl.recorded ip) := by
    simp [recorded, GoMap.get_set]
  have hcw : ({ rl with
      requests := rl.requests.set ip (inWindow now rl.checkWindow (rl.recorded ip)) } :
        RateLimiter).checkWindow = rl.checkWindow := rfl
  simp only [hrec, hcw, inWindow_inWindow now t rl.checkWindow _ ht, GoMap.set_set]

/-- A run of rejected calls cannot be told from no call by a later call of the client. -/
theorem callAll_after_rejected (ip : String) (t : Time) (ts : List Time) (rl : RateLimiter)
    (hts : ∀ u ∈ ts, u ≤ t) (hrej : ∀ b ∈ (rl.callAll ip ts).1, b = false) :
    (rl.callAll ip ts).2.IsAllowed ip t = rl.IsAllowed ip t := by
  induction ts generalizing rl with
  | nil => rfl
  | cons u rest ih =>
    have h1 : (rl.IsAllowed ip u).1 = false := hrej _ (by simp [callAll])
    have h2 : ∀ b ∈ ((rl.IsAllowed ip u).2.callAll ip rest).1, b = false :=
      fun b hb => hrej b (by simp [callAll, hb])
    show ((rl.IsAllowed ip u).2.callAll ip rest).2.IsAllowed ip t = _
    rw [ih _ (fun x hx => hts x (List.mem_cons_of_mem _ hx)) h2]
    exact IsAllowed_after_rejected rl ip u t h1 (hts u (List.mem_cons_self _ _))

end RateLimiter

/-! ## The rate limiter: contract of `IsAllowed` -/

/-- C6 as stated fails at the window `math.MinInt64`, whose negation overflows: limit 2,
requests recorded at 0 and 1. At time 2 no recorded timestamp `t` has `2 - t < window`,
so the count, 0, is below the limit, and yet the call returns false: the cutoff is
`now.Add(math.MinInt64)` and both timestamps are after it. -/
theorem RateLimiter.IsAllowed_contract_counterexample :
    ((NewRateLimiter 2 (-9223372036854775808)).callAll "a" [0, 1]).2.recorded "a" = [0, 1] ∧
    (([0, 1] : List Time).countP (fun t => decide (2 - t < -9223372036854775808)) : Int)
      < 2 ∧
    (((NewRateLimiter 2 (-9223372036854775808)).callAll "a" [0, 1]).2.IsAllowed "a" 2).1
      = false := by
  decide

/-- C6 amended: for a window other than `math.MinInt64`, `IsAllowed(clientKey)` at time
`now` returns true if and only if the number of timestamps `t` recorded for the client
with `now - t < window` is strictly less than the limit; and when it returns true, the
client's list afterwards is exactly those in-window timestamps, in their order, followed
by `now`. -/
theorem RateLimiter.IsAllowed_contract (rl : RateLimiter) (ip : String) (now : Time)
    (hw : rl.window ≠ MinInt64) :
    ((rl.IsAllowed ip now).1 = true ↔
      ((rl.recorded ip).countP (fun t => decide (now - t < rl.window)) : Int) < rl.limit) ∧
    ((rl.IsAllowed ip now).1 = true →
      (rl.IsAllowed ip now).2.requests.get ip
        = some (inWindow now rl.window (rl.recorded ip) ++ [now])) := by
  have hcw := RateLimiter.checkWindow_eq rl hw
  have hcount : (rl.recorded ip).countP (fun t => decide (now - t < rl.window))
      = (inWindow now rl.window (rl.recorded ip)).length := by
    rw [List.countP_eq_length_filter]; rfl
  rw [hcount, RateLimiter.IsAllowed_eq, hcw]
  by_cases h : rl.limit ≤ ((inWindow now rl.window (rl.recorded ip)).length : Int)
  · rw [if_pos h]
    exact ⟨⟨fun hf => (by cases hf), fun hlt => absurd h (not_le.mpr hlt)⟩,
      fun hf => (by cases hf)⟩
  · rw [if_neg h]
    exact ⟨⟨fun _ => not_le.mp h, fun _ => rfl⟩, fun _ => (by simp [GoMap.get_set])⟩

/-- C6 amended, at a concrete input: limit 2, window 10, recorded `[0, 5]`; at time 12
only `5` is in the window, the call is admitted and the list becomes `[5, 12]`. -/
theorem RateLimiter.IsAllowed_contract_witness :
    (10 : Duration) ≠ MinInt64 ∧
    (((NewRateLimiter 2 10).callAll "a" [0, 5]).2.IsAllowed "a" 12).1 = true ∧
    (((NewRateLimiter 2 10).callAll "a" [0, 5]).2.IsAllowed "a" 12).2.requests.get "a"
      = some [5, 12] :=
  ⟨by decide, by decide,
   ((RateLimiter.IsAllowed_contract ((NewRateLimiter 2 10).callAll "a" [0, 5]).2 "a" 12
      (by decide)).2 (by decide)).trans (by decide)⟩

/-- C7 as stated fails at the window `math.MinInt64`: limit 1, one request recorded at
0. The call at time 5 is rejected, and the list afterwards is `[0]`, although no
recorded timestamp `t` has `5 - t < window`. -/
theorem RateLimiter.IsAllowed_rejected_counterexample :
    (((NewRateLimiter 1 (-9223372036854775808)).IsAllowed "a" 0).2.IsAllowed "a" 5).1
      = false ∧
    (((NewRateLimiter 1 (-9223372036854775808)).IsAllowed "a" 0).2.IsAllowed "a"
      5).2.requests.get "a" = some [0] ∧
    inWindow 5 (-9223372036854775808)
      (((NewRateLimiter 1 (-9223372036854775808)).IsAllowed "a" 0).2.recorded "a") = [] := by
  decide

/-- C7 amended: a rejected request is not recorded. Whenever `IsAllowed(clientKey)`
returns false at time `now`, the client's list afterwards, for a window other than
`math.MinInt64`, is exactly the previously recorded timestamps inside the window (`now`
is not appended, only out-of-window timestamps are dropped); and, for every window, a
later call of the client, at any time `t ≥ now`, returns the same boolean and leaves the
same state as if the rejected call, or a whole run of rejected calls, had never been
made. -/
theorem RateLimiter.IsAllowed_rejected (rl : RateLimiter) (ip : String) (now : Time)
    (hrej : (rl.IsAllowed ip now).1 = false) :
    (rl.window ≠ MinInt64 →
      (rl.IsAllowed ip now).2.requests.get ip
        = some (inWindow now rl.window (rl.recorded ip))) ∧
    (∀ t, now ≤ t → (rl.IsAllowed ip now).2.IsAllowed ip t = rl.IsAllowed ip t) ∧
    (∀ ts t, (∀ u ∈ now :: ts, u ≤ t) →
      (∀ b ∈ (rl.callAll ip (now :: ts)).1, b = false) →
      (rl.callAll ip (now :: ts)).2.IsAllowed ip t = rl.IsAllowed ip t) := by
  refine ⟨?_, fun t ht => RateLimiter.IsAllowed_after_rejected rl ip now t hrej ht,
    fun ts t hts hall => RateLimiter.callAll_after_rejected ip t (now :: ts) rl hts hall⟩
  intro hw
  rw [← RateLimiter.checkWindow_eq rl hw]
  rw [RateLimiter.IsAllowed_eq] at hrej ⊢
  by_cases h : rl.limit ≤ ((inWindow now rl.checkWindow (rl.recorded ip)).length : Int)
  · rw [if_pos h]; simp [GoMap.get_set]
  · rw [if_neg h] at hrej; cases hrej

/-- C7 amended, at a concrete input: limit 1, window 10, one request recorded at 0; the
call at 5 is rejected, the list stays `[0]`, and the call at 10 is admitted after it. -/
theorem RateLimiter.IsAllowed_rejected_witness :
    (((NewRateLimiter 1 10).IsAllowed "a" 0).2.IsAllowed "a" 5).1 = false ∧
    (((NewRateLimiter 1 10).IsAllowed "a" 0).2.IsAllowed "a" 5).2.requests.get "a"
      = some [0] ∧
    ((((NewRateLimiter 1 10).IsAllowed "a" 0).2.IsAllowed "a" 5).2.IsAllowed "a" 10).1
      = true :=
  have h := RateLimiter.IsAllowed_rejected ((NewRateLimiter 1 10).IsAllowed "a" 0).2 "a" 5
    (by decide)
  ⟨by decide, (h.1 (by decide)).trans (by decide),
    (congrArg Prod.fst (h.2.1 10 (by decide))).trans (by decide)⟩

/-! ## The rate limiter: a burst of calls of one client -/

theorem le_getLast_of_pairwise (l : List Time) (h : l ≠ []) (hs : l.Pairwise (· ≤ ·)) :
    ∀ x ∈ l, x ≤ l.getLast h := by
  induction l with
  | nil => exact absurd rfl h
  | cons a rest ih =>
    intro x hx
    by_cases hr : rest = []
    · subst hr
      simp only [List.mem_singleton] at hx
      simp [hx]
    · rw [List.getLast_cons hr]
      rcases List.mem_cons.1 hx with hx | hx
      · subst hx
        exact List.rel_of_pairwise_cons hs (List.getLast_mem hr)
      · exact ih hr (List.Pairwise.of_cons hs) x hx

theorem inWindow_eq_self (now : Time) (d : Duration) (l : List Time)
    (h : ∀ x ∈ l, now - x < d) : inWindow now d l = l := by
  unfold inWindow
  rw [List.filter_eq_self]
  intro x hx
  simpa using h x hx

theorem inWindow_length_le (now : Time) (d : Duration) (l : List Time) :
    (inWindow now d l).length ≤ l.length :=
  List.length_filter_le _ l

namespace RateLimiter

/-- Calls that find every recorded timestamp inside the window, and room under the
limit, are all admitted and recorded in order. -/
theorem callAll_admits (ip : String) (ts : List Time) (prev : List Time) (rl : RateLimiter)
    (hprev : rl.recorded ip = prev)
    (hwin : ∀ t ∈ ts, ∀ x ∈ prev ++ ts, t - x < rl.checkWindow)
    (hroom : ((prev.length + ts.length : Nat) : Int) ≤ rl.limit) :
    (rl.callAll ip ts).1 = List.replicate ts.length true ∧
    (rl.callAll ip ts).2.recorded ip = prev ++ ts ∧
    (rl.callAll ip ts).2.limit = rl.limit ∧
    (rl.callAll ip ts).2.window = rl.window := by
  induction ts generalizing rl prev with
  | nil => simp [callAll, hprev]
  | cons u rest ih =>
    have hin : inWindow u rl.checkWindow prev = prev :=
      inWindow_eq_self u rl.checkWindow prev
        (fun x hx => hwin u (List.mem_cons_self _ _) x (List.mem_append_left _ hx))
    have hlt : ¬ rl.limit ≤ ((inWindow u rl.checkWindow (rl.recorded ip)).length : Int) := by
      rw [hprev, hin]
      simp only [List.length_cons] at hroom
      push_cast at hroom ⊢
      linarith [Int.ofNat_nonneg rest.length]
    have h1 : (rl.IsAllowed ip u).1 = true := by
      rw [IsAllowed_eq, if_neg hlt]
    have hrec : (rl.IsAllowed ip u).2.recorded ip = prev ++ [u] := by
      rw [IsAllowed_recorded, if_pos h1, hprev, hin]
    have hw := IsAllowed_window rl ip u
    have hl := IsAllowed_limit rl ip u
    have hwin' : ∀ t ∈ rest, ∀ x ∈ (prev ++ [u]) ++ rest,
        t - x < (rl.IsAllowed ip u).2.checkWindow := by
      intro t ht x hx
      rw [checkWindow_congr _ _ hw]
      exact hwin t (List.mem_cons_of_mem _ ht) x (by simpa using hx)
    have hroom' : (((prev ++ [u]).length + rest.length : Nat) : Int)
        ≤ (rl.IsAllowed ip u).2.limit := by
      rw [hl]
      simp only [List.length_append, List.length_cons, List.length_nil] at hroom ⊢
      have : prev.length + (0 + 1) + rest.length = prev.length + (rest.length + 1) := by omega
      rw [this]; exact hroom
    obtain ⟨a, b, c, d⟩ := ih (prev ++ [u]) (rl.IsAllowed ip u).2 hrec hwin' hroom'
    refine ⟨?_, ?_, ?_, ?_⟩
    · show (rl.IsAllowed ip u).1 :: ((rl.IsAllowed ip u).2.callAll ip rest).1 = _
      rw [h1, a]; rfl
    · show ((rl.IsAllowed ip u).2.callAll ip rest).2.recorded ip = _
      rw [b]; simp
    · show ((rl.IsAllowed ip u).2.callAll ip rest).2.limit = _
      rw [c, hl]
    · show ((rl.IsAllowed ip u).2.callAll ip rest).2.window = _
      rw [d, hw]

end RateLimiter

/-- C8: a fresh limiter with limit `N ≥ 1` and window `W > 0`, one client. `N` calls at
non-decreasing times `t1, ..., tN` with `tN - t1 < W` all return true; one more call at a
time `t` with `t - t1 < W` returns false; and a call at any time `t` with `t - t1 ≥ W`
returns true, whether it comes straight after the `N` calls or after a rejected call. -/
theorem RateLimiter.burst_then_reject_then_admit (N : Nat) (W : Duration) (ip : String)
    (t1 : Time) (later : List Time) (hN : 1 ≤ N) (hW : 0 < W)
    (hlen : (t1 :: later).length = N)
    (hmono : (t1 :: later).Pairwise (· ≤ ·))
    (hspan : (t1 :: later).getLast (List.cons_ne_nil t1 later) - t1 < W) :
    ((NewRateLimiter N W).callAll ip (t1 :: later)).1 = List.replicate N true ∧
    (∀ t, t - t1 < W →
      (((NewRateLimiter N W).callAll ip (t1 :: later)).2.IsAllowed ip t).1 = false) ∧
    (∀ t, t - t1 ≥ W →
      (((NewRateLimiter N W).callAll ip (t1 :: later)).2.IsAllowed ip t).1 = true) ∧
    (∀ t t', t - t1 < W → t' - t1 ≥ W →
      ((((NewRateLimiter N W).callAll ip (t1 :: later)).2.IsAllowed ip t).2.IsAllowed
        ip t').1 = true) := by
  have _ := hN
  have hlast := le_getLast_of_pairwise (t1 :: later) (List.cons_ne_nil t1 later) hmono
  have hfirst : ∀ x ∈ t1 :: later, t1 ≤ x := by
    intro x hx
    rcases List.mem_cons.1 hx with hx | hx
    · exact hx ▸ le_refl _
    · exact List.rel_of_pairwise_cons hmono hx
  obtain ⟨hres, hrec, hlim, hwin⟩ :=
    RateLimiter.callAll_admits ip (t1 :: later) [] (NewRateLimiter N W) rfl
      (by
        intro t ht x hx
        have h1 := hlast t ht
        have h2 := hfirst x (by simpa using hx)
        rw [RateLimiter.checkWindow_of_pos (NewRateLimiter N W) hW]
        show t - x < W
        linarith)
      (by
        show (((0 + (t1 :: later).length : Nat)) : Int) ≤ (N : Int)
        rw [hlen]; simp)
  rw [List.nil_append] at hrec
  have hlim' : ((NewRateLimiter N W).callAll ip (t1 :: later)).2.limit = (N : Int) := hlim
  have hwin' : ((NewRateLimiter N W).callAll ip (t1 :: later)).2.checkWindow = W :=
    (RateLimiter.checkWindow_congr _ (NewRateLimiter N W) hwin).trans
      (RateLimiter.checkWindow_of_pos (NewRateLimiter N W) hW)
  have hrej : ∀ t, t - t1 < W →
      (((NewRateLimiter N W).callAll ip (t1 :: later)).2.IsAllowed ip t).1 = false := by
    intro t ht
    have hall : inWindow t W (t1 :: later) = t1 :: later :=
      inWindow_eq_self t W _ (fun x hx => by have := hfirst x hx; linarith)
    rw [RateLimiter.IsAllowed_eq, hrec, hlim', hwin', hall, if_pos (by rw [hlen])]
  have hadm : ∀ t, t - t1 ≥ W →
      (((NewRateLimiter N W).callAll ip (t1 :: later)).2.IsAllowed ip t).1 = true := by
    intro t ht
    have hdrop : inWindow t W (t1 :: later) = inWindow t W later := by
      unfold inWindow
      rw [List.filter_cons_of_neg]
      simpa using ht
    have hle := inWindow_length_le t W later
    have hlen' : later.length + 1 = N := by simpa using hlen
    rw [RateLimiter.IsAllowed_eq, hrec, hlim', hwin', hdrop, if_neg]
    have : ((inWindow t W later).length : Int) < (N : Int) := by
      exact_mod_cast (by omega : (inWindow t W later).length < N)
    exact not_le.mpr this
  refine ⟨?_, hrej, hadm, ?_⟩
  · rw [hres, hlen]
  · intro t t' ht ht'
    rw [RateLimiter.IsAllowed_after_rejected _ ip t t' (hrej t ht) (by linarith)]
    exact hadm t' ht'

/-- C8 at a concrete input: limit 3, window 10, calls at 0, 3, 7. -/
theorem RateLimiter.burst_then_reject_then_admit_witness :
    ((NewRateLimiter 3 10).callAll "a" [0, 3, 7]).1 = [true, true, true] ∧
    (((NewRateLimiter 3 10).callAll "a" [0, 3, 7]).2.IsAllowed "a" 9).1 = false ∧
    (((NewRateLimiter 3 10).callAll "a" [0, 3, 7]).2.IsAllowed "a" 10).1 = true :=
  have h := RateLimiter.burst_then_reject_then_admit 3 10 "a" 0 [3, 7] (by decide)
    (by decide) (by decide) (by decide) (by decide)
  ⟨h.1, h.2.1 9 (by decide), h.2.2.1 10 (by decide)⟩

/-! ## The rate limiter: the sweep -/

namespace RateLimiter

theorem cleanupStep_limit (cutoff : Time) (rl : RateLimiter) (kv : String × List Time) :
    (cleanupStep cutoff rl kv).limit = rl.limit := by
  unfold cleanupStep; dsimp only; split <;> rfl

theorem cleanupStep_window (cutoff : Time) (rl : RateLimiter) (kv : String × List Time) :
    (cleanupStep cutoff rl kv).window = rl.window := by
  unfold cleanupStep; dsimp only; split <;> rfl

theorem rate_cleanupStep_get (cutoff : Time) (rl : RateLimiter) (kv : String × List Time)
    (key : String) :
    (cleanupStep cutoff rl kv).requests.get key =
      if kv.1 = key then
        (if keepAfter cutoff kv.2 = [] then none else some (keepAfter cutoff kv.2))
      else rl.requests.get key := by
  unfold cleanupStep
  dsimp only
  by_cases hv : keepAfter cutoff kv.2 = []
  · have : (keepAfter cutoff kv.2).length = 0 := by rw [hv]; rfl
    rw [if_pos this, if_pos hv]
    exact GoMap.get_delete _ _ _
  · have : ¬ (keepAfter cutoff kv.2).length = 0 := fun h => hv (List.length_eq_zero.1 h)
    rw [if_neg this, if_neg hv]
    exact GoMap.get_set _ _ _ _

/-- The loop of `cleanup` over a list of bindings with distinct keys: a key bound in the
list ends with its pruned slice, or unbound when that slice is empty; a key not in the
list keeps the binding it had. -/
theorem foldl_cleanupStep (cutoff : Time) (key : String) (l : List (String × List Time))
    (hn : (l.map Prod.fst).Nodup) (rl : RateLimiter) :
    (l.foldl (cleanupStep cutoff) rl).limit = rl.limit ∧
    (l.foldl (cleanupStep cutoff) rl).window = rl.window ∧
    (l.foldl (cleanupStep cutoff) rl).requests.get key =
      match lookupKey l key with
      | none => rl.requests.get key
      | some ts => if keepAfter cutoff ts = [] then none else some (keepAfter cutoff ts) := by
  induction l generalizing rl with
  | nil => exact ⟨rfl, rfl, rfl⟩
  | cons kv rest ih =>
    obtain ⟨k, ts⟩ := kv
    rw [List.map_cons, List.nodup_cons] at hn
    obtain ⟨a, b, c⟩ := ih hn.2 (cleanupStep cutoff rl (k, ts))
    rw [List.foldl_cons]
    refine ⟨a.trans (cleanupStep_limit _ _ _), b.trans (cleanupStep_window _ _ _), ?_⟩
    rw [c, rate_cleanupStep_get]
    by_cases hk : k = key
    · subst hk
      have : lookupKey rest k = none := (GoMap.lookupKey_eq_none rest k).2 hn.1
      simp [this, lookupKey]
    · simp [lookupKey, hk]

/-- What a reader of the map sees after one pass of the sweep. -/
theorem rate_cleanupPass_get (rl : RateLimiter) (now : Time) (key : String) :
    (rl.cleanupPass now).requests.get key =
      match rl.requests.get key with
      | none => none
      | some ts =>
        if inWindow now rl.sweepWindow ts = [] then none
        else some (inWindow now rl.sweepWindow ts) := by
  have hcut : now + wrap64 (neg64 rl.window * 2) = now + -rl.sweepWindow := by
    simp [sweepWindow]
  unfold cleanupPass
  dsimp only
  rw [(foldl_cleanupStep _ key rl.requests.entries rl.requests.nodup rl).2.2, hcut]
  show (match rl.requests.get key with
    | none => rl.requests.get key
    | some ts => _) = _
  cases hg : rl.requests.get key with
  | none => rfl
  | some ts => simp only [keepAfter_eq_inWindow]

theorem cleanupPass_limit (rl : RateLimiter) (now : Time) :
    (rl.cleanupPass now).limit = rl.limit :=
  (foldl_cleanupStep _ "" rl.requests.entries rl.requests.nodup rl).1

theorem cleanupPass_window (rl : RateLimiter) (now : Time) :
    (rl.cleanupPass now).window = rl.window :=
  (foldl_cleanupStep _ "" rl.requests.entries rl.requests.nodup rl).2.1

end RateLimiter

theorem wrap64_eq_self (n : Int) (h1 : -9223372036854775808 ≤ n)
    (h2 : n < 9223372036854775808) : wrap64 n = n := by
  unfold wrap64
  omega

/-- On an `int64` the negation of the model is the negation followed by the wrap. -/
theorem neg64_eq_wrap64 (d : Int) (h1 : -9223372036854775808 ≤ d)
    (h2 : d < 9223372036854775808) : neg64 d = wrap64 (-d) := by
  unfold neg64 wrap64 MinInt64
  by_cases h : d = -9223372036854775808
  · rw [if_pos h, h]; decide
  · have h3 : -9223372036854775808 ≤ -d := by omega
    have h4 : -d < 9223372036854775808 := by omega
    have := wrap64_eq_self (-d) h3 h4
    unfold wrap64 at this
    rw [if_neg h, this]

/-- When `-window * 2` does not overflow the sweep keeps the timestamps younger than
twice the window. -/
theorem RateLimiter.sweepWindow_eq (rl : RateLimiter)
    (h1 : -4611686018427387904 < rl.window) (h2 : rl.window ≤ 4611686018427387904) :
    rl.sweepWindow = 2 * rl.window := by
  have hne : rl.window ≠ MinInt64 := by
    intro e
    rw [e] at h1
    exact absurd h1 (by decide)
  have hw : wrap64 (-rl.window * 2) = -rl.window * 2 :=
    wrap64_eq_self _ (by linarith) (by linarith)
  simp only [RateLimiter.sweepWindow, neg64, hne, if_false, hw]
  ring

/-- C10 as stated fails when `-window * 2` overflows: window `2^62 + 1` ns, client a
recorded at time 0. At the sweep at time 1 the timestamp 0 has `1 - 0 < 2 * window`, and
yet the client is removed from the map. -/
theorem RateLimiter.rate_sweep_counterexample :
    ((NewRateLimiter 5 4611686018427387905).IsAllowed "a" 0).2.requests.get "a"
      = some [0] ∧
    inWindow 1 (2 * 4611686018427387905) [0] = [0] ∧
    (((NewRateLimiter 5 4611686018427387905).IsAllowed "a" 0).2.cleanupPass 1).requests.get
      "a" = none := by
  decide

/-- C10 amended: one pass of the rate-limiter sweep at time `now`, for a window `w` with
`-2^62 < w ≤ 2^62` nanoseconds (so that `-w * 2` does not overflow). For every tracked
client it keeps, in their original order, exactly the timestamps `t` with
`now - t < 2 * window`; a client for which none is kept is removed from the map, a client
with at least one kept stays, bound to the kept timestamps; a client that was not tracked
is not tracked afterwards (nothing is added); limit and window are untouched. -/
theorem RateLimiter.rate_sweep_contract (rl : RateLimiter) (now : Time)
    (h1 : -4611686018427387904 < rl.window) (h2 : rl.window ≤ 4611686018427387904) :
    (∀ ip ts, rl.requests.get ip = some ts → inWindow now (2 * rl.window) ts ≠ [] →
      (rl.cleanupPass now).requests.get ip = some (inWindow now (2 * rl.window) ts)) ∧
    (∀ ip ts, rl.requests.get ip = some ts → inWindow now (2 * rl.window) ts = [] →
      (rl.cleanupPass now).requests.get ip = none) ∧
    (∀ ip, rl.requests.get ip = none → (rl.cleanupPass now).requests.get ip = none) ∧
    (rl.cleanupPass now).limit = rl.limit ∧
    (rl.cleanupPass now).window = rl.window := by
  have hsw := RateLimiter.sweepWindow_eq rl h1 h2
  refine ⟨?_, ?_, ?_, RateLimiter.cleanupPass_limit rl now, RateLimiter.cleanupPass_window rl now⟩
  · intro ip ts hg hne
    rw [RateLimiter.rate_cleanupPass_get, hg, hsw]
    exact if_neg hne
  · intro ip ts hg he
    rw [RateLimiter.rate_cleanupPass_get, hg, hsw]
    exact if_pos he
  · intro ip hg
    rw [RateLimiter.rate_cleanupPass_get, hg]

/-- C10 amended, at a concrete input: window 10, client a recorded at 0, 5 and 9, client
b at 1; the sweep at time 22 keeps `[5, 9]` for a and removes b. -/
theorem RateLimiter.rate_sweep_contract_witness :
    ((((NewRateLimiter 5 10).callAll "a" [0, 5, 9]).2.IsAllowed "b" 1).2.cleanupPass
        22).requests.get "a" = some [5, 9] ∧
    ((((NewRateLimiter 5 10).callAll "a" [0, 5, 9]).2.IsAllowed "b" 1).2.cleanupPass
        22).requests.get "b" = none :=
  have h := RateLimiter.rate_sweep_contract
    (((NewRateLimiter 5 10).callAll "a" [0, 5, 9]).2.IsAllowed "b" 1).2 22
    (by decide) (by decide)
  ⟨(h.1 "a" [0, 5, 9] (by decide) (by decide)).trans (by decide),
   h.2.1 "b" [1] (by decide) (by decide)⟩

/-! ## The rate limiter: what holds of every reachable state -/

namespace RateLimiter

theorem lastCall_append_call (ip ip' : String) (now : Time) (ops : List RateOp) :
    lastCall ip (ops ++ [RateOp.call ip' now]) =
      if ip' = ip then some now else lastCall ip ops := by
  simp [lastCall, List.foldl_append, noteCall]

theorem lastCall_append_sweep (ip : String) (now : Time) (ops : List RateOp) :
    lastCall ip (ops ++ [RateOp.sweep now]) = lastCall ip ops := by
  simp [lastCall, List.foldl_append, noteCall]

theorem run_append (rl : RateLimiter) (ops : List RateOp) (op : RateOp) :
    rl.run (ops ++ [op]) = (rl.run ops).step op := by
  simp [run, List.foldl_append]

theorem run_window (rl : RateLimiter) (ops : List RateOp) :
    (rl.run ops).window = rl.window := by
  induction ops using List.reverseRecOn with
  | nil => rfl
  | append_singleton ops op ih =>
    rw [run_append]
    cases op with
    | call ip now => exact (IsAllowed_window _ ip now).trans ih
    | sweep now => exact (cleanupPass_window _ now).trans ih

theorem run_limit (rl : RateLimiter) (ops : List RateOp) :
    (rl.run ops).limit = rl.limit := by
  induction ops using List.reverseRecOn with
  | nil => rfl
  | append_singleton ops op ih =>
    rw [run_append]
    cases op with
    | call ip now => exact (IsAllowed_limit _ ip now).trans ih
    | sweep now => exact (cleanupPass_limit _ now).trans ih

theorem mem_inWindow {now : Time} {d : Duration} {l : List Time} {t : Time}
    (h : t ∈ inWindow now d l) : t ∈ l ∧ now - t < d := by
  unfold inWindow at h
  simpa using List.mem_filter.1 h

theorem IsAllowed_get_self (rl : RateLimiter) (ip : String) (now : Time) :
    (rl.IsAllowed ip now).2.requests.get ip = some ((rl.IsAllowed ip now).2.recorded ip) := by
  rw [IsAllowed_eq]
  split <;> simp [recorded, GoMap.get_set]

end RateLimiter

/-- C9 as stated fails: limit 5, window 10; client a calls at 0, client b calls at 12, a
sweep runs at 15. The clock readings never go back, the latest operation is at 15, and
the timestamp 0 is still retained for a although `15 - 0 < 10` is false. -/
theorem RateLimiter.retained_in_window_counterexample :
    nonDecreasing [RateOp.call "a" 0, RateOp.call "b" 12, RateOp.sweep 15] = true ∧
    ((NewRateLimiter 5 10).run
      [RateOp.call "a" 0, RateOp.call "b" 12, RateOp.sweep 15]).requests.get "a"
        = some [0] ∧
    ((NewRateLimiter 5 10).run
      [RateOp.call "a" 0, RateOp.call "b" 12, RateOp.sweep 15]).retainedInWindow 15
        = false ∧
    ¬ ((15 : Time) - 0 < 10) := by
  decide

/-- C9 amended: in every state reached from a fresh rate limiter with `window > 0` by any
sequence of `IsAllowed` calls, for any clients, and sweeps, every client tracked in the
map has called `IsAllowed`, and every timestamp `t` retained for it satisfies
`u - t < window`, where `u` is the time of the latest `IsAllowed` call of that client. -/
theorem RateLimiter.retained_in_window_of_last_call (limit : Int) (window : Duration)
    (hW : 0 < window) (ops : List RateOp) (ip : String) (ts : List Time)
    (hts : ((NewRateLimiter limit window).run ops).requests.get ip = some ts) :
    ∃ u, RateLimiter.lastCall ip ops = some u ∧ ∀ t ∈ ts, u - t < window := by
  induction ops using List.reverseRecOn generalizing ts with
  | nil => simp [RateLimiter.run, NewRateLimiter] at hts
  | append_singleton ops op ih =>
    rw [RateLimiter.run_append] at hts
    have hwin : ((NewRateLimiter limit window).run ops).window = window :=
      RateLimiter.run_window _ ops
    cases op with
    | call ip' now =>
      rw [RateLimiter.lastCall_append_call]
      by_cases hk : ip' = ip
      · subst hk
        rw [if_pos rfl]
        refine ⟨now, rfl, ?_⟩
        have hts' : ((NewRateLimiter limit window).run ops |>.IsAllowed ip' now).2.requests.get ip'
            = some ts := hts
        have hcw : ((NewRateLimiter limit window).run ops).checkWindow = window := by
          rw [RateLimiter.checkWindow_of_pos _ (by rw [hwin]; exact hW)]
          exact hwin
        rw [RateLimiter.IsAllowed_get_self, RateLimiter.IsAllowed_recorded, hcw] at hts'
        have hts'' := Option.some.inj hts'
        intro t ht
        rw [← hts''] at ht
        split at ht
        · rcases List.mem_append.1 ht with h | h
          · exact (RateLimiter.mem_inWindow h).2
          · simp only [List.mem_singleton] at h
            rw [h]; simpa using hW
        · exact (RateLimiter.mem_inWindow ht).2
      · rw [if_neg hk]
        apply ih
        have hne : ip ≠ ip' := fun e => hk e.symm
        rw [← RateLimiter.IsAllowed_get_other _ ip' ip now hne]
        exact hts
    | sweep now =>
      rw [RateLimiter.lastCall_append_sweep]
      have hts' : (((NewRateLimiter limit window).run ops).cleanupPass now).requests.get ip
          = some ts := hts
      rw [RateLimiter.rate_cleanupPass_get] at hts'
      cases hg : ((NewRateLimiter limit window).run ops).requests.get ip with
      | none => simp [hg] at hts'
      | some ts0 =>
        obtain ⟨u, hu, hall⟩ := ih ts0 hg
        refine ⟨u, hu, ?_⟩
        simp only [hg] at hts'
        split at hts'
        · cases hts'
        · have := Option.some.inj hts'
          intro t ht
          rw [← this] at ht
          exact hall t (RateLimiter.mem_inWindow ht).1

/-- C9 amended, at a concrete input: in the state of the counterexample the timestamp 0
retained for a is inside the window of the latest call of a, made at time 0. -/
theorem RateLimiter.retained_in_window_of_last_call_witness :
    (0 : Duration) < 10 ∧
    ∃ u, RateLimiter.lastCall "a" [RateOp.call "a" 0, RateOp.call "b" 12, RateOp.sweep 15]
        = some u ∧ ∀ t ∈ [(0 : Time)], u - t < 10 :=
  ⟨by decide,
   RateLimiter.retained_in_window_of_last_call 5 10 (by decide)
    [RateOp.call "a" 0, RateOp.call "b" 12, RateOp.sweep 15] "a" [0] (by decide)⟩

/-! ## Laws of the gin model -/

namespace Context

@[simp] theorem Header_get (c : Context) (key value k : String) :
    (c.Header key value).Writer.header.get k =
      if key = k then (if value = "" then none else some value)
      else c.Writer.header.get k := by
  unfold Header
  by_cases hv : value = ""
  · simp only [hv, if_true, ResponseWriter.DelHeader, GoMap.get_delete]
  · simp only [hv, if_false, ResponseWriter.SetHeader, GoMap.get_set]

@[simp] theorem Header_status (c : Context) (key value : String) :
    (c.Header key value).Writer.status = c.Writer.status := by
  unfold Header; split <;> rfl

@[simp] theorem Header_wrote (c : Context) (key value : String) :
    (c.Header key value).Writer.wrote = c.Writer.wrote := by
  unfold Header; split <;> rfl

@[simp] theorem Header_wrappers (c : Context) (key value : String) :
    (c.Header key value).wrappers = c.wrappers := by
  unfold Header; split <;> rfl

@[simp] theorem Header_aborted (c : Context) (key value : String) :
    (c.Header key value).aborted = c.aborted := by
  unfold Header; split <;> rfl

@[simp] theorem Header_nextCalls (c : Context) (key value : String) :
    (c.Header key value).nextCalls = c.nextCalls := by
  unfold Header; split <;> rfl

@[simp] theorem Header_Request (c : Context) (key value : String) :
    (c.Header key value).Request = c.Request := by
  unfold Header; split <;> rfl

/-- The status after `c.Status(code)` on a response not yet written. -/
theorem Status_status (c : Context) (code : Int) (hcode : 0 < code)
    (hw : c.Writer.wrote = none) : (c.Status code).Writer.status = code := by
  unfold Status ResponseWriter.WriteHeader ResponseWriter.Written
  by_cases h : c.Writer.status = code
  · simp [h]
  · simp [h, hcode, hw]

@[simp] theorem Status_wrote (c : Context) (code : Int) :
    (c.Status code).Writer.wrote = c.Writer.wrote := by
  unfold Status ResponseWriter.WriteHeader
  split
  · split <;> rfl
  · rfl

@[simp] theorem Status_header (c : Context) (code : Int) :
    (c.Status code).Writer.header = c.Writer.header := by
  unfold Status ResponseWriter.WriteHeader
  split
  · split <;> rfl
  · rfl

@[simp] theorem Status_nextCalls (c : Context) (code : Int) :
    (c.Status code).nextCalls = c.nextCalls := rfl

@[simp] theorem Status_aborted (c : Context) (code : Int) :
    (c.Status code).aborted = c.aborted := rfl

@[simp] theorem Status_wrappers (c : Context) (code : Int) :
    (c.Status code).wrappers = c.wrappers := rfl

/-- What `c.Render` leaves on a response not yet written, for a status that allows a
body. -/
theorem Render_fresh (c : Context) (code : Int) (contentType : String) (payload : Bytes)
    (hcode : 0 < code) (hbody : bodyAllowedForStatus code = true)
    (hw : c.Writer.wrote = none) :
    (c.Render code contentType payload).Writer.status = code ∧
    (c.Render code contentType payload).Writer.wrote = some payload ∧
    (∀ k, k ≠ "Content-Type" →
      (c.Render code contentType payload).Writer.header.get k = c.Writer.header.get k) ∧
    (c.Render code contentType payload).Writer.header.get "Content-Type" =
      some ((c.Writer.header.get "Content-Type").getD contentType) ∧
    (c.Render code contentType payload).nextCalls = c.nextCalls ∧
    (c.Render code contentType payload).aborted = c.aborted := by
  have hs := Status_status c code hcode hw
  have hwr := Status_wrote c code
  have hh := Status_header c code
  unfold Render
  simp only [hbody, if_true]
  cases hct : (c.Status code).Writer.header.get "Content-Type" with
  | none =>
    have hct' : c.Writer.header.get "Content-Type" = none := by rw [← hh]; exact hct
    refine ⟨hs, ?_, ?_, ?_, rfl, rfl⟩
    · simp [writeBody, ResponseWriter.Write, ResponseWriter.SetHeader, ResponseWriter.body,
        hwr, hw]
    · intro k hk
      have : ¬ "Content-Type" = k := fun e => hk e.symm
      simp [writeBody, ResponseWriter.Write, ResponseWriter.SetHeader, GoMap.get_set, this, hh]
    · simp [writeBody, ResponseWriter.Write, ResponseWriter.SetHeader, GoMap.get_set, hct']
  | some v =>
    have hct' : c.Writer.header.get "Content-Type" = some v := by rw [← hh]; exact hct
    refine ⟨hs, ?_, ?_, ?_, rfl, rfl⟩
    · simp [writeBody, ResponseWriter.Write, ResponseWriter.body, hwr, hw]
    · intro k _
      simp [writeBody, ResponseWriter.Write, hh]
    · simp [writeBody, ResponseWriter.Write, hh, hct']

@[simp] theorem call_nextCalls (c : Context) (op : HandlerCall) :
    (c.call op).nextCalls = c.nextCalls := by
  cases op <;> simp [call, writeBody]

@[simp] theorem call_aborted (c : Context) (op : HandlerCall) :
    (c.call op).aborted = c.aborted := by
  cases op <;> simp [call, writeBody]

@[simp] theorem call_Request (c : Context) (op : HandlerCall) :
    (c.call op).Request = c.Request := by
  cases op <;> simp [call, writeBody, Status]

theorem call_wrappers (c : Context) (op : HandlerCall) :
    (c.call op).wrappers = c.wrappers.map (fun b => b ++ op.payload) := by
  cases op <;> simp [call, writeBody, HandlerCall.payload]

/-- The writer does not see the wrappers installed around it. -/
theorem call_Writer_congr (c c' : Context) (op : HandlerCall) (h : c.Writer = c'.Writer) :
    (c.call op).Writer = (c'.call op).Writer := by
  cases op with
  | Write data => simp [call, writeBody, h]
  | WriteString s => simp [call, writeBody, h]
  | WriteHeader code => simp [call, Status, h]
  | Header key value =>
    by_cases hv : value = ""
    · simp [call, Header, hv, h]
    · simp [call, Header, hv, h]

theorem foldl_call_nextCalls (ops : List HandlerCall) (c : Context) :
    (ops.foldl call c).nextCalls = c.nextCalls := by
  induction ops generalizing c with
  | nil => rfl
  | cons op rest ih => rw [List.foldl_cons, ih, call_nextCalls]

theorem foldl_call_aborted (ops : List HandlerCall) (c : Context) :
    (ops.foldl call c).aborted = c.aborted := by
  induction ops generalizing c with
  | nil => rfl
  | cons op rest ih => rw [List.foldl_cons, ih, call_aborted]

theorem foldl_call_Writer_congr (ops : List HandlerCall) (c c' : Context)
    (h : c.Writer = c'.Writer) : (ops.foldl call c).Writer = (ops.foldl call c').Writer := by
  induction ops generalizing c c' with
  | nil => exact h
  | cons op rest ih =>
    rw [List.foldl_cons, List.foldl_cons]
    exact ih _ _ (call_Writer_congr c c' op h)

/-- Every installed wrapper has captured the concatenation of the bytes written. -/
theorem foldl_call_wrappers (ops : List HandlerCall) (c : Context) :
    (ops.foldl call c).wrappers =
      c.wrappers.map (fun b => b ++ (ops.map HandlerCall.payload).flatten) := by
  induction ops generalizing c with
  | nil => simp
  | cons op rest ih =>
    rw [List.foldl_cons, ih, call_wrappers, List.map_map]
    apply List.map_congr_left
    intro b _
    simp [List.append_assoc]

/-- The bytes the writer holds after a run of calls are those it held, followed by the
concatenation of the bytes written. -/
theorem foldl_call_body (ops : List HandlerCall) (c : Context) :
    (ops.foldl call c).Writer.body = c.Writer.body ++ (ops.map HandlerCall.payload).flatten := by
  induction ops generalizing c with
  | nil => simp
  | cons op rest ih =>
    rw [List.foldl_cons, ih]
    have : (c.call op).Writer.body = c.Writer.body ++ op.payload := by
      cases op <;>
        simp [call, writeBody, ResponseWriter.Write, ResponseWriter.body, HandlerCall.payload,
          Status_wrote, Header_wrote]
    rw [this]
    simp [List.append_assoc]

/-- Once written, a response stays written. -/
theorem foldl_call_Written (ops : List HandlerCall) (c : Context)
    (h : c.Writer.Written = true) : (ops.foldl call c).Writer.Written = true := by
  induction ops generalizing c with
  | nil => exact h
  | cons op rest ih =>
    rw [List.foldl_cons]
    apply ih
    cases op <;>
      simp [call, writeBody, ResponseWriter.Write, ResponseWriter.Written, Status_wrote,
        Header_wrote] <;> exact h

/-- A run of calls that wrote at least one byte has written the response. -/
theorem foldl_call_Written_of_payload (ops : List HandlerCall) (c : Context)
    (h : (ops.map HandlerCall.payload).flatten ≠ []) :
    (ops.foldl call c).Writer.Written = true := by
  induction ops generalizing c with
  | nil => simp at h
  | cons op rest ih =>
    rw [List.foldl_cons]
    by_cases hr : (rest.map HandlerCall.payload).flatten = []
    · apply foldl_call_Written
      cases op with
      | Write data => simp [call, writeBody, ResponseWriter.Write, ResponseWriter.Written]
      | WriteString s => simp [call, writeBody, ResponseWriter.Write, ResponseWriter.Written]
      | WriteHeader code => simp [HandlerCall.payload, hr] at h
      | Header key value => simp [HandlerCall.payload, hr] at h
    · exact ih _ hr

theorem Next_nextCalls (c : Context) (next : Handler) :
    (c.Next next).nextCalls = c.nextCalls + 1 := by
  unfold Next; rw [foldl_call_nextCalls]

theorem Next_aborted (c : Context) (next : Handler) :
    (c.Next next).aborted = c.aborted := by
  unfold Next; rw [foldl_call_aborted]

theorem Next_wrappers (c : Context) (next : Handler) :
    (c.Next next).wrappers =
      c.wrappers.map (fun b => b ++ (next.map HandlerCall.payload).flatten) := by
  unfold Next; rw [foldl_call_wrappers]

theorem Next_Writer_congr (c c' : Context) (next : Handler) (h : c.Writer = c'.Writer) :
    (c.Next next).Writer = (c'.Next next).Writer := by
  unfold Next
  exact foldl_call_Writer_congr next _ _ h

theorem Next_body (c : Context) (next : Handler) :
    (c.Next next).Writer.body = c.Writer.body ++ (next.map HandlerCall.payload).flatten := by
  unfold Next; rw [foldl_call_body]

end Context

/-! ## Laws of the middleware `Cache` -/

namespace CacheManager

/-- `Get` finds the key exactly when it is bound to a live entry. -/
theorem Get_found_iff (cm : CacheManager) (key : String) (now : Time) :
    (cm.Get key now).2 = true ↔
      ∃ e, cm.cache.get key = some e ∧ now - e.Timestamp ≤ e.TTL := by
  cases hg : cm.cache.get key with
  | none => simp [Get_of_get_none cm key now hg]
  | some e =>
    rw [Get_of_get_some cm key now e hg]
    by_cases hl : now - e.Timestamp ≤ e.TTL
    · rw [if_pos hl]
      exact ⟨fun _ => ⟨e, rfl, hl⟩, fun _ => rfl⟩
    · rw [if_neg hl]
      constructor
      · intro h; cases h
      · rintro ⟨e0, h0, hl0⟩
        cases h0
        exact absurd hl0 hl

theorem Get_of_live (cm : CacheManager) (key : String) (now : Time) (e : CacheEntry)
    (hg : cm.cache.get key = some e) (hl : now - e.Timestamp ≤ e.TTL) :
    cm.Get key now = (e.Data, true) := by
  rw [Get_of_get_some cm key now e hg, if_pos hl]

end CacheManager

/-- The middleware on a request that is not a GET. -/
theorem Cache_of_not_GET (ttl : Duration) (next : Handler) (readNow setNow : Time)
    (cm : CacheManager) (c : Context) (hm : c.Request.Method ≠ "GET") :
    Cache ttl next readNow setNow cm c = (c.Next next, cm) := by
  unfold Cache
  rw [if_pos hm]

/-- The middleware on a GET whose key is found. -/
theorem Cache_of_hit (ttl : Duration) (next : Handler) (readNow setNow : Time)
    (cm : CacheManager) (c : Context) (hm : c.Request.Method = "GET") (data : Bytes)
    (hget : cm.Get (cacheKey c.Request) readNow = (data, true)) :
    Cache ttl next readNow setNow cm c =
      ((((c.Header "X-Cache" "HIT").Header "Content-Type" "application/json").Data 200
          "application/json" data).Abort, cm) := by
  unfold Cache
  rw [if_neg (not_not.mpr hm)]
  simp only [hget, if_true]

/-- The middleware on a GET whose key is not found. -/
theorem Cache_of_miss (ttl : Duration) (next : Handler) (readNow setNow : Time)
    (cm : CacheManager) (c : Context) (hm : c.Request.Method = "GET")
    (hget : (cm.Get (cacheKey c.Request) readNow).2 = false) :
    Cache ttl next readNow setNow cm c =
      if (({ c with wrappers := [] :: c.wrappers } : Context).Next next).Writer.Status = 200 ∧
          (next.map HandlerCall.payload).flatten ≠ [] then
        ((({ c with wrappers := [] :: c.wrappers } : Context).Next next).Header "X-Cache" "MISS",
          cm.Set (cacheKey c.Request) (next.map HandlerCall.payload).flatten ttl setNow)
      else (({ c with wrappers := [] :: c.wrappers } : Context).Next next, cm) := by
  have hbody : (({ c with wrappers := [] :: c.wrappers } : Context).Next next).wrappers.headD []
      = (next.map HandlerCall.payload).flatten := by
    rw [Context.Next_wrappers]
    simp
  unfold Cache
  rw [if_neg (not_not.mpr hm)]
  simp only [hget, Bool.false_eq_true, if_false, hbody, gt_iff_lt, List.length_pos]

/-! ## The response cache: key, hit, miss, methods other than GET -/

theorem string_append_left_cancel (p a b : String) (h : p ++ a = p ++ b) : a = b := by
  have hd := congrArg String.data h
  rw [String.data_append, String.data_append] at hd
  exact String.ext (List.append_cancel_left hd)

theorem string_ne_append_question (p q : String) : p ≠ p ++ ("?" ++ q) := by
  intro h
  have hd := congrArg String.data h
  rw [String.data_append, String.data_append] at hd
  have := List.self_eq_append_right.1 hd
  simp at this

/-- C13: the cache key of a request is its path when the raw query string is empty, and
the path followed by `?` and the raw query string otherwise; nothing is normalised, so
two requests with the same path whose raw query strings differ as strings have different
keys. -/
theorem cacheKey_contract (r r' : Request) :
    (r.RawQuery = "" → cacheKey r = r.Path) ∧
    (r.RawQuery ≠ "" → cacheKey r = r.Path ++ "?" ++ r.RawQuery) ∧
    (r.Path = r'.Path → r.RawQuery ≠ r'.RawQuery → cacheKey r ≠ cacheKey r') := by
  refine ⟨fun h => by simp [cacheKey, h],
    fun h => by simp [cacheKey, h, String.append_assoc], ?_⟩
  intro hp hq hk
  unfold cacheKey at hk
  rw [← hp] at hk
  by_cases h1 : r.RawQuery = ""
  · by_cases h2 : r'.RawQuery = ""
    · exact hq (h1.trans h2.symm)
    · simp only [h1, h2, ne_eq, not_true_eq_false, if_false, not_false_eq_true, if_true] at hk
      exact string_ne_append_question _ _ hk
  · by_cases h2 : r'.RawQuery = ""
    · simp only [h1, h2, ne_eq, not_true_eq_false, if_false, not_false_eq_true, if_true] at hk
      exact string_ne_append_question _ _ hk.symm
    · simp only [h1, h2, ne_eq, not_false_eq_true, if_true] at hk
      exact hq (string_append_left_cancel _ _ _ (string_append_left_cancel _ _ _ hk))

/-- C13 at concrete inputs: reordered parameters, and an empty query against `x=1`. -/
theorem cacheKey_contract_witness :
    cacheKey ⟨"GET", "/api/episodes", "a=1&b=2", "ip"⟩
      ≠ cacheKey ⟨"GET", "/api/episodes", "b=2&a=1", "ip"⟩ ∧
    cacheKey ⟨"GET", "/api/episodes", "", "ip"⟩
      ≠ cacheKey ⟨"GET", "/api/episodes", "x=1", "ip"⟩ ∧
    cacheKey ⟨"GET", "/api/episodes", "x=1", "ip"⟩ = "/api/episodes?x=1" :=
  ⟨(cacheKey_contract ⟨"GET", "/api/episodes", "a=1&b=2", "ip"⟩
      ⟨"GET", "/api/episodes", "b=2&a=1", "ip"⟩).2.2 rfl (by decide),
   (cacheKey_contract ⟨"GET", "/api/episodes", "", "ip"⟩
      ⟨"GET", "/api/episodes", "x=1", "ip"⟩).2.2 rfl (by decide),
   ((cacheKey_contract ⟨"GET", "/api/episodes", "x=1", "ip"⟩
      ⟨"GET", "/api/episodes", "x=1", "ip"⟩).2.1 (by decide)).trans (by decide)⟩

/-- C14: cache hit. For a GET request whose key is bound to a live entry `e`, on a
response not yet written, the middleware leaves status 200, a body equal to `e.Data`,
the header `X-Cache: HIT` and `Content-Type: application/json`; the rest of the chain
is not run (the count of runs is unchanged and the context is aborted); the cache is
unchanged. -/
theorem Cache_hit (ttl : Duration) (next : Handler) (readNow setNow : Time)
    (cm : CacheManager) (c : Context) (e : CacheEntry)
    (hm : c.Request.Method = "GET")
    (hentry : cm.cache.get (cacheKey c.Request) = some e)
    (hlive : readNow - e.Timestamp ≤ e.TTL)
    (hfresh : c.Writer.wrote = none) :
    (Cache ttl next readNow setNow cm c).1.Writer.Status = 200 ∧
    (Cache ttl next readNow setNow cm c).1.Writer.wrote = some e.Data ∧
    (Cache ttl next readNow setNow cm c).1.Writer.header.get "X-Cache" = some "HIT" ∧
    (Cache ttl next readNow setNow cm c).1.Writer.header.get "Content-Type"
      = some "application/json" ∧
    (Cache ttl next readNow setNow cm c).1.nextCalls = c.nextCalls ∧
    (Cache ttl next readNow setNow cm c).1.aborted = true ∧
    (Cache ttl next readNow setNow cm c).2 = cm := by
  rw [Cache_of_hit ttl next readNow setNow cm c hm e.Data
    (CacheManager.Get_of_live cm _ readNow e hentry hlive)]
  obtain ⟨h1, h2, h3, h4, h5, _⟩ :=
    Context.Render_fresh ((c.Header "X-Cache" "HIT").Header "Content-Type" "application/json")
      200 "application/json" e.Data (by decide) (by decide) (by simpa using hfresh)
  refine ⟨h1, h2, ?_, ?_, ?_, rfl, rfl⟩
  · show (Context.Render _ 200 "application/json" e.Data).Writer.header.get "X-Cache" = _
    rw [h3 "X-Cache" (by decide)]
    simp
  · show (Context.Render _ 200 "application/json" e.Data).Writer.header.get "Content-Type" = _
    rw [h4]
    simp
  · show (Context.Render _ 200 "application/json" e.Data).nextCalls = _
    rw [h5]
    simp

/-- C14 at a concrete input: an entry stored at time 0 with ttl 60, read at time 5. -/
theorem Cache_hit_witness :
    (Cache 60 [HandlerCall.Write [9]] 5 5 (CacheManager.new.Set "/api/episodes" [1, 2] 60 0)
      (Context.new ⟨"GET", "/api/episodes", "", "ip"⟩)).1.Writer.wrote = some [1, 2] ∧
    (Cache 60 [HandlerCall.Write [9]] 5 5 (CacheManager.new.Set "/api/episodes" [1, 2] 60 0)
      (Context.new ⟨"GET", "/api/episodes", "", "ip"⟩)).1.nextCalls = 0 :=
  have h := Cache_hit 60 [HandlerCall.Write [9]] 5 5
    (CacheManager.new.Set "/api/episodes" [1, 2] 60 0)
    (Context.new ⟨"GET", "/api/episodes", "", "ip"⟩) ⟨[1, 2], 0, 60⟩
    (by decide) (by decide) (by decide) (by decide)
  ⟨h.2.1, h.2.2.2.2.1⟩

/-- C15: cache miss. For a GET request whose key has no live entry, the middleware runs
the rest of the chain once; the bytes captured are the concatenation of everything
written through `Write` and `WriteString`; when the final status is 200 and the captured
bytes are not empty, the cache afterwards is the cache before with the key set to the
captured bytes, the configured ttl and the time of the `Set`; in every other case the
cache is the cache before. -/
theorem Cache_miss (ttl : Duration) (next : Handler) (readNow setNow : Time)
    (cm : CacheManager) (c : Context)
    (hm : c.Request.Method = "GET")
    (hmiss : ¬ ∃ e, cm.cache.get (cacheKey c.Request) = some e ∧
      readNow - e.Timestamp ≤ e.TTL) :
    (Cache ttl next readNow setNow cm c).1.nextCalls = c.nextCalls + 1 ∧
    ((Cache ttl next readNow setNow cm c).1.Writer.Status = 200 ∧
        (next.map HandlerCall.payload).flatten ≠ [] →
      (Cache ttl next readNow setNow cm c).2 =
          cm.Set (cacheKey c.Request) (next.map HandlerCall.payload).flatten ttl setNow ∧
      (Cache ttl next readNow setNow cm c).2.cache.get (cacheKey c.Request) =
          some ⟨(next.map HandlerCall.payload).flatten, setNow, ttl⟩) ∧
    (¬ ((Cache ttl next readNow setNow cm c).1.Writer.Status = 200 ∧
        (next.map HandlerCall.payload).flatten ≠ []) →
      (Cache ttl next readNow setNow cm c).2 = cm) := by
  have hget : (cm.Get (cacheKey c.Request) readNow).2 = false := by
    cases hb : (cm.Get (cacheKey c.Request) readNow).2 with
    | false => rfl
    | true => exact absurd ((CacheManager.Get_found_iff cm _ readNow).1 hb) hmiss
  rw [Cache_of_miss ttl next readNow setNow cm c hm hget]
  by_cases hcond : (({ c with wrappers := [] :: c.wrappers } : Context).Next next).Writer.Status
      = 200 ∧ (next.map HandlerCall.payload).flatten ≠ []
  · rw [if_pos hcond]
    refine ⟨?_, fun _ => ⟨rfl, ?_⟩, fun hn => absurd ?_ hn⟩
    · simp [Context.Next_nextCalls]
    · simp [CacheManager.Set, GoMap.get_set]
    · exact ⟨by simpa [ResponseWriter.Status] using hcond.1, hcond.2⟩
  · rw [if_neg hcond]
    exact ⟨by simp [Context.Next_nextCalls], fun h => absurd h hcond, fun _ => rfl⟩

/-- C15 at a concrete input: an empty cache and a chain that writes `[1]` and `"a"` under
status 200; the bytes `[1, 97]` are stored. -/
theorem Cache_miss_witness :
    (Cache 60 [HandlerCall.Write [1], HandlerCall.WriteString "a"] 0 0 CacheManager.new
      (Context.new ⟨"GET", "/api/episodes", "", "ip"⟩)).2.cache.get "/api/episodes"
        = some ⟨[1, 97], 0, 60⟩ :=
  (((Cache_miss 60 [HandlerCall.Write [1], HandlerCall.WriteString "a"] 0 0 CacheManager.new
      (Context.new ⟨"GET", "/api/episodes", "", "ip"⟩) (by decide)
      (by rintro ⟨e, he, _⟩; cases he.symm.trans (GoMap.get_empty _))).2.1
      ⟨by decide, by decide⟩).2).trans (by decide)

/-- C18: only GET is cached. For a request whose method is not exactly `GET` the
middleware is the rest of the chain and nothing else: the chain runs once, the context
afterwards is the one the chain alone leaves (no `X-Cache` header is set by the
middleware), the cache is unchanged, and the response does not depend on what the cache
holds, even when it holds a live entry for the same path and query. -/
theorem Cache_only_GET (ttl : Duration) (next : Handler) (readNow setNow : Time)
    (cm : CacheManager) (c : Context) (hm : c.Request.Method ≠ "GET") :
    (Cache ttl next readNow setNow cm c).1 = c.Next next ∧
    (Cache ttl next readNow setNow cm c).1.nextCalls = c.nextCalls + 1 ∧
    (Cache ttl next readNow setNow cm c).1.Writer.header.get "X-Cache"
      = (c.Next next).Writer.header.get "X-Cache" ∧
    (Cache ttl next readNow setNow cm c).2 = cm ∧
    (∀ cm', (Cache ttl next readNow setNow cm' c).1 = (Cache ttl next readNow setNow cm c).1) := by
  rw [Cache_of_not_GET ttl next readNow setNow cm c hm]
  refine ⟨rfl, Context.Next_nextCalls c next, rfl, rfl, fun cm' => ?_⟩
  rw [Cache_of_not_GET ttl next readNow setNow cm' c hm]

/-- C18 at a concrete input: a POST to a path with a live cached entry runs the chain,
answers with the chain's bytes and carries no `X-Cache` header. -/
theorem Cache_only_GET_witness :
    (Cache 60 [HandlerCall.Write [9]] 5 5 (CacheManager.new.Set "/api/episodes" [1, 2] 60 0)
      (Context.new ⟨"POST", "/api/episodes", "", "ip"⟩)).1.Writer.wrote = some [9] ∧
    (Cache 60 [HandlerCall.Write [9]] 5 5 (CacheManager.new.Set "/api/episodes" [1, 2] 60 0)
      (Context.new ⟨"POST", "/api/episodes", "", "ip"⟩)).1.Writer.header.get "X-Cache"
        = none :=
  have h := Cache_only_GET 60 [HandlerCall.Write [9]] 5 5
    (CacheManager.new.Set "/api/episodes" [1, 2] 60 0)
    (Context.new ⟨"POST", "/api/episodes", "", "ip"⟩) (by decide)
  ⟨(congrArg (fun x => x.Writer.wrote) h.1).trans (by decide), h.2.2.1.trans (by decide)⟩

/-! ## The response cache: the headers of the response -/

namespace Context

theorem Status_sent (c : Context) (code : Int) :
    (c.Status code).Writer.sent = c.Writer.sent := by
  unfold Status ResponseWriter.WriteHeader
  split
  · split <;> rfl
  · rfl

theorem Header_sent (c : Context) (key value : String) :
    (c.Header key value).Writer.sent = c.Writer.sent := by
  unfold Header
  split <;> rfl

/-- A header set or removed once the headers are sent is not part of the response. -/
theorem Header_sentHeaders (c : Context) (key value : String)
    (h : c.Writer.sent.isSome = true) :
    (c.Header key value).Writer.sentHeaders = c.Writer.sentHeaders := by
  unfold ResponseWriter.sentHeaders
  rw [Header_sent]
  cases hs : c.Writer.sent with
  | none => simp [hs] at h
  | some m => rfl

/-- Once the headers are sent, they stay sent. -/
theorem foldl_call_sent (ops : List HandlerCall) (c : Context)
    (h : c.Writer.sent.isSome = true) : (ops.foldl call c).Writer.sent.isSome = true := by
  induction ops generalizing c with
  | nil => exact h
  | cons op rest ih =>
    rw [List.foldl_cons]
    apply ih
    cases op with
    | Write data => simp [call, writeBody, ResponseWriter.Write]
    | WriteString s => simp [call, writeBody, ResponseWriter.Write]
    | WriteHeader code => simpa [call, Status_sent] using h
    | Header key value => simpa [call, Header_sent] using h

/-- A run of calls that wrote at least one byte has sent the headers. -/
theorem foldl_call_sent_of_payload (ops : List HandlerCall) (c : Context)
    (h : (ops.map HandlerCall.payload).flatten ≠ []) :
    (ops.foldl call c).Writer.sent.isSome = true := by
  induction ops generalizing c with
  | nil => simp at h
  | cons op rest ih =>
    rw [List.foldl_cons]
    by_cases hr : (rest.map HandlerCall.payload).flatten = []
    · apply foldl_call_sent
      cases op with
      | Write data => simp [call, writeBody, ResponseWriter.Write]
      | WriteString s => simp [call, writeBody, ResponseWriter.Write]
      | WriteHeader code => simp [HandlerCall.payload, hr] at h
      | Header key value => simp [HandlerCall.payload, hr] at h
    · exact ih _ hr

/-- The headers `c.Render` sends on a response whose headers are not yet sent, for a
status that allows a body: the header map as `c.Render` leaves it. -/
theorem Render_sentHeaders (c : Context) (code : Int) (contentType : String)
    (payload : Bytes) (hbody : bodyAllowedForStatus code = true)
    (hsent : c.Writer.sent = none) :
    (c.Render code contentType payload).Writer.sentHeaders =
      (c.Render code contentType payload).Writer.header := by
  have hs : (c.Status code).Writer.sent = none := by rw [Status_sent]; exact hsent
  unfold Render
  simp only [hbody, if_true]
  cases hct : (c.Status code).Writer.header.get "Content-Type" with
  | none =>
    simp [writeBody, ResponseWriter.Write, ResponseWriter.SetHeader,
      ResponseWriter.sentHeaders, hs]
  | some v =>
    simp [writeBody, ResponseWriter.Write, ResponseWriter.sentHeaders, hs]

end Context

/-- On a GET that is not found and whose answer is stored, the headers of the response
are those the rest of the chain sent: the middleware puts `X-Cache: MISS` in the header
map once the response is written, and the header is not sent. -/
theorem Cache_miss_sentHeaders (ttl : Duration) (next : Handler) (readNow setNow : Time)
    (cm : CacheManager) (c : Context) (hm : c.Request.Method = "GET")
    (hget : (cm.Get (cacheKey c.Request) readNow).2 = false)
    (hstatus : (({ c with wrappers := [] :: c.wrappers } : Context).Next next).Writer.Status
      = 200)
    (hbody : (next.map HandlerCall.payload).flatten ≠ []) :
    (Cache ttl next readNow setNow cm c).1.Writer.sentHeaders =
      (({ c with wrappers := [] :: c.wrappers } : Context).Next next).Writer.sentHeaders ∧
    (Cache ttl next readNow setNow cm c).1.Writer.header.get "X-Cache" = some "MISS" := by
  rw [Cache_of_miss ttl next readNow setNow cm c hm hget, if_pos ⟨hstatus, hbody⟩]
  exact ⟨Context.Header_sentHeaders _ _ _ (Context.foldl_call_sent_of_payload next _ hbody),
    by simp⟩

/-- On a GET that is found, on a response not yet written, `X-Cache: HIT` is a header of
the response: the middleware sets it before it writes. -/
theorem Cache_hit_sentHeader (ttl : Duration) (next : Handler) (readNow setNow : Time)
    (cm : CacheManager) (c : Context) (e : CacheEntry) (hm : c.Request.Method = "GET")
    (hentry : cm.cache.get (cacheKey c.Request) = some e)
    (hlive : readNow - e.Timestamp ≤ e.TTL) (hfresh : c.Writer.wrote = none)
    (hsent : c.Writer.sent = none) :
    (Cache ttl next readNow setNow cm c).1.Writer.sentHeader "X-Cache" = some "HIT" := by
  rw [Cache_of_hit ttl next readNow setNow cm c hm e.Data
    (CacheManager.Get_of_live cm _ readNow e hentry hlive)]
  obtain ⟨_, _, h3, _⟩ :=
    Context.Render_fresh ((c.Header "X-Cache" "HIT").Header "Content-Type" "application/json")
      200 "application/json" e.Data (by decide) (by decide) (by simpa using hfresh)
  have hs := Context.Render_sentHeaders
    ((c.Header "X-Cache" "HIT").Header "Content-Type" "application/json")
    200 "application/json" e.Data (by decide)
    (by rw [Context.Header_sent, Context.Header_sent]; exact hsent)
  show (Context.Render _ 200 "application/json" e.Data).Writer.sentHeaders.get "X-Cache" = _
  rw [hs, h3 "X-Cache" (by decide)]
  simp

/-- C17, where the code departs from it: a GET to `/api/episodes/featured`, an empty
cache, a rest of the chain that sets `Content-Type: text/plain` and answers 200 with the
body `[1]`. The response carries `Content-Type` and no `X-Cache` header, neither `HIT`
nor `MISS`: the middleware puts `X-Cache: MISS` in the header map with the response
already written. -/
theorem Cache_header_MISS_not_sent :
    (Cache 60 [HandlerCall.Header "Content-Type" "text/plain", HandlerCall.WriteHeader 200,
        HandlerCall.Write [1]] 0 0 CacheManager.new
      (Context.new ⟨"GET", "/api/episodes/featured", "", "ip"⟩)).1.Writer.sentHeader "X-Cache"
        = none ∧
    (Cache 60 [HandlerCall.Header "Content-Type" "text/plain", HandlerCall.WriteHeader 200,
        HandlerCall.Write [1]] 0 0 CacheManager.new
      (Context.new ⟨"GET", "/api/episodes/featured", "", "ip"⟩)).1.Writer.sentHeader
        "Content-Type" = some "text/plain" ∧
    (Cache 60 [HandlerCall.Header "Content-Type" "text/plain", HandlerCall.WriteHeader 200,
        HandlerCall.Write [1]] 0 0 CacheManager.new
      (Context.new ⟨"GET", "/api/episodes/featured", "", "ip"⟩)).1.Writer.Status = 200 ∧
    (Cache 60 [HandlerCall.Header "Content-Type" "text/plain", HandlerCall.WriteHeader 200,
        HandlerCall.Write [1]] 0 0 CacheManager.new
      (Context.new ⟨"GET", "/api/episodes/featured", "", "ip"⟩)).1.Writer.wrote
        = some [1] ∧
    (Cache 60 [HandlerCall.Header "Content-Type" "text/plain", HandlerCall.WriteHeader 200,
        HandlerCall.Write [1]] 0 0 CacheManager.new
      (Context.new ⟨"GET", "/api/episodes/featured", "", "ip"⟩)).1.Writer.header.get "X-Cache"
        = some "MISS" := by
  decide

/-! ## The response cache end to end -/

/-- C16, where the code departs from it: an empty cache, ttl 60, a rest of the chain that
answers 200 with the body `[7, 8]`. The first GET to `/api/episodes`, at time 0, is
answered with the body `[7, 8]` and without an `X-Cache` header, the chain having run
once: `MISS` is in the header map, put there with the response already written. The
rest is as claimed: a second GET to `/api/episodes`, at time 10, is answered with
`X-Cache: HIT` and the body `[7, 8]` and the chain does not run; a GET to
`/api/episodes?x=1` at time 20 is not found and runs the chain. -/
theorem Cache_end_to_end_MISS_not_sent :
    (Cache 60 [HandlerCall.Write [7, 8]] 0 0 CacheManager.new
      (Context.new ⟨"GET", "/api/episodes", "", "ip"⟩)).1.Writer.sentHeader "X-Cache"
        = none ∧
    (Cache 60 [HandlerCall.Write [7, 8]] 0 0 CacheManager.new
      (Context.new ⟨"GET", "/api/episodes", "", "ip"⟩)).1.Writer.header.get "X-Cache"
        = some "MISS" ∧
    (Cache 60 [HandlerCall.Write [7, 8]] 0 0 CacheManager.new
      (Context.new ⟨"GET", "/api/episodes", "", "ip"⟩)).1.Writer.wrote = some [7, 8] ∧
    (Cache 60 [HandlerCall.Write [7, 8]] 0 0 CacheManager.new
      (Context.new ⟨"GET", "/api/episodes", "", "ip"⟩)).1.nextCalls = 1 ∧
    (Cache 60 [HandlerCall.Write [7, 8]] 10 10
      (Cache 60 [HandlerCall.Write [7, 8]] 0 0 CacheManager.new
        (Context.new ⟨"GET", "/api/episodes", "", "ip"⟩)).2
      (Context.new ⟨"GET", "/api/episodes", "", "ip"⟩)).1.Writer.sentHeader "X-Cache"
        = some "HIT" ∧
    (Cache 60 [HandlerCall.Write [7, 8]] 10 10
      (Cache 60 [HandlerCall.Write [7, 8]] 0 0 CacheManager.new
        (Context.new ⟨"GET", "/api/episodes", "", "ip"⟩)).2
      (Context.new ⟨"GET", "/api/episodes", "", "ip"⟩)).1.Writer.wrote = some [7, 8] ∧
    (Cache 60 [HandlerCall.Write [7, 8]] 10 10
      (Cache 60 [HandlerCall.Write [7, 8]] 0 0 CacheManager.new
        (Context.new ⟨"GET", "/api/episodes", "", "ip"⟩)).2
      (Context.new ⟨"GET", "/api/episodes", "", "ip"⟩)).1.nextCalls = 0 ∧
    (Cache 60 [HandlerCall.Write [7, 8]] 20 20
      (Cache 60 [HandlerCall.Write [7, 8]] 0 0 CacheManager.new
        (Context.new ⟨"GET", "/api/episodes", "", "ip"⟩)).2
      (Context.new ⟨"GET", "/api/episodes", "x=1", "ip"⟩)).1.nextCalls = 1 := by
  decide

/-- When the middleware sets `X-Cache: MISS`, the response is already written: the header
is put in the header map of a writer that has written its status line and body. -/
theorem Cache_MISS_set_after_write (ttl : Duration) (next : Handler) (readNow setNow : Time)
    (cm : CacheManager) (c : Context) (hm : c.Request.Method = "GET")
    (hget : (cm.Get (cacheKey c.Request) readNow).2 = false)
    (hstatus : (({ c with wrappers := [] :: c.wrappers } : Context).Next next).Writer.Status
      = 200)
    (hbody : (next.map HandlerCall.payload).flatten ≠ []) :
    ∃ c2 : Context, c2.Writer.Written = true ∧
      (Cache ttl next readNow setNow cm c).1 = c2.Header "X-Cache" "MISS" := by
  refine ⟨({ c with wrappers := [] :: c.wrappers } : Context).Next next,
    Context.foldl_call_Written_of_payload next _ hbody, ?_⟩
  rw [Cache_of_miss ttl next readNow setNow cm c hm hget, if_pos ⟨hstatus, hbody⟩]

/-! ## The rate-limit middleware -/

theorem RateLimitWithConfig_of_rejected (limit : Int) (window : Duration) (marshal : H → Bytes)
    (rfc3339 : Time → String) (next : Handler) (checkNow headerNow : Time)
    (rl : RateLimiter) (c : Context)
    (hrej : (rl.IsAllowed c.Request.ClientIP checkNow).1 = false) :
    RateLimitWithConfig limit window marshal rfc3339 next checkNow headerNow rl c =
      (((((c.Header "X-RateLimit-Limit" (runeString (rune limit))).Header
          "X-RateLimit-Remaining" "0").Header
          "X-RateLimit-Reset" (rfc3339 (headerNow + window))).JSON marshal
          StatusTooManyRequests rateLimitBody).Abort,
        (rl.IsAllowed c.Request.ClientIP checkNow).2) := by
  unfold RateLimitWithConfig
  simp only [hrej, Bool.not_false, if_true]

theorem RateLimitWithConfig_of_admitted (limit : Int) (window : Duration) (marshal : H → Bytes)
    (rfc3339 : Time → String) (next : Handler) (checkNow headerNow : Time)
    (rl : RateLimiter) (c : Context)
    (hadm : (rl.IsAllowed c.Request.ClientIP checkNow).1 = true) :
    RateLimitWithConfig limit window marshal rfc3339 next checkNow headerNow rl c =
      (c.Next next, (rl.IsAllowed c.Request.ClientIP checkNow).2) := by
  unfold RateLimitWithConfig
  simp only [hadm, Bool.not_true, Bool.false_eq_true, if_false]

theorem RateLimit_of_rejected (marshal : H → Bytes)
    (rfc3339 : Time → String) (next : Handler) (checkNow headerNow : Time)
    (rl : RateLimiter) (c : Context)
    (hrej : (rl.IsAllowed c.Request.ClientIP checkNow).1 = false) :
    RateLimit marshal rfc3339 next checkNow headerNow rl c =
      (((((c.Header "X-RateLimit-Limit" "100").Header
          "X-RateLimit-Remaining" "0").Header
          "X-RateLimit-Reset" (rfc3339 (headerNow + Minute))).JSON marshal
          StatusTooManyRequests rateLimitBody).Abort,
        (rl.IsAllowed c.Request.ClientIP checkNow).2) := by
  unfold RateLimit
  simp only [hrej, Bool.not_false, if_true]

theorem RateLimit_of_admitted (marshal : H → Bytes)
    (rfc3339 : Time → String) (next : Handler) (checkNow headerNow : Time)
    (rl : RateLimiter) (c : Context)
    (hadm : (rl.IsAllowed c.Request.ClientIP checkNow).1 = true) :
    RateLimit marshal rfc3339 next checkNow headerNow rl c =
      (c.Next next, (rl.IsAllowed c.Request.ClientIP checkNow).2) := by
  unfold RateLimit
  simp only [hadm, Bool.not_true, Bool.false_eq_true, if_false]

/-- The response the two middlewares build on rejection, the value of the limit header
being `lim`: on a response not yet written, and for a non-empty reset value. -/
theorem rejection_response (c : Context) (lim reset : String) (marshal : H → Bytes)
    (hreset : reset ≠ "") (hfresh : c.Writer.wrote = none) :
    ((((c.Header "X-RateLimit-Limit" lim).Header "X-RateLimit-Remaining" "0").Header
        "X-RateLimit-Reset" reset).JSON marshal StatusTooManyRequests
        rateLimitBody).Abort.Writer.Status = 429 ∧
    ((((c.Header "X-RateLimit-Limit" lim).Header "X-RateLimit-Remaining" "0").Header
        "X-RateLimit-Reset" reset).JSON marshal StatusTooManyRequests
        rateLimitBody).Abort.Writer.header.get "X-RateLimit-Remaining" = some "0" ∧
    ((((c.Header "X-RateLimit-Limit" lim).Header "X-RateLimit-Remaining" "0").Header
        "X-RateLimit-Reset" reset).JSON marshal StatusTooManyRequests
        rateLimitBody).Abort.Writer.header.get "X-RateLimit-Reset" = some reset ∧
    ((((c.Header "X-RateLimit-Limit" lim).Header "X-RateLimit-Remaining" "0").Header
        "X-RateLimit-Reset" reset).JSON marshal StatusTooManyRequests
        rateLimitBody).Abort.Writer.header.get "X-RateLimit-Limit"
          = (if lim = "" then none else some lim) ∧
    ((((c.Header "X-RateLimit-Limit" lim).Header "X-RateLimit-Remaining" "0").Header
        "X-RateLimit-Reset" reset).JSON marshal StatusTooManyRequests
        rateLimitBody).Abort.Writer.wrote = some (marshal rateLimitBody) ∧
    ((((c.Header "X-RateLimit-Limit" lim).Header "X-RateLimit-Remaining" "0").Header
        "X-RateLimit-Reset" reset).JSON marshal StatusTooManyRequests
        rateLimitBody).Abort.nextCalls = c.nextCalls ∧
    ((((c.Header "X-RateLimit-Limit" lim).Header "X-RateLimit-Remaining" "0").Header
        "X-RateLimit-Reset" reset).JSON marshal StatusTooManyRequests
        rateLimitBody).Abort.aborted = true := by
  obtain ⟨h1, h2, h3, _, h5, _⟩ :=
    Context.Render_fresh
      (((c.Header "X-RateLimit-Limit" lim).Header "X-RateLimit-Remaining" "0").Header
        "X-RateLimit-Reset" reset)
      StatusTooManyRequests "application/json; charset=utf-8" (marshal rateLimitBody)
      (by decide) (by decide) (by simpa using hfresh)
  refine ⟨h1, ?_, ?_, ?_, h2, ?_, rfl⟩
  · show (Context.Render _ _ _ _).Writer.header.get "X-RateLimit-Remaining" = _
    rw [h3 _ (by decide)]
    have : ¬ ("X-RateLimit-Reset" : String) = "X-RateLimit-Remaining" := by decide
    simp [this]
  · show (Context.Render _ _ _ _).Writer.header.get "X-RateLimit-Reset" = _
    rw [h3 _ (by decide)]
    simp [hreset]
  · show (Context.Render _ _ _ _).Writer.header.get "X-RateLimit-Limit" = _
    rw [h3 _ (by decide)]
    have h1 : ¬ ("X-RateLimit-Reset" : String) = "X-RateLimit-Limit" := by decide
    have h2 : ¬ ("X-RateLimit-Remaining" : String) = "X-RateLimit-Limit" := by decide
    simp [h1, h2]
  · show (Context.Render _ _ _ _).nextCalls = _
    rw [h5]
    simp

theorem runeString_ne_empty (r : Int) : runeString r ≠ "" := by
  unfold runeString
  split <;> exact fun h => by simpa [String.singleton, String.ext_iff] using congrArg String.data h

/-- The limit header `RateLimitWithConfig` sends on rejection is the one-character string
`string(rune(limit))`, for every limit. -/
theorem RateLimitWithConfig_limit_header (limit : Int) (window : Duration)
    (marshal : H → Bytes) (rfc3339 : Time → String) (next : Handler)
    (checkNow headerNow : Time) (rl : RateLimiter) (c : Context)
    (hrej : (rl.IsAllowed c.Request.ClientIP checkNow).1 = false)
    (hfresh : c.Writer.wrote = none) (hfmt : rfc3339 (headerNow + window) ≠ "") :
    (RateLimitWithConfig limit window marshal rfc3339 next checkNow headerNow rl
      c).1.Writer.header.get "X-RateLimit-Limit" = some (runeString (rune limit)) := by
  rw [RateLimitWithConfig_of_rejected limit window marshal rfc3339 next checkNow headerNow rl c
    hrej]
  rw [(rejection_response c (runeString (rune limit)) _ marshal hfmt hfresh).2.2.2.1,
    if_neg (runeString_ne_empty _)]

set_option maxRecDepth 1000000 in
/-- C11, the code at the failing input: `RateLimitWithConfig(100, time.Minute)`, a client
that has made 100 requests at time 0 and is rejected at time 1. The header
`X-RateLimit-Limit` of the response is `"d"`, the character with code point 100, and not
`"100"`, the decimal representation of the limit, which the sibling middleware
`RateLimit` sends in the same situation. -/
theorem RateLimitWithConfig_limit_header_is_rune :
    (((NewRateLimiter 100 Minute).callAll "ip" (List.replicate 100 0)).2.IsAllowed "ip"
      1).1 = false ∧
    (RateLimitWithConfig 100 Minute (fun _ => []) (fun _ => "t") [] 1 1
      ((NewRateLimiter 100 Minute).callAll "ip" (List.replicate 100 0)).2
      (Context.new ⟨"GET", "/api/episodes", "", "ip"⟩)).1.Writer.header.get
        "X-RateLimit-Limit" = some "d" ∧
    Itoa 100 = "100" ∧
    (RateLimit (fun _ => []) (fun _ => "t") [] 1 1
      ((NewRateLimiter 100 Minute).callAll "ip" (List.replicate 100 0)).2
      (Context.new ⟨"GET", "/api/episodes", "", "ip"⟩)).1.Writer.header.get
        "X-RateLimit-Limit" = some "100" := by
  decide

/-- C12: the rate-limit middleware, `RateLimitWithConfig(limit, window)` and `RateLimit()`
alike, on a response not yet written. A request whose client key `IsAllowed` rejects gets
status 429, `X-RateLimit-Remaining: 0`, `X-RateLimit-Reset` equal to the RFC3339
rendering of the clock reading plus the window (one minute for `RateLimit`), the JSON
encoding of a body whose `error` is `rate_limit_exceeded` and whose `code` is 429, and
the rest of the chain is not run (no run is counted and the context is aborted). A
request that is admitted gets exactly what the rest of the chain produces, run once. In
both cases the limiter is left in the state `IsAllowed` leaves. -/
theorem RateLimit_contract (limit : Int) (window : Duration) (marshal : H → Bytes)
    (rfc3339 : Time → String) (next : Handler) (checkNow headerNow : Time)
    (rl : RateLimiter) (c : Context)
    (hfresh : c.Writer.wrote = none) (hfmt : ∀ t, rfc3339 t ≠ "") :
    ((rl.IsAllowed c.Request.ClientIP checkNow).1 = false →
      ((RateLimitWithConfig limit window marshal rfc3339 next checkNow headerNow rl
          c).1.Writer.Status = 429 ∧
        (RateLimitWithConfig limit window marshal rfc3339 next checkNow headerNow rl
          c).1.Writer.header.get "X-RateLimit-Remaining" = some "0" ∧
        (RateLimitWithConfig limit window marshal rfc3339 next checkNow headerNow rl
          c).1.Writer.header.get "X-RateLimit-Reset" = some (rfc3339 (headerNow + window)) ∧
        (RateLimitWithConfig limit window marshal rfc3339 next checkNow headerNow rl
          c).1.Writer.wrote = some (marshal rateLimitBody) ∧
        (RateLimitWithConfig limit window marshal rfc3339 next checkNow headerNow rl
          c).1.nextCalls = c.nextCalls ∧
        (RateLimitWithConfig limit window marshal rfc3339 next checkNow headerNow rl
          c).1.aborted = true) ∧
      ((RateLimit marshal rfc3339 next checkNow headerNow rl c).1.Writer.Status = 429 ∧
        (RateLimit marshal rfc3339 next checkNow headerNow rl c).1.Writer.header.get
          "X-RateLimit-Remaining" = some "0" ∧
        (RateLimit marshal rfc3339 next checkNow headerNow rl c).1.Writer.header.get
          "X-RateLimit-Reset" = some (rfc3339 (headerNow + Minute)) ∧
        (RateLimit marshal rfc3339 next checkNow headerNow rl c).1.Writer.wrote
          = some (marshal rateLimitBody) ∧
        (RateLimit marshal rfc3339 next checkNow headerNow rl c).1.nextCalls = c.nextCalls ∧
        (RateLimit marshal rfc3339 next checkNow headerNow rl c).1.aborted = true)) ∧
    (lookupKey rateLimitBody "error" = some (JSONValue.str "rate_limit_exceeded") ∧
      lookupKey rateLimitBody "code" = some (JSONValue.num 429)) ∧
    ((rl.IsAllowed c.Request.ClientIP checkNow).1 = true →
      (RateLimitWithConfig limit window marshal rfc3339 next checkNow headerNow rl c).1
        = c.Next next ∧
      (RateLimit marshal rfc3339 next checkNow headerNow rl c).1 = c.Next next ∧
      (c.Next next).nextCalls = c.nextCalls + 1) ∧
    (RateLimitWithConfig limit window marshal rfc3339 next checkNow headerNow rl c).2
      = (rl.IsAllowed c.Request.ClientIP checkNow).2 ∧
    (RateLimit marshal rfc3339 next checkNow headerNow rl c).2
      = (rl.IsAllowed c.Request.ClientIP checkNow).2 := by
  refine ⟨?_, ⟨by decide, by decide⟩, ?_, ?_, ?_⟩
  · intro hrej
    rw [RateLimitWithConfig_of_rejected limit window marshal rfc3339 next checkNow headerNow
      rl c hrej, RateLimit_of_rejected marshal rfc3339 next checkNow headerNow rl c hrej]
    obtain ⟨a1, a2, a3, _, a5, a6, a7⟩ :=
      rejection_response c (runeString (rune limit)) (rfc3339 (headerNow + window)) marshal
        (hfmt _) hfresh
    obtain ⟨b1, b2, b3, _, b5, b6, b7⟩ :=
      rejection_response c "100" (rfc3339 (headerNow + Minute)) marshal (hfmt _) hfresh
    exact ⟨⟨a1, a2, a3, a5, a6, a7⟩, ⟨b1, b2, b3, b5, b6, b7⟩⟩
  · intro hadm
    rw [RateLimitWithConfig_of_admitted limit window marshal rfc3339 next checkNow headerNow
      rl c hadm, RateLimit_of_admitted marshal rfc3339 next checkNow headerNow rl c hadm]
    exact ⟨rfl, rfl, Context.Next_nextCalls c next⟩
  · cases hb : (rl.IsAllowed c.Request.ClientIP checkNow).1 with
    | false =>
      rw [RateLimitWithConfig_of_rejected limit window marshal rfc3339 next checkNow headerNow
        rl c hb]
    | true =>
      rw [RateLimitWithConfig_of_admitted limit window marshal rfc3339 next checkNow headerNow
        rl c hb]
  · cases hb : (rl.IsAllowed c.Request.ClientIP checkNow).1 with
    | false => rw [RateLimit_of_rejected marshal rfc3339 next checkNow headerNow rl c hb]
    | true => rw [RateLimit_of_admitted marshal rfc3339 next checkNow headerNow rl c hb]

/-- C12 at a concrete input: limit 1, window 10, a client rejected at time 5 after its
request at time 0; the rendering of an instant is its number followed by `ns`. -/
theorem RateLimit_contract_witness :
    (RateLimitWithConfig 1 10 (fun _ => [1]) (fun t => toString t ++ "ns")
      [HandlerCall.Write [9]] 5 6 ((NewRateLimiter 1 10).IsAllowed "ip" 0).2
      (Context.new ⟨"GET", "/api/episodes", "", "ip"⟩)).1.Writer.Status = 429 ∧
    (RateLimitWithConfig 1 10 (fun _ => [1]) (fun t => toString t ++ "ns")
      [HandlerCall.Write [9]] 5 6 ((NewRateLimiter 1 10).IsAllowed "ip" 0).2
      (Context.new ⟨"GET", "/api/episodes", "", "ip"⟩)).1.Writer.header.get
        "X-RateLimit-Reset" = some "16ns" ∧
    (RateLimitWithConfig 1 10 (fun _ => [1]) (fun t => toString t ++ "ns")
      [HandlerCall.Write [9]] 5 6 ((NewRateLimiter 1 10).IsAllowed "ip" 0).2
      (Context.new ⟨"GET", "/api/episodes", "", "ip"⟩)).1.Writer.wrote = some [1] :=
  have h := (RateLimit_contract 1 10 (fun _ => [1]) (fun t => toString t ++ "ns")
    [HandlerCall.Write [9]] 5 6 ((NewRateLimiter 1 10).IsAllowed "ip" 0).2
    (Context.new ⟨"GET", "/api/episodes", "", "ip"⟩) (by decide)
    (by
      intro t h
      have hd := congrArg String.data h
      rw [String.data_append] at hd
      have := congrArg List.length hd
      simp at this)).1 (by decide)
  ⟨h.1.1, h.1.2.2.1.trans (by decide), h.1.2.2.2.1⟩

/-! ## The episode directory -/

theorem sink_eq_orderedInsert (x : Episode) (l : List Episode) :
    sink EpisodeService.numberDescending x l
      = List.orderedInsert (fun a b : Episode => a.Number ≤ b.Number) x l := by
  induction l with
  | nil => rfl
  | cons y ys ih =>
    by_cases h : x.Number ≤ y.Number
    · have : ¬ x.Number > y.Number := not_lt.mpr h
      simp [sink, EpisodeService.numberDescending, List.orderedInsert, h, this]
    · have : x.Number > y.Number := not_le.mp h
      simp [sink, EpisodeService.numberDescending, List.orderedInsert, h, this, ih]

theorem foldl_sink_eq (l acc : List Episode) :
    l.foldl (fun sortedRev x => sink EpisodeService.numberDescending x sortedRev) acc
      = List.foldr (List.orderedInsert (fun a b : Episode => a.Number ≤ b.Number)) acc
          l.reverse := by
  induction l generalizing acc with
  | nil => rfl
  | cons x rest ih =>
    rw [List.foldl_cons, ih, List.reverse_cons, List.foldr_append, sink_eq_orderedInsert]
    rfl

theorem foldr_orderedInsert_eq (l : List Episode) :
    List.foldr (List.orderedInsert (fun a b : Episode => a.Number ≤ b.Number)) [] l
      = List.insertionSort (fun a b : Episode => a.Number ≤ b.Number) l := by
  induction l with
  | nil => rfl
  | cons x rest ih => rw [List.foldr_cons, ih]; rfl

/-- The insertion sort of `GetAll` in terms of the library insertion sort. -/
theorem sortSlice_numberDescending (l : List Episode) :
    sortSlice EpisodeService.numberDescending l
      = (List.insertionSort (fun a b : Episode => a.Number ≤ b.Number) l.reverse).reverse := by
  unfold sortSlice
  rw [foldl_sink_eq, foldr_orderedInsert_eq]

theorem sortSlice_perm (l : List Episode) :
    (sortSlice EpisodeService.numberDescending l).Perm l := by
  rw [sortSlice_numberDescending]
  exact (List.reverse_perm _).trans
    ((List.perm_insertionSort _ _).trans (List.reverse_perm l))

theorem sortSlice_pairwise (l : List Episode) :
    (sortSlice EpisodeService.numberDescending l).Pairwise
      (fun a b => a.Number ≥ b.Number) := by
  rw [sortSlice_numberDescending, List.pairwise_reverse]
  haveI : IsTotal Episode (fun a b : Episode => a.Number ≤ b.Number) :=
    ⟨fun a b => le_total a.Number b.Number⟩
  haveI : IsTrans Episode (fun a b : Episode => a.Number ≤ b.Number) :=
    ⟨fun _ _ _ hab hbc => le_trans hab hbc⟩
  exact List.sorted_insertionSort (fun a b : Episode => a.Number ≤ b.Number) l.reverse

/-- The numbers of a permutation ordered by non-increasing `Number` are the same list
whatever sort produced it. -/
theorem numbers_of_sorted_perm (l r : List Episode) (hp : r.Perm l)
    (hs : r.Pairwise (fun a b => a.Number ≥ b.Number)) :
    r.map Episode.Number = (sortSlice EpisodeService.numberDescending l).map Episode.Number := by
  have h1 : (r.map Episode.Number).Perm
      ((sortSlice EpisodeService.numberDescending l).map Episode.Number) :=
    (hp.trans (sortSlice_perm l).symm).map _
  have h2 : (r.map Episode.Number).Sorted (· ≥ ·) := by
    unfold List.Sorted
    rw [List.pairwise_map]
    exact hs
  have h3 : ((sortSlice EpisodeService.numberDescending l).map Episode.Number).Sorted (· ≥ ·) := by
    unfold List.Sorted
    rw [List.pairwise_map]
    exact sortSlice_pairwise l
  exact List.eq_of_perm_of_sorted h1 h2 h3

/-- C19: `GetAll` returns a permutation of the episodes the service holds (same length,
nothing added or dropped), ordered by `Number` non-increasing: every episode has a
number at least that of every later one, in particular of the next one; episodes with
numbers 1, 2, 3 come back in the order 3, 2, 1; the service is as it was. -/
theorem EpisodeService.GetAll_contract (s : EpisodeService) :
    s.GetAll.1.Perm s.episodes ∧
    s.GetAll.1.length = s.episodes.length ∧
    s.GetAll.1.Pairwise (fun a b => a.Number ≥ b.Number) ∧
    s.GetAll.1.Chain' (fun a b => a.Number ≥ b.Number) ∧
    s.GetAll.2 = s ∧
    (∀ e1 e2 e3 : Episode, e1.Number = 1 → e2.Number = 2 → e3.Number = 3 →
      (EpisodeService.mk [e1, e2, e3]).GetAll.1 = [e3, e2, e1]) := by
  have hp : s.GetAll.1.Perm s.episodes := sortSlice_perm s.episodes
  have hs : s.GetAll.1.Pairwise (fun a b => a.Number ≥ b.Number) :=
    sortSlice_pairwise s.episodes
  refine ⟨hp, hp.length_eq, hs, hs.chain', rfl, ?_⟩
  intro e1 e2 e3 h1 h2 h3
  simp [EpisodeService.GetAll, sortSlice, sink, EpisodeService.numberDescending, h1, h2, h3]

/-- C19 at a concrete input: three episodes numbered 1, 2, 3. -/
theorem EpisodeService.GetAll_contract_witness :
    ((EpisodeService.mk
      [⟨"ep001", 1, "", "", "", "", "", "", "", []⟩,
       ⟨"ep002", 2, "", "", "", "", "", "", "", []⟩,
       ⟨"ep003", 3, "", "", "", "", "", "", "", []⟩]).GetAll.1).map Episode.ID
      = ["ep003", "ep002", "ep001"] :=
  (congrArg (List.map Episode.ID)
    ((EpisodeService.GetAll_contract (EpisodeService.mk [])).2.2.2.2.2
      ⟨"ep001", 1, "", "", "", "", "", "", "", []⟩
      ⟨"ep002", 2, "", "", "", "", "", "", "", []⟩
      ⟨"ep003", 3, "", "", "", "", "", "", "", []⟩ rfl rfl rfl)).trans (by decide)

theorem findByID_eq_none (id : String) (l : List Episode) :
    EpisodeService.findByID id l = none ↔ ∀ e ∈ l, e.ID ≠ id := by
  induction l with
  | nil => simp [EpisodeService.findByID]
  | cons x rest ih =>
    by_cases h : x.ID = id
    · simp [EpisodeService.findByID, h]
    · simp [EpisodeService.findByID, h, ih]

theorem findByID_eq_some (id : String) (l : List Episode) (e : Episode)
    (hf : EpisodeService.findByID id l = some e) :
    e.ID = id ∧ ∃ before after, l = before ++ e :: after ∧ ∀ x ∈ before, x.ID ≠ id := by
  induction l with
  | nil => simp [EpisodeService.findByID] at hf
  | cons x rest ih =>
    by_cases h : x.ID = id
    · simp only [EpisodeService.findByID, h, if_true, Option.some.injEq] at hf
      subst hf
      exact ⟨h, [], rest, rfl, by simp⟩
    · simp only [EpisodeService.findByID, h, if_false] at hf
      obtain ⟨hid, before, after, hl, hb⟩ := ih hf
      refine ⟨hid, x :: before, after, by rw [hl]; rfl, ?_⟩
      intro y hy
      rcases List.mem_cons.1 hy with hy | hy
      · rw [hy]; exact h
      · exact hb y hy

/-- C20: `GetByID(id)`, for every list of episodes and every string `id`, the empty one
included, returns an error (and no episode) if and only if no episode of the list has
`ID` equal to `id`; otherwise it returns, without error, the first episode of the list
whose `ID` equals `id`. -/
theorem EpisodeService.GetByID_contract (s : EpisodeService) (id : String) :
    ((∃ msg, s.GetByID id = .error msg) ↔ ∀ e ∈ s.episodes, e.ID ≠ id) ∧
    ((∃ e ∈ s.episodes, e.ID = id) → ∃ e, s.GetByID id = .ok e) ∧
    (∀ e, s.GetByID id = .ok e →
      e.ID = id ∧
      ∃ before after, s.episodes = before ++ e :: after ∧ ∀ x ∈ before, x.ID ≠ id) := by
  refine ⟨?_, ?_, ?_⟩
  · cases hf : EpisodeService.findByID id s.episodes with
    | none =>
      have := (findByID_eq_none id s.episodes).1 hf
      simp only [EpisodeService.GetByID, hf]
      exact ⟨fun _ => this, fun _ => ⟨_, rfl⟩⟩
    | some e =>
      obtain ⟨hid, before, after, hl, _⟩ := findByID_eq_some id s.episodes e hf
      simp only [EpisodeService.GetByID, hf]
      constructor
      · rintro ⟨msg, hmsg⟩; cases hmsg
      · intro hall
        exact absurd hid (hall e (by rw [hl]; simp))
  · rintro ⟨e, he, hid⟩
    cases hf : EpisodeService.findByID id s.episodes with
    | none => exact absurd hid ((findByID_eq_none id s.episodes).1 hf e he)
    | some e0 => exact ⟨e0, by simp only [EpisodeService.GetByID, hf]⟩
  · intro e hok
    cases hf : EpisodeService.findByID id s.episodes with
    | none => simp only [EpisodeService.GetByID, hf] at hok; cases hok
    | some e0 =>
      simp only [EpisodeService.GetByID, hf] at hok
      cases hok
      exact findByID_eq_some id s.episodes _ hf

/-- C20 at concrete inputs: `ep001` is found, `ep999` and the empty id are not. -/
theorem EpisodeService.GetByID_contract_witness :
    (∃ e, (EpisodeService.mk
      [⟨"ep001", 1, "", "", "", "", "", "", "", []⟩,
       ⟨"ep002", 2, "", "", "", "", "", "", "", []⟩]).GetByID "ep001" = .ok e) ∧
    (∃ msg, (EpisodeService.mk
      [⟨"ep001", 1, "", "", "", "", "", "", "", []⟩,
       ⟨"ep002", 2, "", "", "", "", "", "", "", []⟩]).GetByID "ep999" = .error msg) ∧
    (∃ msg, (EpisodeService.mk
      [⟨"ep001", 1, "", "", "", "", "", "", "", []⟩,
       ⟨"ep002", 2, "", "", "", "", "", "", "", []⟩]).GetByID "" = .error msg) :=
  ⟨(EpisodeService.GetByID_contract _ "ep001").2.1
      ⟨⟨"ep001", 1, "", "", "", "", "", "", "", []⟩, by simp, rfl⟩,
   (EpisodeService.GetByID_contract _ "ep999").1.2 (by decide),
   (EpisodeService.GetByID_contract _ "").1.2 (by decide)⟩

/-! ## The featured episode -/

/-- The loop of `GetFeatured` started on `f`: it ends on an episode of `f :: l` with the
greatest number, the first one with that number. -/
theorem foldl_featuredStep_some (l : List Episode) (f : Episode) :
    ∃ g, l.foldl EpisodeService.featuredStep (some f) = some g ∧
      (∀ x ∈ f :: l, x.Number ≤ g.Number) ∧
      ∃ before after, f :: l = before ++ g :: after ∧ ∀ x ∈ before, x.Number < g.Number := by
  induction l generalizing f with
  | nil =>
    exact ⟨f, rfl, by simp, [], [], rfl, by simp⟩
  | cons e rest ih =>
    by_cases h : e.Number > f.Number
    · obtain ⟨g, hg, hmax, before, after, hsplit, hbefore⟩ := ih e
      refine ⟨g, ?_, ?_, f :: before, after, ?_, ?_⟩
      · simpa [List.foldl_cons, EpisodeService.featuredStep, h] using hg
      · intro x hx
        rcases List.mem_cons.1 hx with hx | hx
        · rw [hx]
          exact le_of_lt (lt_of_lt_of_le h (hmax e (List.mem_cons_self _ _)))
        · exact hmax x hx
      · rw [hsplit]; rfl
      · intro x hx
        rcases List.mem_cons.1 hx with hx | hx
        · rw [hx]
          exact lt_of_lt_of_le h (hmax e (List.mem_cons_self _ _))
        · exact hbefore x hx
    · obtain ⟨g, hg, hmax, before, after, hsplit, hbefore⟩ := ih f
      have hef : e.Number ≤ f.Number := not_lt.mp h
      refine ⟨g, ?_, ?_, ?_⟩
      · simpa [List.foldl_cons, EpisodeService.featuredStep, h] using hg
      · intro x hx
        rcases List.mem_cons.1 hx with hx | hx
        · rw [hx]; exact hmax f (List.mem_cons_self _ _)
        · rcases List.mem_cons.1 hx with hx | hx
          · rw [hx]; exact le_trans hef (hmax f (List.mem_cons_self _ _))
          · exact hmax x (List.mem_cons_of_mem _ hx)
      · cases before with
        | nil =>
          have hfg : f = g := by simpa using congrArg List.head? hsplit
          have hrest : rest = after := by simpa using congrArg List.tail hsplit
          exact ⟨[], e :: after, by rw [← hfg, hrest]; rfl, by simp⟩
        | cons b before' =>
          have hfb : f = b := by simpa using congrArg List.head? hsplit
          have hrest : rest = before' ++ g :: after := by
            simpa using congrArg List.tail hsplit
          have hfg : f.Number < g.Number := by
            rw [hfb]; exact hbefore b (List.mem_cons_self _ _)
          refine ⟨f :: e :: before', after, by rw [hrest]; rfl, ?_⟩
          intro x hx
          rcases List.mem_cons.1 hx with hx | hx
          · rw [hx]; exact hfg
          · rcases List.mem_cons.1 hx with hx | hx
            · rw [hx]; exact lt_of_le_of_lt hef hfg
            · exact hbefore x (List.mem_cons_of_mem _ hx)

/-- C21: `GetFeatured` returns an error, and no episode, if and only if the list is
empty; otherwise it returns, without error, an episode of the list whose `Number` is at
least the `Number` of every episode of the list, and every episode before it in the
list has a smaller `Number` (it is the first one with the greatest number). -/
theorem EpisodeService.GetFeatured_contract (s : EpisodeService) :
    (s.GetFeatured.2 ≠ none ↔ s.episodes = []) ∧
    (s.episodes = [] → s.GetFeatured = (none, some "no episodes available")) ∧
    (s.episodes ≠ [] →
      ∃ e, s.GetFeatured = (some e, none) ∧ e ∈ s.episodes ∧
        (∀ x ∈ s.episodes, x.Number ≤ e.Number) ∧
        ∃ before after, s.episodes = before ++ e :: after ∧
          ∀ x ∈ before, x.Number < e.Number) := by
  cases hl : s.episodes with
  | nil =>
    have : s.GetFeatured = (none, some "no episodes available") := by
      simp [EpisodeService.GetFeatured, hl]
    exact ⟨(by simp [this]), fun _ => this, fun h => absurd rfl h⟩
  | cons e0 rest =>
    obtain ⟨g, hg, hmax, before, after, hsplit, hbefore⟩ := foldl_featuredStep_some rest e0
    have hres : s.GetFeatured = (some g, none) := by
      have hfold : (e0 :: rest).foldl EpisodeService.featuredStep none = some g := by
        rw [List.foldl_cons]; exact hg
      simp [EpisodeService.GetFeatured, hl, hfold]
    refine ⟨(by simp [hres]), fun h => (by cases h), fun _ => ⟨g, hres, ?_, hmax, before,
      after, hsplit, hbefore⟩⟩
    rw [hsplit]; simp

/-- C21 at concrete inputs: of the numbers 1, 3, 2, 3 the first episode numbered 3 is
featured; the empty list gives the error. -/
theorem EpisodeService.GetFeatured_contract_witness :
    (∃ e, (EpisodeService.mk
      [⟨"a", 1, "", "", "", "", "", "", "", []⟩, ⟨"b", 3, "", "", "", "", "", "", "", []⟩,
       ⟨"c", 2, "", "", "", "", "", "", "", []⟩, ⟨"d", 3, "", "", "", "", "", "", "", []⟩]
      ).GetFeatured = (some e, none) ∧ e.ID = "b") ∧
    (EpisodeService.mk []).GetFeatured = (none, some "no episodes available") :=
  ⟨by
    obtain ⟨e, he, _⟩ := (EpisodeService.GetFeatured_contract (EpisodeService.mk
      [⟨"a", 1, "", "", "", "", "", "", "", []⟩, ⟨"b", 3, "", "", "", "", "", "", "", []⟩,
       ⟨"c", 2, "", "", "", "", "", "", "", []⟩, ⟨"d", 3, "", "", "", "", "", "", "", []⟩])).2.2
      (by simp)
    refine ⟨e, he, ?_⟩
    have h2 : (EpisodeService.mk
      [⟨"a", 1, "", "", "", "", "", "", "", []⟩, ⟨"b", 3, "", "", "", "", "", "", "", []⟩,
       ⟨"c", 2, "", "", "", "", "", "", "", []⟩, ⟨"d", 3, "", "", "", "", "", "", "", []⟩]
      ).GetFeatured = (some ⟨"b", 3, "", "", "", "", "", "", "", []⟩, none) := by decide
    rw [h2] at he
    have := (Option.some.inj (congrArg Prod.fst he)).symm
    rw [this],
   (EpisodeService.GetFeatured_contract (EpisodeService.mk [])).2.1 rfl⟩

/-! ## The id looked up by `GetEpisodeByID` -/

/-- The digits `strconv.Atoi` reads are the decimal digits `0` to `9`. -/
theorem digitOf_of_isDigit (ch : Char) (h : ch.isDigit = true) :
    digitOf ch = some (ch.toNat - 48) := by
  have h' : 48 ≤ ch.toNat ∧ ch.toNat ≤ 57 := by
    simpa [Char.isDigit, Char.toNat, UInt32.le_def, Fin.le_def] using h
  simp [digitOf, h']

theorem digitOf_of_not_isDigit (ch : Char) (h : ch.isDigit = false) :
    digitOf ch = none := by
  have h' : ¬ (48 ≤ ch.toNat ∧ ch.toNat ≤ 57) := by
    intro hh
    have : ch.isDigit = true := by
      simpa [Char.isDigit, Char.toNat, UInt32.le_def, Fin.le_def] using hh
    rw [h] at this; cases this
  simp [digitOf, h']

/-- A run of decimal digits is read as the number it denotes. -/
theorem parseDecimal_of_digits (ds : List Char) (n : Nat) (h : ds.all Char.isDigit = true) :
    parseDecimal ds n = some (ds.foldl (fun n ch => n * 10 + (ch.toNat - 48)) n) := by
  induction ds generalizing n with
  | nil => rfl
  | cons ch rest ih =>
    rw [List.all_cons, Bool.and_eq_true] at h
    simp only [parseDecimal, digitOf_of_isDigit ch h.1, List.foldl_cons]
    exact ih _ h.2

/-- A run with a character that is no decimal digit is not read. -/
theorem parseDecimal_of_not_digits (ds : List Char) (n : Nat)
    (h : ds.all Char.isDigit = false) : parseDecimal ds n = none := by
  induction ds generalizing n with
  | nil => simp at h
  | cons ch rest ih =>
    cases hc : ch.isDigit with
    | false => simp [parseDecimal, digitOf_of_not_isDigit ch hc]
    | true =>
      have hr : rest.all Char.isDigit = false := by
        rw [List.all_cons, hc, Bool.true_and] at h; exact h
      simp only [parseDecimal, digitOf_of_isDigit ch hc]
      exact ih _ hr

set_option maxRecDepth 1000000 in
/-- The padded rendering of every number below 1000, by evaluation. -/
theorem padNumber_below_1000 :
    ∀ k : Fin 1000,
      (padNumber (k.val : Int)).length = 3 ∧
      (padNumber (k.val : Int)).data.all Char.isDigit = true ∧
      decimalValue (padNumber (k.val : Int)).data = k.val := by
  decide

/-- What `Atoi` returns on a non-empty run of decimal digits: the number denoted when it
fits `int`, an error otherwise. -/
theorem Atoi_of_digit_run (id : String) (hne : id.data ≠ [])
    (hd : id.data.all Char.isDigit = true) :
    Atoi id = if decimalValue id.data ≤ 9223372036854775807
      then some (decimalValue id.data : Int) else none := by
  unfold Atoi
  cases hdata : id.data with
  | nil => exact absurd hdata hne
  | cons ch rest =>
    rw [hdata] at hd
    have hch : ch.isDigit = true := by
      rw [List.all_cons, Bool.and_eq_true] at hd; exact hd.1
    have hm : ch ≠ '-' := by rintro rfl; revert hch; decide
    have hp : ch ≠ '+' := by rintro rfl; revert hch; decide
    simp only [hm, hp, if_false, parseDecimal_of_digits (ch :: rest) 0 hd]
    rfl

/-- What `Atoi` returns on `+` followed by a non-empty run of decimal digits. -/
theorem Atoi_of_plus_digit_run (id : String) (ds : List Char) (hdata : id.data = '+' :: ds)
    (hne : ds ≠ []) (hd : ds.all Char.isDigit = true) :
    Atoi id = if decimalValue ds ≤ 9223372036854775807
      then some (decimalValue ds : Int) else none := by
  unfold Atoi
  rw [hdata]
  have hm : ('+' : Char) ≠ '-' := by decide
  simp only [hm, if_false, if_true, hne, parseDecimal_of_digits ds 0 hd]
  rfl

/-- The function `Atoi` returns an error on a string that is not a non-empty run of decimal
digits, with or without a sign in front. -/
theorem Atoi_of_no_digit_run (id : String)
    (h : ∀ ds, id.data = ds ∨ id.data = '+' :: ds ∨ id.data = '-' :: ds →
      ds = [] ∨ ds.all Char.isDigit = false) :
    Atoi id = none := by
  unfold Atoi
  cases hdata : id.data with
  | nil => rfl
  | cons ch rest =>
    dsimp only
    by_cases hm : ch = '-'
    · rw [if_pos hm]
      rcases h rest (Or.inr (Or.inr (by rw [hdata, hm]))) with h0 | h0
      · rw [if_pos h0]
      · by_cases hr : rest = []
        · rw [if_pos hr]
        · rw [if_neg hr, parseDecimal_of_not_digits rest 0 h0]
    · rw [if_neg hm]
      by_cases hp : ch = '+'
      · rw [if_pos hp]
        rcases h rest (Or.inr (Or.inl (by rw [hdata, hp]))) with h0 | h0
        · rw [if_pos h0]
        · by_cases hr : rest = []
          · rw [if_pos hr]
          · rw [if_neg hr, parseDecimal_of_not_digits rest 0 h0]
      · rw [if_neg hp]
        rcases h (ch :: rest) (Or.inl hdata) with h0 | h0
        · cases h0
        · rw [parseDecimal_of_not_digits (ch :: rest) 0 h0]

/-- C22 as stated fails. The parameter `9223372036854775808` is a run of decimal digits
denoting 2^63, and it is looked up unchanged, not as `ep9223372036854775808`; the
parameter `+1` is not a run of decimal digits, and it is looked up as `ep001`, not
unchanged. -/
theorem lookupID_counterexample :
    ("9223372036854775808" : String).data.all Char.isDigit = true ∧
    decimalValue ("9223372036854775808" : String).data = 9223372036854775808 ∧
    lookupID "9223372036854775808" = "9223372036854775808" ∧
    "ep" ++ padNumber 9223372036854775808 = "ep9223372036854775808" ∧
    ("+1" : String).data.all Char.isDigit = false ∧
    lookupID "+1" = "ep001" := by
  decide

/-- C22 amended: the id `GetEpisodeByID` looks up. For a path parameter that is a
non-empty run of decimal digits denoting a number `n ≤ 9223372036854775807`, with or
without a `+` in front, it is `ep` followed by `padNumber(n)`; a run of decimal digits
denoting a larger number is looked up unchanged, and so is every parameter that is not
a non-empty run of decimal digits with or without a sign in front; `padNumber(n)` is a
string of exactly 3 decimal digits whose value is `n` for `0 ≤ n ≤ 999`, and the plain
decimal rendering of `n` for `n ≥ 1000`; the handler answers 200 exactly when `GetByID`
finds the id so computed. -/
theorem lookupID_contract :
    (∀ id : String, id.data ≠ [] → id.data.all Char.isDigit = true →
      decimalValue id.data ≤ 9223372036854775807 →
      lookupID id = "ep" ++ padNumber (decimalValue id.data : Int)) ∧
    (∀ (id : String) (ds : List Char), id.data = '+' :: ds → ds ≠ [] →
      ds.all Char.isDigit = true → decimalValue ds ≤ 9223372036854775807 →
      lookupID id = "ep" ++ padNumber (decimalValue ds : Int)) ∧
    (∀ id : String, id.data.all Char.isDigit = true →
      9223372036854775807 < decimalValue id.data → lookupID id = id) ∧
    (∀ id : String,
      (∀ ds, id.data = ds ∨ id.data = '+' :: ds ∨ id.data = '-' :: ds →
        ds = [] ∨ ds.all Char.isDigit = false) →
      lookupID id = id) ∧
    (∀ n : Int, 0 ≤ n → n ≤ 999 →
      (padNumber n).length = 3 ∧
      (padNumber n).data.all Char.isDigit = true ∧
      (decimalValue (padNumber n).data : Int) = n) ∧
    (∀ n : Int, 1000 ≤ n → padNumber n = Itoa n) ∧
    (∀ (s : EpisodeService) (id : String), id ≠ "" →
      ((GetEpisodeByID s id).1 = 200 ↔ ∃ e, s.GetByID (lookupID id) = .ok e)) := by
  refine ⟨?_, ?_, ?_, ?_, ?_, ?_, ?_⟩
  · intro id hne hd hfit
    simp [lookupID, Atoi_of_digit_run id hne hd, hfit]
  · intro id ds hdata hne hd hfit
    simp [lookupID, Atoi_of_plus_digit_run id ds hdata hne hd, hfit]
  · intro id hd hbig
    have hne : id.data ≠ [] := by
      intro h0
      rw [h0] at hbig
      simp [decimalValue] at hbig
    have hnot : ¬ decimalValue id.data ≤ 9223372036854775807 := by omega
    simp [lookupID, Atoi_of_digit_run id hne hd, hnot]
  · intro id h
    simp [lookupID, Atoi_of_no_digit_run id h]
  · intro n h0 h999
    have hk : n.toNat < 1000 := by omega
    have hn : ((n.toNat : Nat) : Int) = n := Int.toNat_of_nonneg h0
    have := padNumber_below_1000 ⟨n.toNat, hk⟩
    simp only [hn] at this
    refine ⟨this.1, this.2.1, ?_⟩
    rw [this.2.2]
    exact hn
  · intro n hn
    have h1 : ¬ n < 10 := by omega
    have h2 : ¬ n < 100 := by omega
    simp [padNumber, h1, h2]
  · intro s id hid
    unfold GetEpisodeByID
    rw [if_neg hid]
    cases hg : s.GetByID (lookupID id) with
    | error msg => simp
    | ok e => simp

/-- C22 amended, at the inputs of the handler test and a few more: `1` is looked up as
`ep001` and found in the default list, `007` as `ep007`, `1234` as `ep1234`, `+12` as
`ep012`; `99999999999999999999`, `ep001` and `invalid` are looked up unchanged. -/
theorem lookupID_contract_witness :
    lookupID "1" = "ep001" ∧ lookupID "007" = "ep007" ∧ lookupID "1234" = "ep1234" ∧
    lookupID "+12" = "ep012" ∧
    lookupID "99999999999999999999" = "99999999999999999999" ∧
    lookupID "ep001" = "ep001" ∧ lookupID "invalid" = "invalid" ∧
    (GetEpisodeByID ⟨getDefaultEpisodes⟩ "1").1 = 200 ∧
    (GetEpisodeByID ⟨getDefaultEpisodes⟩ "ep999").1 = 404 :=
  ⟨(lookupID_contract.1 "1" (by decide) (by decide) (by decide)).trans (by decide),
   (lookupID_contract.1 "007" (by decide) (by decide) (by decide)).trans (by decide),
   (lookupID_contract.1 "1234" (by decide) (by decide) (by decide)).trans (by decide),
   (lookupID_contract.2.1 "+12" ['1', '2'] (by decide) (by decide) (by decide)
      (by decide)).trans (by decide),
   lookupID_contract.2.2.1 "99999999999999999999" (by decide) (by decide),
   lookupID_contract.2.2.2.1 "ep001" (by
     rintro ds (h | h | h)
     · subst h; exact Or.inr (by decide)
     · have h2 : ("ep001" : String).data.head? = some '+' := by rw [h]; rfl
       exact absurd h2 (by decide)
     · have h2 : ("ep001" : String).data.head? = some '-' := by rw [h]; rfl
       exact absurd h2 (by decide)),
   lookupID_contract.2.2.2.1 "invalid" (by
     rintro ds (h | h | h)
     · subst h; exact Or.inr (by decide)
     · have h2 : ("invalid" : String).data.head? = some '+' := by rw [h]; rfl
       exact absurd h2 (by decide)
     · have h2 : ("invalid" : String).data.head? = some '-' := by rw [h]; rfl
       exact absurd h2 (by decide)),
   by decide, by decide⟩

/-! ## The construction of the episode service -/

/-- `loadEpisodes` returns an error exactly when the file cannot be opened, cannot be
read, or does not parse. -/
theorem loadEpisodes_error_iff (w : World) (s : EpisodeService) :
    (s.loadEpisodes w).2 ≠ none ↔
      (w.openFails (if w.notExist "../../frontend/site/content/episodes.json"
          then "app/frontend/site/content/episodes.json"
          else "../../frontend/site/content/episodes.json") = true ∨
        w.readAll (if w.notExist "../../frontend/site/content/episodes.json"
          then "app/frontend/site/content/episodes.json"
          else "../../frontend/site/content/episodes.json") = none ∨
        ∃ data, w.readAll (if w.notExist "../../frontend/site/content/episodes.json"
          then "app/frontend/site/content/episodes.json"
          else "../../frontend/site/content/episodes.json") = some data ∧
          (w.unmarshal data s.episodes).2 ≠ none) := by
  unfold EpisodeService.loadEpisodes
  dsimp only
  by_cases ho : w.openFails (if w.notExist "../../frontend/site/content/episodes.json"
      then "app/frontend/site/content/episodes.json"
      else "../../frontend/site/content/episodes.json") = true
  · simp [ho]
  · rw [if_neg ho]
    cases hr : w.readAll (if w.notExist "../../frontend/site/content/episodes.json"
        then "app/frontend/site/content/episodes.json"
        else "../../frontend/site/content/episodes.json") with
    | none => simp
    | some data =>
      cases hu : (w.unmarshal data s.episodes).2 with
      | none => simp [ho, hu]
      | some msg => simp [hu]

/-- C23: whenever `loadEpisodes` returns an error (the file cannot be opened, cannot be
read, or does not parse, whatever was decoded before the parse error), the service
built by `NewEpisodeService` holds exactly the default list, `ep001` with number 1 and
`ep002` with number 2; the constructor returns a service and no error. In that case
`GetAll` is not empty, `GetByID("ep001")` succeeds and `GetByID("ep999")` is an error. -/
theorem NewEpisodeService_fallback (w : World)
    (hfail : ((EpisodeService.mk []).loadEpisodes w).2 ≠ none) :
    NewEpisodeService w = ⟨getDefaultEpisodes⟩ ∧
    (NewEpisodeService w).episodes.map (fun e => (e.ID, e.Number))
      = [("ep001", 1), ("ep002", 2)] ∧
    (NewEpisodeService w).GetAll.1 ≠ [] ∧
    (∃ e, (NewEpisodeService w).GetByID "ep001" = .ok e ∧ e.ID = "ep001") ∧
    (∃ msg, (NewEpisodeService w).GetByID "ep999" = .error msg) := by
  have h : NewEpisodeService w = ⟨getDefaultEpisodes⟩ := by
    unfold NewEpisodeService
    dsimp only
    cases hr : ((EpisodeService.mk []).loadEpisodes w).2 with
    | none => exact absurd hr hfail
    | some msg => rfl
  rw [h]
  exact ⟨rfl, (by decide), (by decide), ⟨_, rfl, rfl⟩, ⟨_, rfl⟩⟩

/-- C23 at concrete inputs: a file that cannot be opened, and a file whose parse fails
after one episode was decoded. -/
theorem NewEpisodeService_fallback_witness :
    NewEpisodeService ⟨fun _ => true, fun _ => true, fun _ => none, fun _ l => (l, none)⟩
      = ⟨getDefaultEpisodes⟩ ∧
    NewEpisodeService ⟨fun _ => false, fun _ => false, fun _ => some [91],
      fun _ _ => ([⟨"x", 7, "", "", "", "", "", "", "", []⟩], some "unexpected end")⟩
      = ⟨getDefaultEpisodes⟩ :=
  ⟨(NewEpisodeService_fallback _ (by decide)).1, (NewEpisodeService_fallback _ (by decide)).1⟩

/-! ## Clients do not interfere; the sweeps are invisible -/

namespace RateLimiter

/-- The answer of `IsAllowed` for a client, and the list it leaves for that client,
depend only on the list recorded for the client, the limit and the window. -/
theorem IsAllowed_congr (rl rl' : RateLimiter) (ip : String) (t : Time)
    (hrec : inWindow t rl.checkWindow (rl.recorded ip) = inWindow t rl'.checkWindow (rl'.recorded ip))
    (hlim : rl.limit = rl'.limit) :
    (rl.IsAllowed ip t).1 = (rl'.IsAllowed ip t).1 ∧
    (rl.IsAllowed ip t).2.requests.get ip = (rl'.IsAllowed ip t).2.requests.get ip := by
  rw [IsAllowed_eq rl ip t, IsAllowed_eq rl' ip t, hrec, hlim]
  by_cases h : rl'.limit ≤ ((inWindow t rl'.checkWindow (rl'.recorded ip)).length : Int)
  · rw [if_pos h, if_pos h]
    exact ⟨rfl, by simp [GoMap.get_set]⟩
  · rw [if_neg h, if_neg h]
    exact ⟨rfl, by simp [GoMap.get_set]⟩

theorem IsAllowed_recorded_other (rl : RateLimiter) (a b : String) (now : Time)
    (hab : a ≠ b) : (rl.IsAllowed a now).2.recorded b = rl.recorded b := by
  unfold recorded
  rw [IsAllowed_get_other rl a b now (fun e => hab e.symm)]

theorem callAll_other (a b : String) (hab : a ≠ b) (ts : List Time) (rl : RateLimiter) :
    (rl.callAll a ts).2.requests.get b = rl.requests.get b ∧
    (rl.callAll a ts).2.limit = rl.limit ∧
    (rl.callAll a ts).2.window = rl.window := by
  induction ts generalizing rl with
  | nil => exact ⟨rfl, rfl, rfl⟩
  | cons u rest ih =>
    obtain ⟨h1, h2, h3⟩ := ih (rl.IsAllowed a u).2
    refine ⟨?_, ?_, ?_⟩
    · show ((rl.IsAllowed a u).2.callAll a rest).2.requests.get b = _
      rw [h1, IsAllowed_get_other rl a b u (fun e => hab e.symm)]
    · show ((rl.IsAllowed a u).2.callAll a rest).2.limit = _
      rw [h2, IsAllowed_limit]
    · show ((rl.IsAllowed a u).2.callAll a rest).2.window = _
      rw [h3, IsAllowed_window]

/-- The list recorded for a client after a sweep: the timestamps younger than twice the
window. -/
theorem cleanupPass_recorded (rl : RateLimiter) (now : Time) (ip : String) :
    (rl.cleanupPass now).recorded ip = inWindow now rl.sweepWindow (rl.recorded ip) := by
  unfold recorded
  rw [rate_cleanupPass_get]
  cases hg : rl.requests.get ip with
  | none => rfl
  | some ts =>
    by_cases he : inWindow now rl.sweepWindow ts = []
    · simp [he]
    · simp [he]

end RateLimiter

theorem inWindow_after_sweep (s t : Time) (d : Duration) (l : List Time)
    (hd : 0 ≤ d) (hst : s ≤ t) :
    inWindow t d (inWindow s (2 * d) l) = inWindow t d l := by
  unfold inWindow
  rw [List.filter_filter]
  apply List.filter_congr
  intro x _
  by_cases hx : t - x < d
  · have : s - x < 2 * d := by linarith
    simp [hx, this]
  · simp [hx]

/-- C24: pruning is per client. For two different client keys `a` and `b`, a call
`IsAllowed(a)` leaves the list recorded for `b` as it was, and so does any number of
calls for `a`; a later `IsAllowed(b)`, at any time, returns the same boolean and leaves
the same list for `b` as if no call for `a` had been made. -/
theorem RateLimiter.IsAllowed_per_client (rl : RateLimiter) (a b : String) (hab : a ≠ b) :
    (∀ now, (rl.IsAllowed a now).2.requests.get b = rl.requests.get b) ∧
    (∀ ts, (rl.callAll a ts).2.requests.get b = rl.requests.get b) ∧
    (∀ ts t,
      ((rl.callAll a ts).2.IsAllowed b t).1 = (rl.IsAllowed b t).1 ∧
      ((rl.callAll a ts).2.IsAllowed b t).2.requests.get b
        = (rl.IsAllowed b t).2.requests.get b) := by
  refine ⟨fun now => RateLimiter.IsAllowed_get_other rl a b now (fun e => hab e.symm),
    fun ts => (RateLimiter.callAll_other a b hab ts rl).1, fun ts t => ?_⟩
  obtain ⟨h1, h2, h3⟩ := RateLimiter.callAll_other a b hab ts rl
  apply RateLimiter.IsAllowed_congr
  · rw [RateLimiter.checkWindow_congr _ _ h3]
    unfold RateLimiter.recorded
    rw [h1]
  · exact h2

/-- C24 at a concrete input: limit 2, window 10; three calls for a, then b is admitted
at time 3 and its list is `[3]`. -/
theorem RateLimiter.IsAllowed_per_client_witness :
    (((NewRateLimiter 2 10).callAll "a" [0, 1, 2]).2.IsAllowed "b" 3).1 = true ∧
    (((NewRateLimiter 2 10).callAll "a" [0, 1, 2]).2.IsAllowed "b" 3).2.requests.get "b"
      = some [3] :=
  have h := (RateLimiter.IsAllowed_per_client (NewRateLimiter 2 10) "a" "b"
    (by decide)).2.2 [0, 1, 2] 3
  ⟨h.1.trans (by decide), h.2.trans (by decide)⟩

/-- C25: the cache sweep is invisible to readers. For every cache state, every sweep
time `s`, every read time `t ≥ s` and every key, `Get(key)` at `t` returns the same
value and the same found flag after a sweep at `s` as without it. -/
theorem CacheManager.sweep_invisible (cm : CacheManager) (s t : Time) (key : String)
    (hst : s ≤ t) : (cm.cleanupPass s).Get key t = cm.Get key t := by
  cases hg : cm.cache.get key with
  | none =>
    have h' : (cm.cleanupPass s).cache.get key = none := by
      rw [CacheManager.cache_cleanupPass_get, hg]
    rw [CacheManager.Get_of_get_none _ key t h', CacheManager.Get_of_get_none _ key t hg]
  | some e =>
    rw [CacheManager.Get_of_get_some cm key t e hg]
    by_cases hl : s - e.Timestamp ≤ e.TTL
    · have h' : (cm.cleanupPass s).cache.get key = some e := by
        rw [CacheManager.cache_cleanupPass_get, hg]
        exact if_pos hl
      rw [CacheManager.Get_of_get_some _ key t e h']
    · have h' : (cm.cleanupPass s).cache.get key = none := by
        rw [CacheManager.cache_cleanupPass_get, hg]
        exact if_neg hl
      have hdead : ¬ t - e.Timestamp ≤ e.TTL := by
        intro h
        exact hl (le_trans (sub_le_sub_right hst _) h)
      rw [CacheManager.Get_of_get_none _ key t h', if_neg hdead]

/-- C25 at a concrete input: an entry expired at the sweep is not found either way, a
live one is found either way. -/
theorem CacheManager.sweep_invisible_witness :
    (((CacheManager.new.Set "a" [1] 5 0).Set "b" [2] 50 0).cleanupPass 10).Get "a" 12
      = ([], false) ∧
    (((CacheManager.new.Set "a" [1] 5 0).Set "b" [2] 50 0).cleanupPass 10).Get "b" 12
      = ([2], true) :=
  ⟨(CacheManager.sweep_invisible _ 10 12 "a" (by decide)).trans (by decide),
   (CacheManager.sweep_invisible _ 10 12 "b" (by decide)).trans (by decide)⟩

/-- C26 as stated fails when `-window * 2` overflows: limit 1, window `2^62 + 1` ns, one
request recorded at time 0. The call at time 2 is rejected without a sweep, and admitted
after the sweep at time 1, which removes the client. -/
theorem RateLimiter.sweep_keeps_decision_counterexample :
    (0 : Duration) ≤ 4611686018427387905 ∧
    (((NewRateLimiter 1 4611686018427387905).IsAllowed "a" 0).2.IsAllowed "a" 2).1
      = false ∧
    ((((NewRateLimiter 1 4611686018427387905).IsAllowed "a" 0).2.cleanupPass 1).IsAllowed
      "a" 2).1 = true := by
  decide

/-- C26 amended: the rate-limiter sweep does not change an admission decision when
`0 ≤ window ≤ 2^62` nanoseconds (so that `-window * 2` does not overflow). For every
limiter state, sweep time `s`, client key and time `t ≥ s`, `IsAllowed(clientKey)` at
`t` returns the same boolean and leaves the same list for that client after a sweep at
`s` as without it. -/
theorem RateLimiter.sweep_keeps_decision (rl : RateLimiter) (s t : Time) (ip : String)
    (hW : 0 ≤ rl.window) (hmax : rl.window ≤ 4611686018427387904) (hst : s ≤ t) :
    ((rl.cleanupPass s).IsAllowed ip t).1 = (rl.IsAllowed ip t).1 ∧
    ((rl.cleanupPass s).IsAllowed ip t).2.requests.get ip
      = (rl.IsAllowed ip t).2.requests.get ip := by
  have hne : rl.window ≠ MinInt64 := by
    intro e
    rw [e] at hW
    exact absurd hW (by decide)
  have hlow : -4611686018427387904 < rl.window := lt_of_lt_of_le (by decide) hW
  apply RateLimiter.IsAllowed_congr
  · rw [RateLimiter.checkWindow_congr _ rl (RateLimiter.cleanupPass_window rl s),
      RateLimiter.cleanupPass_recorded, RateLimiter.sweepWindow_eq rl hlow hmax,
      RateLimiter.checkWindow_eq rl hne, inWindow_after_sweep s t rl.window _ hW hst]
  · exact RateLimiter.cleanupPass_limit rl s

/-- C26 amended, at a concrete input: limit 2, window 10, requests at 0 and 15; the sweep
at 21 drops the timestamp 0, and the call at 22 is admitted with or without it. -/
theorem RateLimiter.sweep_keeps_decision_witness :
    ((((NewRateLimiter 2 10).callAll "a" [0, 15]).2.cleanupPass 21).IsAllowed "a" 22).1
      = true ∧
    ((((NewRateLimiter 2 10).callAll "a" [0, 15]).2.cleanupPass 21).IsAllowed "a"
      22).2.requests.get "a" = some [15, 22] :=
  have h := RateLimiter.sweep_keeps_decision ((NewRateLimiter 2 10).callAll "a" [0, 15]).2
    21 22 "a" (by decide) (by decide) (by decide)
  ⟨h.1.trans (by decide), h.2.trans (by decide)⟩

/-! ## Bounded memory per client -/

namespace RateLimiter

theorem step_limit (rl : RateLimiter) (op : RateOp) : (rl.step op).limit = rl.limit := by
  cases op with
  | call ip now => exact IsAllowed_limit rl ip now
  | sweep now => exact cleanupPass_limit rl now

theorem recorded_of_get (rl : RateLimiter) (ip : String) (ts : List Time)
    (h : rl.requests.get ip = some ts) : rl.recorded ip = ts := by
  simp [recorded, h]

/-- One operation keeps every list within the limit, when the limit is not negative. -/
theorem step_length_le (rl : RateLimiter) (op : RateOp) (h0 : 0 ≤ rl.limit)
    (hinv : ∀ ip ts, rl.requests.get ip = some ts → (ts.length : Int) ≤ rl.limit) :
    ∀ ip ts, (rl.step op).requests.get ip = some ts → (ts.length : Int) ≤ rl.limit := by
  intro ip ts hts
  cases op with
  | call ip' now =>
    by_cases hk : ip = ip'
    · subst hk
      have hts' : (rl.IsAllowed ip now).2.requests.get ip = some ts := hts
      rw [IsAllowed_get_self, IsAllowed_recorded] at hts'
      have hlist := Option.some.inj hts'
      have hprev : ((rl.recorded ip).length : Int) ≤ rl.limit := by
        cases hg : rl.requests.get ip with
        | none => simpa [recorded, hg] using h0
        | some ts0 => rw [recorded_of_get rl ip ts0 hg]; exact hinv ip ts0 hg
      have hle : ((inWindow now rl.checkWindow (rl.recorded ip)).length : Int)
          ≤ ((rl.recorded ip).length : Int) := by
        exact_mod_cast inWindow_length_le now rl.checkWindow (rl.recorded ip)
      by_cases hadm : (rl.IsAllowed ip now).1 = true
      · rw [if_pos hadm] at hlist
        have hlt : ¬ rl.limit ≤ ((inWindow now rl.checkWindow (rl.recorded ip)).length : Int) := by
          intro hge
          rw [IsAllowed_eq, if_pos hge] at hadm
          cases hadm
        rw [← hlist]
        simp only [List.length_append, List.length_cons, List.length_nil]
        push_cast
        linarith [not_le.mp hlt]
      · rw [if_neg hadm] at hlist
        rw [← hlist]
        exact le_trans hle hprev
    · have hts' : (rl.IsAllowed ip' now).2.requests.get ip = some ts := hts
      rw [IsAllowed_get_other rl ip' ip now hk] at hts'
      exact hinv ip ts hts'
  | sweep now =>
    have hts' : (rl.cleanupPass now).requests.get ip = some ts := hts
    rw [rate_cleanupPass_get] at hts'
    cases hg : rl.requests.get ip with
    | none => simp [hg] at hts'
    | some ts0 =>
      simp only [hg] at hts'
      split at hts'
      · cases hts'
      · have := Option.some.inj hts'
        rw [← this]
        have hle : ((inWindow now rl.sweepWindow ts0).length : Int) ≤ (ts0.length : Int) := by
          exact_mod_cast inWindow_length_le now rl.sweepWindow ts0
        exact le_trans hle (hinv ip ts0 hg)

/-- With a limit that is not positive every call is rejected. -/
theorem IsAllowed_of_limit_nonpos (rl : RateLimiter) (ip : String) (now : Time)
    (hL : rl.limit ≤ 0) : (rl.IsAllowed ip now).1 = false := by
  have : rl.limit ≤ ((inWindow now rl.checkWindow (rl.recorded ip)).length : Int) :=
    le_trans hL (Int.ofNat_nonneg _)
  rw [IsAllowed_eq, if_pos this]

/-- One operation keeps every list empty, when the limit is not positive. -/
theorem step_empty (rl : RateLimiter) (op : RateOp) (hL : rl.limit ≤ 0)
    (hinv : ∀ ip ts, rl.requests.get ip = some ts → ts = []) :
    ∀ ip ts, (rl.step op).requests.get ip = some ts → ts = [] := by
  intro ip ts hts
  cases op with
  | call ip' now =>
    by_cases hk : ip = ip'
    · subst hk
      have hts' : (rl.IsAllowed ip now).2.requests.get ip = some ts := hts
      rw [IsAllowed_get_self, IsAllowed_recorded] at hts'
      have hlist := Option.some.inj hts'
      have hrej : ¬ (rl.IsAllowed ip now).1 = true := by
        rw [IsAllowed_of_limit_nonpos rl ip now hL]; simp
      have hprev : rl.recorded ip = [] := by
        cases hg : rl.requests.get ip with
        | none => simp [recorded, hg]
        | some ts0 => rw [recorded_of_get rl ip ts0 hg]; exact hinv ip ts0 hg
      rw [if_neg hrej, hprev] at hlist
      rw [← hlist]; rfl
    · have hts' : (rl.IsAllowed ip' now).2.requests.get ip = some ts := hts
      rw [IsAllowed_get_other rl ip' ip now hk] at hts'
      exact hinv ip ts hts'
  | sweep now =>
    have hts' : (rl.cleanupPass now).requests.get ip = some ts := hts
    rw [rate_cleanupPass_get] at hts'
    cases hg : rl.requests.get ip with
    | none => simp [hg] at hts'
    | some ts0 =>
      have h0 : ts0 = [] := hinv ip ts0 hg
      subst h0
      simp [hg, inWindow] at hts'

theorem run_length_le (ops : List RateOp) (rl : RateLimiter) (h0 : 0 ≤ rl.limit)
    (hinv : ∀ ip ts, rl.requests.get ip = some ts → (ts.length : Int) ≤ rl.limit) :
    ∀ ip ts, (rl.run ops).requests.get ip = some ts → (ts.length : Int) ≤ rl.limit := by
  induction ops generalizing rl with
  | nil => exact hinv
  | cons op rest ih =>
    have hl := step_limit rl op
    have := ih (rl.step op) (by rw [hl]; exact h0)
      (by rw [hl]; exact step_length_le rl op h0 hinv)
    rw [hl] at this
    exact this

theorem run_empty (ops : List RateOp) (rl : RateLimiter) (hL : rl.limit ≤ 0)
    (hinv : ∀ ip ts, rl.requests.get ip = some ts → ts = []) :
    ∀ ip ts, (rl.run ops).requests.get ip = some ts → ts = [] := by
  induction ops generalizing rl with
  | nil => exact hinv
  | cons op rest ih =>
    exact ih (rl.step op) (by rw [step_limit]; exact hL) (step_empty rl op hL hinv)

end RateLimiter

/-- C27: bounded memory per client. In every state reached from the state built by
`NewRateLimiter(limit, window)` by any sequence of `IsAllowed` calls and sweeps: when
`limit ≥ 0`, the list stored for each client has at most `limit` timestamps; when
`limit ≤ 0`, every call of `IsAllowed` returns false and every stored list is empty. -/
theorem RateLimiter.bounded_memory (limit : Int) (window : Duration) (ops : List RateOp) :
    (0 ≤ limit → ∀ ip ts,
      ((NewRateLimiter limit window).run ops).requests.get ip = some ts →
        (ts.length : Int) ≤ limit) ∧
    (limit ≤ 0 →
      (∀ ip now, (((NewRateLimiter limit window).run ops).IsAllowed ip now).1 = false) ∧
      (∀ ip ts, ((NewRateLimiter limit window).run ops).requests.get ip = some ts →
        ts = [])) := by
  have hnone : ∀ ip, (NewRateLimiter limit window).requests.get ip = none :=
    fun ip => GoMap.get_empty ip
  constructor
  · intro h0
    exact RateLimiter.run_length_le ops (NewRateLimiter limit window) h0
      (fun ip ts h => by rw [hnone ip] at h; cases h)
  · intro hL
    constructor
    · intro ip now
      apply RateLimiter.IsAllowed_of_limit_nonpos
      rw [RateLimiter.run_limit]
      exact hL
    · exact RateLimiter.run_empty ops (NewRateLimiter limit window) hL
        (fun ip ts h => by rw [hnone ip] at h; cases h)

/-- C27 at concrete inputs: limit 2, four calls and a sweep leave two timestamps; limit
0, a call is rejected and leaves an empty list. -/
theorem RateLimiter.bounded_memory_witness :
    ((NewRateLimiter 2 10).run
      [RateOp.call "a" 0, RateOp.call "a" 1, RateOp.call "a" 2, RateOp.sweep 3,
       RateOp.call "a" 4]).requests.get "a" = some [0, 1] ∧
    ((2 : Nat) : Int) ≤ 2 ∧
    (((NewRateLimiter 0 10).run [RateOp.call "a" 0]).IsAllowed "a" 1).1 = false ∧
    ((NewRateLimiter 0 10).run [RateOp.call "a" 0]).requests.get "a" = some [] :=
  ⟨by decide,
   (RateLimiter.bounded_memory 2 10
      [RateOp.call "a" 0, RateOp.call "a" 1, RateOp.call "a" 2, RateOp.sweep 3,
       RateOp.call "a" 4]).1 (by decide) "a" [0, 1] (by decide),
   ((RateLimiter.bounded_memory 0 10 [RateOp.call "a" 0]).2 (by decide)).1 "a" 1,
   by decide⟩

end Podcast
